import Mathlib

/-! Reconstruction statistics: aliceVision/sfm/sfmStatistics.cpp

A shallow embedding of the statistics routines of `sfmStatistics.cpp` and the
properties of them that the specification states.

Conventions of the embedding.

* `IndexT` (an unsigned 32-bit identifier) is a natural number; `int` and
  `std::size_t` counters are unbounded integers and naturals (overflow is
  outside the model).
* `double` is modelled by the exact rationals: rounding is outside the model.
* A `std::map` (the containers `Views`, `Poses`, `Intrinsics`, `Landmarks`,
  `Observations`) is the list of its entries in iteration order, which is the
  order of strictly ascending keys.
* A `std::set<IndexT>` that is only tested for emptiness and membership is a
  `Finset`.
* An output parameter is passed in and returned. A null `out_histogram` is
  `none`, a pointer to a histogram `h` is `some h`.
* A function whose execution can raise an exception or has no defined
  behaviour returns an `Option`; `none` stands for "no result".
-/

namespace aliceVision

/-- Identifier type of the source (views, poses, intrinsics, landmarks, tracks). -/
abbrev IndexT := Nat

/-- The type `double`, modelled by exact rational numbers. -/
abbrev Double := ℚ

/-- A 2D point (an observed position). -/
abbrev Vec2 := Double × Double

/-- A 3D point. -/
abbrev Vec3 := Double × Double × Double

/-- An associative container of the kind of `std::map<IndexT, V>`: its entries in
iteration order, with strictly ascending (hence pairwise distinct) keys. -/
structure StdMap (V : Type) where
  entries : List (IndexT × V)
  ordered : entries.Pairwise (fun a b => a.1 < b.1)

namespace StdMap

variable {V : Type}

/-- Member function `empty()`. -/
def empty (m : StdMap V) : Bool := m.entries.isEmpty

/-- Member function `size()`. -/
def size (m : StdMap V) : Nat := m.entries.length

/-- Lookup of a key (`find`, `at`): the mapped value, or `none` when the key is absent. -/
def find (m : StdMap V) (k : IndexT) : Option V := m.entries.lookup k

/-- The keys in iteration order. -/
def keys (m : StdMap V) : List IndexT := m.entries.map Prod.fst

end StdMap

/-- Member function `count` of a `std::set<IndexT>`: 1 for a member, 0 otherwise. -/
def setCount (s : Finset IndexT) (k : IndexT) : Nat := if k ∈ s then 1 else 0

/-! ## Local maps

The routines build local `std::map` objects. A local map is the list of its
entries; the operations below keep the keys strictly ascending. -/

namespace LocalMap

variable {V : Type}

/-- Lookup `find(k)`: the mapped value or `none` for the end iterator. -/
def find (m : List (IndexT × V)) (k : IndexT) : Option V := m.lookup k

/-- Assignment `m[k] = v`: replaces the value mapped to `k`, or inserts the entry at
its place in the key order. -/
def assign : List (IndexT × V) → IndexT → V → List (IndexT × V)
  | [], k, v => [(k, v)]
  | (k', v') :: rest, k, v =>
    if k < k' then (k, v) :: (k', v') :: rest
    else if k = k' then (k, v) :: rest
    else (k', v') :: assign rest k v

/-- Access `m[k]` used as a statement: creates the entry with the default value `d`
when `k` is absent and leaves the map unchanged otherwise. -/
def touch (m : List (IndexT × V)) (k : IndexT) (d : V) : List (IndexT × V) :=
  match find m k with
  | some _ => m
  | none => assign m k d

end LocalMap

/-! ## The reconstruction dataset (consumed read-only) -/

namespace sfmData

/-- Modelled from the spec: an observation is a 2D detected position and a detection
scale, belonging to one (landmark, view) pair. -/
structure Observation where
  x : Vec2
  scale : Double

/-- Modelled from the spec: the observations of a landmark, a map from view identifier
to observation. -/
abbrev Observations := StdMap Observation

/-- Modelled from the spec: a landmark is a 3D point and its observations. -/
structure Landmark where
  X : Vec3
  observations : Observations

/-- Modelled from the spec: a view has an identifier and refers to one intrinsic
and one pose. -/
structure View where
  viewId : IndexT
  intrinsicId : IndexT
  poseId : IndexT

/-- Modelled from the spec: the pose of a view (the transform of line 47), which the
routine only passes to the residual capability; given by a rotation (three rows) and a
centre. -/
structure Pose3 where
  rotation : Vec3 × Vec3 × Vec3
  center : Vec3

/-- Modelled from the spec: the residual capability of an intrinsic. The routine only
uses the Euclidean norm of the residual vector, `residual(pose, X, x).norm()`, so the
capability is modelled by that norm, a non-negative number. -/
structure IntrinsicBase where
  residualNorm : Pose3 → Vec3 → Vec2 → Double
  residualNorm_nonneg : ∀ pose X x, 0 ≤ residualNorm pose X x

/-- Modelled from the spec: the dataset holds views, poses, intrinsics and
landmarks (the member `structure` of the source, read through `getLandmarks()`). -/
structure SfMData where
  views : StdMap View
  poses : StdMap Pose3
  intrinsics : StdMap IntrinsicBase
  landmarks : StdMap Landmark

namespace SfMData

/-- Modelled from the spec: the accessor `getLandmarks()` of the dataset. -/
def getLandmarks (d : SfMData) : StdMap Landmark := d.landmarks

/-- Modelled from the spec: the accessor `getViews()` of the dataset. -/
def getViews (d : SfMData) : StdMap View := d.views

/-- Modelled from the spec: the accessor `getIntrinsics()` of the dataset. -/
def getIntrinsics (d : SfMData) : StdMap IntrinsicBase := d.intrinsics

/-- Modelled from the spec: `getView(viewId)` looks the view up; there is no result
for an identifier that is not a view of the dataset. -/
def getView (d : SfMData) (viewId : IndexT) : Option View := d.views.find viewId

/-- Modelled from the spec: `getPose(view)` looks up the pose the view refers to;
there is no result when the dataset has no such pose. -/
def getPose (d : SfMData) (view : View) : Option Pose3 := d.poses.find view.poseId

end SfMData

end sfmData

/-! ## Summary primitives -/

/-- Modelled from the spec: BoxStats holds count, min, max, mean, median,
firstQuartile and thirdQuartile of a finite sample sequence. -/
structure BoxStats where
  count : Nat
  min : Double
  max : Double
  mean : Double
  median : Double
  firstQuartile : Double
  thirdQuartile : Double
deriving DecidableEq

namespace BoxStats

/-- Modelled from the spec: the default-constructed BoxStats, every field the zero
value. -/
def default : BoxStats :=
  { count := 0, min := 0, max := 0, mean := 0, median := 0,
    firstQuartile := 0, thirdQuartile := 0 }

/-- Modelled from the spec: BoxStats of a sample sequence. Empty input gives the zero
value in every field. Otherwise the samples are sorted ascending; min and max are the
extrema, mean is sum / count, the median is the middle element for an odd count and
the average of the two central elements for an even count, the first quartile is the
element of rank ⌊count/4⌋ and the third quartile the element of rank ⌊3·count/4⌋
(ranks counted from 0). -/
def compute (samples : List Double) : BoxStats :=
  if samples.isEmpty then default
  else
    let sorted := samples.insertionSort (fun a b => a ≤ b)
    let n := samples.length
    { count := n
      min := sorted.getD 0 0
      max := sorted.getD (n - 1) 0
      mean := samples.sum / (n : Double)
      median :=
        if n % 2 = 1 then sorted.getD (n / 2) 0
        else (sorted.getD (n / 2 - 1) 0 + sorted.getD (n / 2) 0) / 2
      firstQuartile := sorted.getD (n / 4) 0
      thirdQuartile := sorted.getD (3 * n / 4) 0 }

end BoxStats

/-- Modelled from the spec: a Histogram is a lower bound, an upper bound and N bins,
each holding a running count. -/
structure Histogram where
  lower : Double
  upper : Double
  freq : List Nat
deriving DecidableEq

namespace Histogram

/-- Modelled from the spec: the default-constructed Histogram has zero bins. -/
def default : Histogram := { lower := 0, upper := 0, freq := [] }

/-- Modelled from the spec: construction with a lower bound, an upper bound and a
bin count N ≥ 0; every bin starts at 0. -/
def create (lower upper : Double) (nBins : Nat) : Histogram :=
  { lower := lower, upper := upper, freq := List.replicate nBins 0 }

/-- Modelled from the spec: the number of bins N of a Histogram. -/
def nBins (h : Histogram) : Nat := h.freq.length

/-- Modelled from the spec: bin width = (upper − lower) / N. -/
def binWidth (h : Histogram) : Double := (h.upper - h.lower) / (h.nBins : Double)

/-- Modelled from the spec: the bin of a sample s of a histogram with N > 0 bins of
non-zero width: ⌊(s − lower) / width⌋ clamped into [0, N−1]. -/
def binIndex (h : Histogram) (s : Double) : Nat :=
  (Max.max (0 : Int) (Min.min ⌊(s - h.lower) / h.binWidth⌋ ((h.nBins : Int) - 1))).toNat

/-- Modelled from the spec: adding a sample. The policy chosen for a histogram with
zero bins is that adding is a no-op. With N > 0 bins of width zero the bin index
would be obtained by a division by zero: there is no result. Otherwise the count of
the bin of the sample is increased by one. -/
def Add (h : Histogram) (s : Double) : Option Histogram :=
  if h.nBins = 0 then some h
  else if h.binWidth = 0 then none
  else some { h with freq := h.freq.modify (fun c => c + 1) (h.binIndex s) }

/-- Modelled from the spec: adding a sequence of samples (the member `Add` on an
iterator range), first to last. -/
def AddRange (h : Histogram) (samples : List Double) : Option Histogram :=
  samples.foldlM Add h

end Histogram

/-- Conversion of a `double` to `std::size_t`: truncation of a non-negative value;
there is no defined result for a negative one. -/
def toSizeT (q : Double) : Option Nat :=
  if 0 ≤ q then some ⌊q⌋.toNat else none

namespace sfm

open sfmData

/-- Outputs of a histogram routine: the BoxStats and, when a histogram was requested,
the histogram. -/
structure StatsOutputs where
  out_stats : BoxStats
  out_histogram : Option Histogram
deriving DecidableEq

/-- The block "Init output params" that opens every histogram routine: the BoxStats is
reset to the default one and the histogram, when requested, to the default
histogram. -/
def initOutputs (_out_stats : BoxStats) (out_histogram : Option Histogram) : StatsOutputs :=
  { out_stats := BoxStats.default
    out_histogram := out_histogram.map (fun _ => Histogram.default) }

/-! ### computeResidualsHistogram -/

/-- Lines 46-50: the residual norm of one observation of a landmark with 3D point `X`.
The view, its pose and its intrinsic are looked up; there is no result when one of
them does not resolve. -/
def residualNormOf (sfmData : SfMData) (X : Vec3) (obs : IndexT × Observation) :
    Option Double := do
  let view ← sfmData.getView obs.1
  let pose ← sfmData.getPose view
  let intrinsic ← sfmData.getIntrinsics.find view.intrinsicId
  pure (intrinsic.residualNorm pose X obs.2.x)

/-- Lines 39-52: the loop over the observations of one track, pushing residual norms
to the back of `vec_residuals`. -/
def residualsOfTrack (sfmData : SfMData) (specificViews : Finset IndexT)
    (track : IndexT × Landmark) (vec_residuals : List Double) : Option (List Double) :=
  track.2.observations.entries.foldlM
    (fun vec obs =>
      if specificViews ≠ ∅ ∧ setCount specificViews obs.1 = 0 then pure vec
      else do
        let r ← residualNormOf sfmData track.2.X obs
        pure (vec ++ [r]))
    vec_residuals

/-- Lines 33-53: the loop over the landmarks; the result is `vec_residuals`. -/
def collectResiduals (sfmData : SfMData) (specificViews : Finset IndexT) :
    Option (List Double) :=
  sfmData.getLandmarks.entries.foldlM
    (fun vec track => residualsOfTrack sfmData specificViews track vec) []

/-- Lines 19-67 of sfmStatistics.cpp. -/
def computeResidualsHistogram (sfmData : SfMData) (out_stats : BoxStats)
    (out_histogram : Option Histogram) (specificViews : Finset IndexT) :
    Option StatsOutputs :=
  let out := initOutputs out_stats out_histogram
  if sfmData.getLandmarks.empty then some out
  else
    match collectResiduals sfmData specificViews with
    | none => none
    | some vec_residuals =>
      if vec_residuals.isEmpty then some out
      else
        let stats := BoxStats.compute vec_residuals
        match out.out_histogram with
        | none => some { out_stats := stats, out_histogram := none }
        | some _ => do
          let nBins ← toSizeT ((⌈stats.max⌉ : Double) * 2)
          let h ← (Histogram.create 0 (⌈stats.max⌉ : Double) nBins).AddRange vec_residuals
          pure { out_stats := stats, out_histogram := some h }

/-! ### computeObservationsLengthsHistogram -/

/-- Outputs of computeObservationsLengthsHistogram: as StatsOutputs, with the
in/out counter `overallNbObservations`. -/
structure LengthsOutputs where
  out_stats : BoxStats
  overallNbObservations : Int
  out_histogram : Option Histogram
deriving DecidableEq

/-- Lines 92-99: the number of observations of a landmark whose view is in
`specificViews`. -/
def nbObsSpecificViews (observations : Observations) (specificViews : Finset IndexT) : Int :=
  observations.entries.foldl
    (fun nb obs => if setCount specificViews obs.1 = 1 then nb + 1 else nb) 0

/-- Lines 89-109: the body of the loop over the landmarks, on the state
(`nbObservations`, `overallNbObservations`). -/
def lengthsStep (specificViews : Finset IndexT) (st : List Int × Int)
    (landmark : IndexT × Landmark) : List Int × Int :=
  let observations := landmark.2.observations
  let nbObservations :=
    if specificViews ≠ ∅ then
      if nbObsSpecificViews observations specificViews > 0 then
        st.1 ++ [(observations.size : Int)]
      else st.1
    else st.1 ++ [(observations.size : Int)]
  (nbObservations, st.2 + (observations.size : Int))

/-- Lines 84-110: the loop over the landmarks, started with an empty
`nbObservations` and the incoming counter. -/
def collectLengths (sfmData : SfMData) (specificViews : Finset IndexT)
    (overallNbObservations : Int) : List Int × Int :=
  sfmData.getLandmarks.entries.foldl (lengthsStep specificViews) ([], overallNbObservations)

/-- Lines 70-122 of sfmStatistics.cpp. -/
def computeObservationsLengthsHistogram (sfmData : SfMData) (out_stats : BoxStats)
    (overallNbObservations : Int) (out_histogram : Option Histogram)
    (specificViews : Finset IndexT) : Option LengthsOutputs :=
  let out := initOutputs out_stats out_histogram
  if sfmData.getLandmarks.empty then
    some { out_stats := out.out_stats, overallNbObservations := overallNbObservations,
           out_histogram := out.out_histogram }
  else
    let st := collectLengths sfmData specificViews overallNbObservations
    let nbObservations := st.1
    if nbObservations.isEmpty then
      some { out_stats := out.out_stats, overallNbObservations := st.2,
             out_histogram := out.out_histogram }
    else
      let samples : List Double := nbObservations.map (fun (n : Int) => (n : Double))
      let stats := BoxStats.compute samples
      match out.out_histogram with
      | none => some { out_stats := stats, overallNbObservations := st.2, out_histogram := none }
      | some _ => do
        let nBins ← toSizeT (stats.max - stats.min + 1)
        let h ← (Histogram.create stats.min (stats.max + 1) nBins).AddRange samples
        pure { out_stats := stats, overallNbObservations := st.2, out_histogram := some h }

/-! ### computeLandmarksPerViewHistogram and computeLandmarksPerView -/

/-- Lines 143-148: the body of the inner loop of computeLandmarksPerViewHistogram on
the local map `nbLandmarksPerView`. When `find` returns the end iterator the source
executes `it->second = 1` on that iterator: no entry is inserted, and the map keeps
its entries. -/
def histogramCountStep (nbLandmarksPerView : List (IndexT × Int))
    (obsIt : IndexT × Observation) : List (IndexT × Int) :=
  let viewId := obsIt.1
  match LocalMap.find nbLandmarksPerView viewId with
  | some c => LocalMap.assign nbLandmarksPerView viewId (c + 1)
  | none => nbLandmarksPerView

/-- Lines 137-150: the two nested loops of computeLandmarksPerViewHistogram. -/
def histogramCountMap (sfmData : SfMData) : List (IndexT × Int) :=
  sfmData.getLandmarks.entries.foldl
    (fun m landmark => landmark.2.observations.entries.foldl histogramCountStep m) []

/-- Lines 124-167 of sfmStatistics.cpp. -/
def computeLandmarksPerViewHistogram (sfmData : SfMData) (out_stats : BoxStats)
    (out_histogram : Option Histogram) : Option StatsOutputs :=
  let out := initOutputs out_stats out_histogram
  if sfmData.getLandmarks.empty then some out
  else
    let nbLandmarksPerView := histogramCountMap sfmData
    if nbLandmarksPerView.isEmpty then some out
    else
      let nbLandmarksPerViewVec : List Int := nbLandmarksPerView.map Prod.snd
      let samples : List Double := nbLandmarksPerViewVec.map (fun (n : Int) => (n : Double))
      let stats := BoxStats.compute samples
      match out.out_histogram with
      | none => some { out_stats := stats, out_histogram := none }
      | some _ => do
        let h ← (Histogram.create stats.min (stats.max + 1) 10).AddRange samples
        pure { out_stats := stats, out_histogram := some h }

/-- Lines 184-189: the body of the inner loop of computeLandmarksPerView on the local
map `nbLandmarksPerView`. -/
def countStep (nbLandmarksPerView : List (IndexT × Int))
    (obsIt : IndexT × Observation) : List (IndexT × Int) :=
  let viewId := obsIt.1
  match LocalMap.find nbLandmarksPerView viewId with
  | some c => LocalMap.assign nbLandmarksPerView viewId (c + 1)
  | none => LocalMap.assign nbLandmarksPerView viewId 1

/-- Lines 178-191: the two nested loops of computeLandmarksPerView. -/
def countMap (sfmData : SfMData) : List (IndexT × Int) :=
  sfmData.getLandmarks.entries.foldl
    (fun m landmark => landmark.2.observations.entries.foldl countStep m) []

/-- Lines 170-197 of sfmStatistics.cpp. -/
def computeLandmarksPerView (sfmData : SfMData) (_out_nbLandmarksPerView : List Int) :
    List Int :=
  let out : List Int := []
  if sfmData.getLandmarks.empty then out
  else
    let nbLandmarksPerView := countMap sfmData
    if nbLandmarksPerView.isEmpty then out
    else nbLandmarksPerView.foldl (fun o it => o ++ [it.2]) out

/-! ### computeFeatMatchPerView -/

/-- Modelled from the spec: the loaded features, per view the count of detected
features (for the descriptor types of the dataset). -/
structure FeaturesPerView where
  nbFeaturesPerView : StdMap Nat

/-- Modelled from the spec: the member `viewExist`, whether the view has loaded
features. -/
def FeaturesPerView.viewExist (f : FeaturesPerView) (viewId : IndexT) : Bool :=
  (f.nbFeaturesPerView.find viewId).isSome

/-- Modelled from the spec: the member `getNbFeatures`, the count of detected features
of a view. -/
def FeaturesPerView.getNbFeatures (f : FeaturesPerView) (viewId : IndexT) : Nat :=
  (f.nbFeaturesPerView.find viewId).getD 0

/-- Modelled from the spec: the loaded matches, matched feature pairs across pairs
of views. -/
abbrev PairwiseMatches := List ((IndexT × IndexT) × List (IndexT × IndexT))

/-- Modelled from the spec: a track, the feature it has in each view it touches. -/
structure Track where
  featPerView : StdMap IndexT

/-- Modelled from the spec: the tracks, by track identifier. -/
abbrev TracksMap := StdMap Track

/-- Modelled from the spec: the map from view identifier to the identifiers of the
tracks touching the view. -/
abbrev TracksPerView := List (IndexT × List IndexT)

/-- Modelled from the spec: the external collaborators of computeFeatMatchPerView.
A loader that reports failure has no result; the track builder (build followed by
exportToSTL) turns the matches into tracks. -/
structure Collaborators where
  loadFeaturesPerView : SfMData → Option FeaturesPerView
  loadPairwiseMatches : SfMData → Option PairwiseMatches
  buildTracks : PairwiseMatches → TracksMap

/-- Modelled from the spec: computeTracksPerView fills the mapping from view to the
tracks touching that view: every track is appended to the entry of each view in which
it has a feature (the entry is created when absent). -/
def computeTracksPerView (tracks : TracksMap) (tracksPerView : TracksPerView) : TracksPerView :=
  tracks.entries.foldl
    (fun tpv track =>
      track.2.featPerView.entries.foldl
        (fun tpv feat =>
          LocalMap.assign tpv feat.1 (((LocalMap.find tpv feat.1).getD []) ++ [track.1]))
        tpv)
    tracksPerView

/-- Lines 239-249: the body of the final loop over the views, on the two output
sequences. -/
def featMatchStep (featuresPerView : FeaturesPerView) (tracksPerView : TracksPerView)
    (out : List Nat × List Nat) (viewIt : IndexT × View) : List Nat × List Nat :=
  let viewId := viewIt.1
  let feat :=
    if featuresPerView.viewExist viewId then out.1 ++ [featuresPerView.getNbFeatures viewId]
    else out.1 ++ [0]
  let mtch :=
    match LocalMap.find tracksPerView viewId with
    | some trackIds => out.2 ++ [trackIds.length]
    | none => out.2 ++ [0]
  (feat, mtch)

/-- Lines 227-233: the per-view track sets, with an entry for every view of the
dataset. -/
def tracksPerViewOf (sfmData : SfMData) (tracks : TracksMap) : TracksPerView :=
  computeTracksPerView tracks
    (sfmData.views.entries.foldl (fun tpv viewIt => LocalMap.touch tpv viewIt.1 []) [])

/-- Lines 199-251 of sfmStatistics.cpp; the result is the pair
(`out_featPerView`, `out_matchPerView`). -/
def computeFeatMatchPerView (ext : Collaborators) (sfmData : SfMData)
    (out_featPerView out_matchPerView : List Nat) : List Nat × List Nat :=
  match ext.loadFeaturesPerView sfmData with
  | none => (out_featPerView, out_matchPerView)
  | some featuresPerView =>
    match ext.loadPairwiseMatches sfmData with
    | none => (out_featPerView, out_matchPerView)
    | some pairwiseMatches =>
      let tracks := ext.buildTracks pairwiseMatches
      let tracksPerView := tracksPerViewOf sfmData tracks
      sfmData.getViews.entries.foldl (featMatchStep featuresPerView tracksPerView)
        (out_featPerView, out_matchPerView)

/-! ### computeScaleHistogram -/

/-- Lines 273-282: the loop over the observations of one landmark, pushing scales to
the back of `vec_scaleObservations`. -/
def scalesOfLandmark (specificViews : Finset IndexT) (vec : List Double)
    (landmark : IndexT × Landmark) : List Double :=
  landmark.2.observations.entries.foldl
    (fun vec obs =>
      if specificViews ≠ ∅ ∧ setCount specificViews obs.1 = 0 then vec
      else vec ++ [obs.2.scale])
    vec

/-- Lines 267-283: the loop over the landmarks; the result is
`vec_scaleObservations`. -/
def collectScales (sfmData : SfMData) (specificViews : Finset IndexT) : List Double :=
  sfmData.getLandmarks.entries.foldl (scalesOfLandmark specificViews) []

/-- Lines 253-299 of sfmStatistics.cpp. -/
def computeScaleHistogram (sfmData : SfMData) (out_stats : BoxStats)
    (out_histogram : Option Histogram) (specificViews : Finset IndexT) :
    Option StatsOutputs :=
  let out := initOutputs out_stats out_histogram
  if sfmData.getLandmarks.empty then some out
  else
    let vec_scaleObservations := collectScales sfmData specificViews
    if vec_scaleObservations.isEmpty then some out
    else
      let stats := BoxStats.compute vec_scaleObservations
      match out.out_histogram with
      | none => some { out_stats := stats, out_histogram := none }
      | some _ => do
        let maxValue ← toSizeT (⌈stats.max⌉ : Double)
        let h ← (Histogram.create 0 (maxValue : Double) (maxValue + 1)).AddRange
          vec_scaleObservations
        pure { out_stats := stats, out_histogram := some h }

/-! ### computeResidualsPerView and computeObservationsLengthsPerView -/

/-- The in/out parameters of the per-view routines: the view counter and the six
per-view sequences. -/
structure PerViewOutputs where
  nbViews : Int
  perViewMin : List Double
  perViewMax : List Double
  perViewMean : List Double
  perViewMedian : List Double
  perViewFirstQuartile : List Double
  perViewThirdQuartile : List Double
deriving DecidableEq

/-- The six `push_back` calls and the increment of the view counter that close the
body of both per-view loops. -/
def pushStats (o : PerViewOutputs) (stats : BoxStats) : PerViewOutputs :=
  { nbViews := o.nbViews + 1
    perViewMin := o.perViewMin ++ [stats.min]
    perViewMax := o.perViewMax ++ [stats.max]
    perViewMean := o.perViewMean ++ [stats.mean]
    perViewMedian := o.perViewMedian ++ [stats.median]
    perViewFirstQuartile := o.perViewFirstQuartile ++ [stats.firstQuartile]
    perViewThirdQuartile := o.perViewThirdQuartile ++ [stats.thirdQuartile] }

/-- Lines 301-324 of sfmStatistics.cpp. -/
def computeResidualsPerView (sfmData : SfMData) (o : PerViewOutputs) :
    Option PerViewOutputs :=
  if sfmData.getLandmarks.empty then some o
  else
    sfmData.getViews.entries.foldlM
      (fun (o : PerViewOutputs) (viewIt : IndexT × View) => do
        let r ← computeResidualsHistogram sfmData BoxStats.default (some Histogram.default)
          {viewIt.1}
        pure (pushStats o r.out_stats))
      o

/-- Lines 326-351 of sfmStatistics.cpp; the loop state is the pair of the outputs
and the local counter `overallNbObservations`. -/
def computeObservationsLengthsPerView (sfmData : SfMData) (o : PerViewOutputs) :
    Option PerViewOutputs :=
  if sfmData.getLandmarks.empty then some o
  else
    (sfmData.getViews.entries.foldlM
      (fun (st : PerViewOutputs × Int) (viewIt : IndexT × View) => do
        let r ← computeObservationsLengthsHistogram sfmData BoxStats.default st.2
          (some Histogram.default) {viewIt.1}
        pure (pushStats st.1 r.out_stats, r.overallNbObservations))
      (o, 0)).map Prod.fst

/-! ## Specification-side definitions

The definitions of this section follow the words of the specification; the theorems
compare them with the routines above. -/

/-- Specification side: the landmark has at least one observation whose view is in
`viewFilter`. -/
def participates (viewFilter : Finset IndexT) (landmark : IndexT × Landmark) : Bool :=
  landmark.2.observations.entries.any (fun obs => decide (obs.1 ∈ viewFilter))

/-- Specification side: the full track lengths, in landmark order, of the landmarks
that have at least one observation whose view is in `viewFilter`. -/
def specLengths (sfmData : SfMData) (viewFilter : Finset IndexT) : List Int :=
  (sfmData.landmarks.entries.filter (participates viewFilter)).map
    (fun landmark => (landmark.2.observations.entries.length : Int))

/-- Specification side: the sum over all landmarks of their observation counts. -/
def totalObservations (sfmData : SfMData) : Int :=
  (sfmData.landmarks.entries.map
    (fun landmark => (landmark.2.observations.entries.length : Int))).sum

/-- A caller making `k` successive calls of computeObservationsLengthsHistogram on the
same dataset with the same three output variables. -/
def successiveLengthsCalls (sfmData : SfMData) (specificViews : Finset IndexT) :
    Nat → LengthsOutputs → Option LengthsOutputs
  | 0, st => some st
  | k + 1, st =>
    (computeObservationsLengthsHistogram sfmData st.out_stats st.overallNbObservations
      st.out_histogram specificViews).bind (successiveLengthsCalls sfmData specificViews k)

/-- Specification side: the observations of all landmarks, landmark after landmark,
each with the 3D point of its landmark. -/
def allObservations (sfmData : SfMData) : List (Vec3 × (IndexT × Observation)) :=
  sfmData.landmarks.entries.flatMap
    (fun landmark => landmark.2.observations.entries.map (fun obs => (landmark.2.X, obs)))

/-- Specification side: an observation is sampled when `viewFilter` is empty or holds
the view of the observation. -/
def sampled (viewFilter : Finset IndexT) (obs : IndexT × Observation) : Bool :=
  decide (viewFilter = ∅ ∨ obs.1 ∈ viewFilter)

/-- Specification side: the sampled observations, in traversal order. -/
def sampledObservations (sfmData : SfMData) (viewFilter : Finset IndexT) :
    List (Vec3 × (IndexT × Observation)) :=
  (allObservations sfmData).filter (fun p => sampled viewFilter p.2)

/-- Specification side: the residual norms of a sequence of observations, in order;
there is no such sequence when the residual of one of them cannot be computed. -/
def residualNormsOf (sfmData : SfMData) :
    List (Vec3 × (IndexT × Observation)) → Option (List Double)
  | [] => some []
  | p :: rest =>
    match residualNormOf sfmData p.1 p.2 with
    | none => none
    | some r => (residualNormsOf sfmData rest).map (fun rs => r :: rs)

/-- Specification side: the residual norms of the sampled observations. -/
def specResiduals (sfmData : SfMData) (viewFilter : Finset IndexT) : Option (List Double) :=
  residualNormsOf sfmData (sampledObservations sfmData viewFilter)

/-- Specification side: the number of landmarks that have an observation in view `v`. -/
def nbLandmarksObserving (sfmData : SfMData) (v : IndexT) : Nat :=
  (sfmData.landmarks.entries.filter
    (fun landmark => decide (v ∈ landmark.2.observations.keys))).length

/-- Specification side: view identifier `v` occurs in at least one observation. -/
def observedView (sfmData : SfMData) (v : IndexT) : Prop :=
  ∃ landmark ∈ sfmData.landmarks.entries, v ∈ landmark.2.observations.keys

/-- Specification side: the number of tracks touching view `v`, that is, having a
feature in `v`. -/
def nbTracksTouching (tracks : TracksMap) (v : IndexT) : Nat :=
  (tracks.entries.filter (fun track => decide (v ∈ track.2.featPerView.keys))).length

/-- Specification side: the loaded feature count of view `v`, or 0 when the view has
no loaded features. -/
def nbFeaturesOf (features : FeaturesPerView) (v : IndexT) : Nat :=
  match features.nbFeaturesPerView.find v with
  | some n => n
  | none => 0

/-- Specification side: the in/out parameters of a per-view routine after the six
fields of each BoxStats of a sequence were appended, in order, to the six sequences
and the view counter was increased by the length of the sequence. -/
def appendStats (o : PerViewOutputs) (l : List BoxStats) : PerViewOutputs :=
  { nbViews := o.nbViews + (l.length : Int)
    perViewMin := o.perViewMin ++ l.map (fun s => s.min)
    perViewMax := o.perViewMax ++ l.map (fun s => s.max)
    perViewMean := o.perViewMean ++ l.map (fun s => s.mean)
    perViewMedian := o.perViewMedian ++ l.map (fun s => s.median)
    perViewFirstQuartile := o.perViewFirstQuartile ++ l.map (fun s => s.firstQuartile)
    perViewThirdQuartile := o.perViewThirdQuartile ++ l.map (fun s => s.thirdQuartile) }

/-- Specification side: the results of a sequence of calls, in order; there is no such
sequence when one of the calls has no result. -/
def allResults {α : Type} : List (Option α) → Option (List α)
  | [] => some []
  | none :: _ => none
  | some a :: rest => (allResults rest).map (fun l => a :: l)

/-- Specification side: the BoxStats of the track lengths for the filter {v}. -/
def lengthsStatsOfView (sfmData : SfMData) (v : IndexT) : BoxStats :=
  BoxStats.compute ((specLengths sfmData {v}).map (fun (n : Int) => (n : Double)))

/-- Specification side: the BoxStats of the residuals for the filter {v}, when these
residuals can be computed. -/
def residualStatsOfView (sfmData : SfMData) (v : IndexT) : Option BoxStats :=
  (specResiduals sfmData {v}).map BoxStats.compute

/-! ## The scenario of the specification

Landmark A is observed in views 1 and 2 with residual norms 1 and 3, landmark B in
view 1 with residual norm 2. -/

/-- An intrinsic whose residual norm is the distance between the first coordinates of
the observed position and of the 3D point. -/
def scenarioIntrinsic : IntrinsicBase :=
  { residualNorm := fun _ X x => |x.1 - X.1|
    residualNorm_nonneg := fun _ _ _ => abs_nonneg _ }

/-- The identity pose. -/
def scenarioPose : Pose3 :=
  { rotation := ((1, 0, 0), (0, 1, 0), (0, 0, 1)), center := (0, 0, 0) }

/-- Landmark A: observed in views 1 and 2, residual norms 1 and 3. -/
def landmarkA : Landmark :=
  { X := (0, 0, 0)
    observations := ⟨[(1, { x := (1, 0), scale := 1 }), (2, { x := (3, 0), scale := 2 })],
      by decide⟩ }

/-- Landmark B: observed in view 1, residual norm 2. -/
def landmarkB : Landmark :=
  { X := (0, 0, 0)
    observations := ⟨[(1, { x := (2, 0), scale := 0 })], by decide⟩ }

/-- The dataset of the scenario: views 1 and 2, landmarks A (identifier 10) and B
(identifier 11). -/
def scenario : SfMData :=
  { views := ⟨[(1, { viewId := 1, intrinsicId := 0, poseId := 1 }),
               (2, { viewId := 2, intrinsicId := 0, poseId := 2 })], by decide⟩
    poses := ⟨[(1, scenarioPose), (2, scenarioPose)], by decide⟩
    intrinsics := ⟨[(0, scenarioIntrinsic)], by decide⟩
    landmarks := ⟨[(10, landmarkA), (11, landmarkB)], by decide⟩ }

/-- A dataset without landmarks (and without views). -/
def emptyScene : SfMData :=
  { views := ⟨[], List.Pairwise.nil⟩
    poses := ⟨[], List.Pairwise.nil⟩
    intrinsics := ⟨[], List.Pairwise.nil⟩
    landmarks := ⟨[], List.Pairwise.nil⟩ }

/-- Collaborators whose feature loader reports failure. -/
def failingFeatures : Collaborators :=
  { loadFeaturesPerView := fun _ => none
    loadPairwiseMatches := fun _ => some []
    buildTracks := fun _ => ⟨[], List.Pairwise.nil⟩ }

/-- Collaborators whose feature loader succeeds and whose match loader reports
failure. -/
def failingMatches : Collaborators :=
  { loadFeaturesPerView := fun _ => some { nbFeaturesPerView := ⟨[(1, 100)], by decide⟩ }
    loadPairwiseMatches := fun _ => none
    buildTracks := fun _ => ⟨[], List.Pairwise.nil⟩ }

/-- Collaborators that succeed: 100 features loaded for view 1 and none for view 2;
one track (identifier 0) with a feature in view 1 only. -/
def succeeding : Collaborators :=
  { loadFeaturesPerView := fun _ => some { nbFeaturesPerView := ⟨[(1, 100)], by decide⟩ }
    loadPairwiseMatches := fun _ => some []
    buildTracks := fun _ => ⟨[(0, { featPerView := ⟨[(1, 5)], by decide⟩ })], by decide⟩ }

/-! ## Auxiliary definitions of the proofs -/

/-- The invariant of the counting loops: the local map is ordered and maps every view
identifier to the number of its occurrences among the identifiers processed so far. -/
def CountInv (m : List (IndexT × Int)) (vs : List IndexT) : Prop :=
  m.Pairwise (fun a b => a.1 < b.1) ∧
  ∀ v, LocalMap.find m v = if vs.count v = 0 then none else some (vs.count v : Int)

/-- The number of track identifiers a per-view track map holds for view `v`; 0 when
the map has no entry for `v`. -/
def trackCount (tpv : TracksPerView) (v : IndexT) : Nat :=
  match LocalMap.find tpv v with
  | some trackIds => trackIds.length
  | none => 0

/-- A dataset with views 1 and 2 and one landmark, observed in view 1 only, at the
projection of its 3D point (residual norm 0) and without scale information (scale 0). -/
def flatScene : SfMData :=
  { views := ⟨[(1, { viewId := 1, intrinsicId := 0, poseId := 1 }),
               (2, { viewId := 2, intrinsicId := 0, poseId := 2 })], by decide⟩
    poses := ⟨[(1, scenarioPose), (2, scenarioPose)], by decide⟩
    intrinsics := ⟨[(0, scenarioIntrinsic)], by decide⟩
    landmarks := ⟨[(10, { X := (0, 0, 0)
                          observations := ⟨[(1, { x := (0, 0), scale := 0 })], by decide⟩ })],
      by decide⟩ }

/-- Specification side: the six entries that a per-view routine appended for the i-th
view of the dataset, read in the outputs `r` it returned for the inputs `o`: the entries
of index i behind the previous content of the six sequences. -/
def appendedEntries (o r : PerViewOutputs) (i : Nat) : List (Option Double) :=
  [r.perViewMin[o.perViewMin.length + i]?, r.perViewMax[o.perViewMax.length + i]?,
   r.perViewMean[o.perViewMean.length + i]?, r.perViewMedian[o.perViewMedian.length + i]?,
   r.perViewFirstQuartile[o.perViewFirstQuartile.length + i]?,
   r.perViewThirdQuartile[o.perViewThirdQuartile.length + i]?]

end sfm

/-! ## Properties of the summary primitives -/

theorem BoxStats.compute_nil : BoxStats.compute [] = BoxStats.default := by
  simp [BoxStats.compute]

theorem BoxStats.count_compute (samples : List Double) :
    (BoxStats.compute samples).count = samples.length := by
  unfold BoxStats.compute
  cases samples with
  | nil => simp [BoxStats.default]
  | cons a l => simp

theorem sorted_getD_le (s : List Double) (hs : s.Sorted (fun a b => a ≤ b)) (i j : Nat)
    (hij : i ≤ j) (hj : j < s.length) : s.getD i 0 ≤ s.getD j 0 := by
  rw [List.getD_eq_getElem _ _ (by omega), List.getD_eq_getElem _ _ hj]
  have h := List.Sorted.rel_get_of_le hs (a := ⟨i, by omega⟩) (b := ⟨j, hj⟩) (by simpa using hij)
  simpa using h

theorem getD_nonneg (s : List Double) (hs : ∀ x ∈ s, 0 ≤ x) (i : Nat) : 0 ≤ s.getD i 0 := by
  rcases Nat.lt_or_ge i s.length with h | h
  · rw [List.getD_eq_getElem _ _ h]
    exact hs _ (List.getElem_mem _)
  · rw [List.getD_eq_default _ _ h]

theorem BoxStats.min_le_max (samples : List Double) :
    (BoxStats.compute samples).min ≤ (BoxStats.compute samples).max := by
  unfold BoxStats.compute
  cases samples with
  | nil => simp [BoxStats.default]
  | cons a l =>
    simp only [List.isEmpty_cons, Bool.false_eq_true, if_false]
    apply sorted_getD_le _ (List.sorted_insertionSort _ _) _ _ (Nat.zero_le _)
    rw [List.length_insertionSort]
    simp

theorem BoxStats.max_nonneg (samples : List Double) (h : ∀ x ∈ samples, 0 ≤ x) :
    0 ≤ (BoxStats.compute samples).max := by
  unfold BoxStats.compute
  cases samples with
  | nil => simp [BoxStats.default]
  | cons a l =>
    simp only [List.isEmpty_cons, Bool.false_eq_true, if_false]
    apply getD_nonneg
    intro x hx
    exact h x ((List.perm_insertionSort _ _).mem_iff.mp hx)

theorem Histogram.Add_some (h : Histogram) (s : Double) (hw : h.nBins = 0 ∨ h.binWidth ≠ 0) :
    ∃ h', h.Add s = some h' ∧ h'.lower = h.lower ∧ h'.upper = h.upper ∧ h'.nBins = h.nBins := by
  unfold Histogram.Add
  rcases hw with h0 | hw
  · exact ⟨h, by simp [h0], rfl, rfl, rfl⟩
  · by_cases h0 : h.nBins = 0
    · exact ⟨h, by simp [h0], rfl, rfl, rfl⟩
    · refine ⟨{ h with freq := h.freq.modify (fun c => c + 1) (h.binIndex s) }, ?_, rfl, rfl, ?_⟩
      · simp only [h0, hw, if_false]
      · simp [Histogram.nBins]

theorem Histogram.AddRange_some (samples : List Double) (h : Histogram)
    (hw : h.nBins = 0 ∨ h.binWidth ≠ 0) :
    ∃ h', h.AddRange samples = some h' ∧ h'.lower = h.lower ∧ h'.upper = h.upper ∧
      h'.nBins = h.nBins := by
  induction samples generalizing h with
  | nil => exact ⟨h, rfl, rfl, rfl, rfl⟩
  | cons s rest ih =>
    obtain ⟨h1, e1, l1, u1, n1⟩ := Histogram.Add_some h s hw
    have hw1 : h1.nBins = 0 ∨ h1.binWidth ≠ 0 := by
      unfold Histogram.binWidth at hw ⊢
      rw [l1, u1, n1]; exact hw
    obtain ⟨h2, e2, l2, u2, n2⟩ := ih h1 hw1
    refine ⟨h2, ?_, l2.trans l1, u2.trans u1, n2.trans n1⟩
    unfold Histogram.AddRange at e2 ⊢
    simp [List.foldlM_cons, e1, e2]

/-! ## Properties of local maps -/

namespace LocalMap

variable {V : Type}

theorem find_nil (k : IndexT) : find ([] : List (IndexT × V)) k = none := rfl

theorem find_cons (k' : IndexT) (v' : V) (rest : List (IndexT × V)) (k : IndexT) :
    find ((k', v') :: rest) k = if k = k' then some v' else find rest k := by
  unfold find
  rw [List.lookup_cons]
  by_cases h : k = k'
  · simp [h]
  · have hb : (k == k') = false := by simpa using h
    simp [h, hb]

theorem find_assign (m : List (IndexT × V)) (k : IndexT) (v : V) (k' : IndexT) :
    find (assign m k v) k' = if k' = k then some v else find m k' := by
  induction m with
  | nil => simp [assign, find_cons, find_nil]
  | cons e rest ih =>
    obtain ⟨k1, v1⟩ := e
    unfold assign
    by_cases h1 : k < k1
    · simp only [h1, if_true, find_cons]
    · by_cases h2 : k = k1
      · subst h2
        simp only [lt_self_iff_false, if_false, if_true, find_cons]
        by_cases h3 : k' = k <;> simp [h3]
      · simp only [h1, h2, if_false, find_cons, ih]
        by_cases h3 : k' = k1
        · have : k' ≠ k := fun e => h2 (e.symm.trans h3)
          simp [h3, this, Ne.symm h2]
        · simp [h3]

theorem mem_assign (m : List (IndexT × V)) (k : IndexT) (v : V) (e : IndexT × V)
    (he : e ∈ assign m k v) : e = (k, v) ∨ e ∈ m := by
  induction m with
  | nil => simpa [assign] using he
  | cons e1 rest ih =>
    obtain ⟨k1, v1⟩ := e1
    unfold assign at he
    by_cases h1 : k < k1
    · simp only [h1, if_true] at he
      rcases List.mem_cons.mp he with h | h
      · exact Or.inl h
      · exact Or.inr h
    · by_cases h2 : k = k1
      · subst h2
        simp only [lt_self_iff_false, if_false, if_true] at he
        rcases List.mem_cons.mp he with h | h
        · exact Or.inl h
        · exact Or.inr (List.mem_cons_of_mem _ h)
      · simp only [h1, h2, if_false] at he
        rcases List.mem_cons.mp he with h | h
        · exact Or.inr (by rw [h]; exact List.mem_cons_self _ _)
        · rcases ih h with h | h
          · exact Or.inl h
          · exact Or.inr (List.mem_cons_of_mem _ h)

theorem assign_ordered (m : List (IndexT × V)) (k : IndexT) (v : V)
    (hm : m.Pairwise (fun a b => a.1 < b.1)) :
    (assign m k v).Pairwise (fun a b => a.1 < b.1) := by
  induction m with
  | nil => simp [assign]
  | cons e1 rest ih =>
    obtain ⟨k1, v1⟩ := e1
    rw [List.pairwise_cons] at hm
    unfold assign
    by_cases h1 : k < k1
    · simp only [h1, if_true]
      refine List.Pairwise.cons ?_ (List.Pairwise.cons hm.1 hm.2)
      intro b hb
      rcases List.mem_cons.mp hb with h | h
      · rw [h]; exact h1
      · exact lt_trans h1 (hm.1 b h)
    · by_cases h2 : k = k1
      · subst h2
        simp only [lt_self_iff_false, if_false, if_true]
        exact List.Pairwise.cons hm.1 hm.2
      · simp only [h1, h2, if_false]
        refine List.Pairwise.cons ?_ (ih hm.2)
        intro b hb
        rcases mem_assign rest k v b hb with h | h
        · rw [h]
          exact Nat.lt_of_le_of_ne (Nat.le_of_not_lt h1) (Ne.symm h2)
        · exact hm.1 b h

theorem find_of_mem (m : List (IndexT × V)) (hm : m.Pairwise (fun a b => a.1 < b.1))
    (e : IndexT × V) (he : e ∈ m) : find m e.1 = some e.2 := by
  induction m with
  | nil => cases he
  | cons e1 rest ih =>
    obtain ⟨k1, v1⟩ := e1
    rw [List.pairwise_cons] at hm
    rw [find_cons]
    rcases List.mem_cons.mp he with h | h
    · simp [h]
    · have hlt : k1 < e.1 := hm.1 e h
      have hne : e.1 ≠ k1 := Nat.ne_of_gt hlt
      rw [if_neg hne]
      exact ih hm.2 h

theorem mem_keys_iff_find (m : List (IndexT × V)) (k : IndexT) :
    k ∈ m.map Prod.fst ↔ find m k ≠ none := by
  induction m with
  | nil => simp [find_nil]
  | cons e1 rest ih =>
    obtain ⟨k1, v1⟩ := e1
    rw [find_cons, List.map_cons, List.mem_cons, ih]
    by_cases h : k = k1 <;> simp [h]

end LocalMap

theorem StdMap.keys_nodup {V : Type} (m : StdMap V) : m.keys.Nodup := by
  unfold StdMap.keys
  have h : (m.entries.map Prod.fst).Pairwise (fun a b => a < b) :=
    List.pairwise_map.mpr m.ordered
  exact h.imp (fun hab => Nat.ne_of_lt hab)

theorem StdMap.count_keys_flatMap {α V : Type} (f : α → StdMap V) (ls : List α) (v : IndexT) :
    (ls.flatMap (fun a => (f a).keys)).count v =
      (ls.filter (fun a => decide (v ∈ (f a).keys))).length := by
  induction ls with
  | nil => simp
  | cons l rest ih =>
    rw [List.flatMap_cons, List.count_append, ih,
      List.count_eq_of_nodup (StdMap.keys_nodup (f l))]
    by_cases hv : v ∈ (f l).keys
    · simp [List.filter_cons, hv]; omega
    · simp [List.filter_cons, hv]

namespace sfm

open sfmData

/-! ## Track lengths -/

theorem nbObs_foldl (specificViews : Finset IndexT) (l : List (IndexT × Observation)) (n : Int) :
    l.foldl (fun nb obs => if setCount specificViews obs.1 = 1 then nb + 1 else nb) n
      = n + (l.countP (fun obs => decide (obs.1 ∈ specificViews)) : Int) := by
  induction l generalizing n with
  | nil => simp
  | cons o rest ih =>
    rw [List.foldl_cons, ih]
    by_cases h : o.1 ∈ specificViews
    · simp [setCount, h, List.countP_cons]; ring
    · simp [setCount, h, List.countP_cons]

theorem nbObsSpecificViews_pos (observations : Observations) (specificViews : Finset IndexT) :
    nbObsSpecificViews observations specificViews > 0 ↔
      observations.entries.any (fun obs => decide (obs.1 ∈ specificViews)) = true := by
  unfold nbObsSpecificViews
  rw [nbObs_foldl]
  simp only [zero_add, gt_iff_lt, Nat.cast_pos, List.countP_pos_iff, List.any_eq_true]
  
theorem lengthsStep_filter (specificViews : Finset IndexT) (hF : specificViews ≠ ∅)
    (l : IndexT × Landmark) (acc : List Int) (c : Int) :
    lengthsStep specificViews (acc, c) l =
      (acc ++ ([l].filter (participates specificViews)).map
          (fun landmark => (landmark.2.observations.entries.length : Int)),
        c + (l.2.observations.entries.length : Int)) := by
  unfold lengthsStep
  simp only [hF, ne_eq, not_false_eq_true, if_true, nbObsSpecificViews_pos]
  by_cases hp : participates specificViews l = true
  · have hp2 := hp
    unfold participates at hp2
    rw [if_pos hp2]
    simp [List.filter_cons, hp, StdMap.size]
  · have hp2 := hp
    unfold participates at hp2
    rw [if_neg hp2]
    simp [List.filter_cons, hp, StdMap.size]

theorem lengthsStep_nofilter (l : IndexT × Landmark) (acc : List Int) (c : Int) :
    lengthsStep ∅ (acc, c) l =
      (acc ++ [(l.2.observations.entries.length : Int)],
        c + (l.2.observations.entries.length : Int)) := by
  unfold lengthsStep
  simp [StdMap.size]

theorem lengths_foldl (specificViews : Finset IndexT) (hF : specificViews ≠ ∅)
    (ls : List (IndexT × Landmark)) (acc : List Int) (c : Int) :
    ls.foldl (lengthsStep specificViews) (acc, c) =
      (acc ++ (ls.filter (participates specificViews)).map
          (fun landmark => (landmark.2.observations.entries.length : Int)),
        c + (ls.map (fun landmark => (landmark.2.observations.entries.length : Int))).sum) := by
  induction ls generalizing acc c with
  | nil => simp
  | cons l rest ih =>
    rw [List.foldl_cons, lengthsStep_filter _ hF, ih]
    by_cases hp : participates specificViews l = true
    · simp [List.filter_cons, hp, add_assoc]
    · simp [List.filter_cons, hp, add_assoc]

theorem lengths_foldl_nofilter (ls : List (IndexT × Landmark)) (acc : List Int) (c : Int) :
    ls.foldl (lengthsStep ∅) (acc, c) =
      (acc ++ ls.map (fun landmark => (landmark.2.observations.entries.length : Int)),
        c + (ls.map (fun landmark => (landmark.2.observations.entries.length : Int))).sum) := by
  induction ls generalizing acc c with
  | nil => simp
  | cons l rest ih =>
    rw [List.foldl_cons, lengthsStep_nofilter, ih]
    simp [add_assoc]

theorem collectLengths_counter (sfmData : SfMData) (specificViews : Finset IndexT) (c : Int) :
    (collectLengths sfmData specificViews c).2 = c + totalObservations sfmData := by
  unfold collectLengths totalObservations SfMData.getLandmarks
  by_cases hF : specificViews = ∅
  · subst hF; rw [lengths_foldl_nofilter]
  · rw [lengths_foldl _ hF]

theorem toSizeT_pos (q : Double) (hq : 1 ≤ q) : ∃ n, toSizeT q = some n ∧ 0 < n := by
  refine ⟨⌊q⌋.toNat, ?_, ?_⟩
  · unfold toSizeT
    rw [if_pos (by linarith)]
  · have h1 : (1 : Int) ≤ ⌊q⌋ := Int.le_floor.mpr (by simpa using hq)
    omega

theorem create_binWidth_ne_zero (lower upper : Double) (n : Nat) (hn : 0 < n)
    (hlu : lower < upper) : (Histogram.create lower upper n).binWidth ≠ 0 := by
  unfold Histogram.binWidth Histogram.nBins Histogram.create
  simp only [List.length_replicate]
  have h1 : (0 : Double) < upper - lower := by linarith
  have h2 : (0 : Double) < (n : Double) := by exact_mod_cast hn
  exact ne_of_gt (div_pos h1 h2)

theorem lengths_histogram_some (samples : List Double) :
    ∃ nBins h, toSizeT ((BoxStats.compute samples).max - (BoxStats.compute samples).min + 1)
        = some nBins ∧
      (Histogram.create (BoxStats.compute samples).min ((BoxStats.compute samples).max + 1)
        nBins).AddRange samples = some h := by
  have hmm := BoxStats.min_le_max samples
  obtain ⟨n, hn, hpos⟩ := toSizeT_pos
    ((BoxStats.compute samples).max - (BoxStats.compute samples).min + 1) (by linarith)
  obtain ⟨h, hh, -⟩ := Histogram.AddRange_some samples
    (Histogram.create (BoxStats.compute samples).min ((BoxStats.compute samples).max + 1) n)
    (Or.inr (create_binWidth_ne_zero _ _ n hpos (by linarith)))
  exact ⟨n, h, hn, hh⟩

theorem computeObservationsLengthsHistogram_some (sfmData : SfMData) (out_stats : BoxStats)
    (c : Int) (out_histogram : Option Histogram) (specificViews : Finset IndexT) :
    ∃ r, computeObservationsLengthsHistogram sfmData out_stats c out_histogram specificViews
        = some r ∧
      r.out_stats = BoxStats.compute
        ((collectLengths sfmData specificViews c).1.map (fun (n : Int) => (n : Double))) ∧
      r.overallNbObservations = (collectLengths sfmData specificViews c).2 := by
  unfold computeObservationsLengthsHistogram
  by_cases hE : sfmData.getLandmarks.empty = true
  · have hnil : sfmData.getLandmarks.entries = [] := by
      simpa [StdMap.empty] using hE
    simp [hE, collectLengths, hnil, initOutputs, BoxStats.compute_nil]
  · simp only [hE, Bool.false_eq_true, if_false]
    by_cases hN : (collectLengths sfmData specificViews c).1.isEmpty = true
    · have hnil : (collectLengths sfmData specificViews c).1 = [] := by
        simpa using hN
      simp [hN, hnil, initOutputs, BoxStats.compute_nil]
    · simp only [hN, Bool.false_eq_true, if_false]
      cases out_histogram with
      | none => simp [initOutputs]
      | some h0 =>
        obtain ⟨n, h, hn, hh⟩ := lengths_histogram_some
          ((collectLengths sfmData specificViews c).1.map (fun (n : Int) => (n : Double)))
        simp [initOutputs, hn, hh]

theorem collectLengths_eq_spec (sfmData : SfMData) (specificViews : Finset IndexT)
    (hF : specificViews ≠ ∅) (c : Int) :
    (collectLengths sfmData specificViews c).1 = specLengths sfmData specificViews := by
  unfold collectLengths specLengths SfMData.getLandmarks
  rw [lengths_foldl _ hF]
  simp

/-- C1: for every dataset and every non-empty viewFilter, the sequence of lengths that
computeObservationsLengthsHistogram records is, in landmark order, the full observation
count of exactly the landmarks having at least one observation whose view is in
viewFilter, and the returned BoxStats is built from that sequence. -/
theorem observationsLengths_records_full_length_of_participating
    (sfmData : SfMData) (specificViews : Finset IndexT) (hF : specificViews ≠ ∅)
    (out_stats : BoxStats) (c : Int) (out_histogram : Option Histogram) :
    (collectLengths sfmData specificViews c).1 = specLengths sfmData specificViews ∧
    ∃ r, computeObservationsLengthsHistogram sfmData out_stats c out_histogram specificViews
        = some r ∧
      r.out_stats = BoxStats.compute
        ((specLengths sfmData specificViews).map (fun (n : Int) => (n : Double))) := by
  have h1 := collectLengths_eq_spec sfmData specificViews hF c
  obtain ⟨r, hr, hs, -⟩ :=
    computeObservationsLengthsHistogram_some sfmData out_stats c out_histogram specificViews
  exact ⟨h1, r, hr, by rw [hs, h1]⟩

/-- Witness of C1 on the scenario of the specification: landmark A observed in views
1 and 2, landmark B in view 1, filter {2}: the single recorded length is 2. -/
theorem observationsLengths_records_full_length_of_participating_witness :
    ({2} : Finset IndexT) ≠ ∅ ∧ (collectLengths scenario {2} 0).1 = [2] :=
  ⟨by decide, by
    rw [(observationsLengths_records_full_length_of_participating scenario {2} (by decide)
      BoxStats.default 0 none).1]
    decide⟩

/-- C3: after computeObservationsLengthsHistogram the overall observation counter is its
initial value plus the sum over all landmarks of their observation counts, for every
viewFilter; and k successive calls on the same dataset add k times that sum. -/
theorem overallNbObservations_accumulates (sfmData : SfMData)
    (specificViews : Finset IndexT) (out_stats : BoxStats) (c : Int)
    (out_histogram : Option Histogram) (k : Nat) :
    (∃ r, computeObservationsLengthsHistogram sfmData out_stats c out_histogram specificViews
        = some r ∧ r.overallNbObservations = c + totalObservations sfmData) ∧
    ∃ r, successiveLengthsCalls sfmData specificViews k
          { out_stats := out_stats, overallNbObservations := c, out_histogram := out_histogram }
        = some r ∧ r.overallNbObservations = c + (k : Int) * totalObservations sfmData := by
  have one : ∀ (s : BoxStats) (c : Int) (h : Option Histogram),
      ∃ r, computeObservationsLengthsHistogram sfmData s c h specificViews = some r ∧
        r.overallNbObservations = c + totalObservations sfmData := by
    intro s c h
    obtain ⟨r, hr, -, hc⟩ := computeObservationsLengthsHistogram_some sfmData s c h specificViews
    exact ⟨r, hr, by rw [hc, collectLengths_counter]⟩
  refine ⟨one out_stats c out_histogram, ?_⟩
  have many : ∀ (k : Nat) (st : LengthsOutputs),
      ∃ r, successiveLengthsCalls sfmData specificViews k st = some r ∧
        r.overallNbObservations = st.overallNbObservations + (k : Int) * totalObservations sfmData := by
    intro k
    induction k with
    | zero => intro st; exact ⟨st, rfl, by simp⟩
    | succ k ih =>
      intro st
      obtain ⟨r1, hr1, hc1⟩ := one st.out_stats st.overallNbObservations st.out_histogram
      obtain ⟨r2, hr2, hc2⟩ := ih r1
      refine ⟨r2, ?_, ?_⟩
      · simp [successiveLengthsCalls, hr1, hr2]
      · rw [hc2, hc1]; push_cast; ring
  exact many k _

/-! ## Residuals -/

theorem residualNormsOf_append (sfmData : SfMData) (l₁ l₂ : List (Vec3 × (IndexT × Observation))) :
    residualNormsOf sfmData (l₁ ++ l₂) =
      (residualNormsOf sfmData l₁).bind
        (fun r₁ => (residualNormsOf sfmData l₂).map (fun r₂ => r₁ ++ r₂)) := by
  induction l₁ with
  | nil => simp [residualNormsOf]
  | cons a l ih =>
    have e : residualNormsOf sfmData (a :: l ++ l₂) =
        match residualNormOf sfmData a.1 a.2 with
        | none => none
        | some r => (residualNormsOf sfmData (l ++ l₂)).map (fun rs => r :: rs) := rfl
    rw [e, ih]
    simp only [residualNormsOf]
    cases residualNormOf sfmData a.1 a.2 <;> cases residualNormsOf sfmData l <;>
      cases residualNormsOf sfmData l₂ <;> simp

theorem residualsOfTrack_eq (sfmData : SfMData) (specificViews : Finset IndexT)
    (track : IndexT × Landmark) (obsList : List (IndexT × Observation)) (vec : List Double) :
    obsList.foldlM
      (fun vec obs =>
        if specificViews ≠ ∅ ∧ setCount specificViews obs.1 = 0 then pure vec
        else do
          let r ← residualNormOf sfmData track.2.X obs
          pure (vec ++ [r]))
      vec
    = (residualNormsOf sfmData
        ((obsList.map (fun obs => (track.2.X, obs))).filter
          (fun p => sampled specificViews p.2))).map (fun rs => vec ++ rs) := by
  induction obsList generalizing vec with
  | nil => simp [residualNormsOf]
  | cons o rest ih =>
    rw [List.foldlM_cons]
    by_cases hs : sampled specificViews o = true
    · have hc : ¬ (specificViews ≠ ∅ ∧ setCount specificViews o.1 = 0) := by
        unfold sampled at hs
        simp only [decide_eq_true_eq] at hs
        unfold setCount
        rcases hs with h | h
        · simp [h]
        · simp [h]
      rw [if_neg hc]
      simp only [List.map_cons, List.filter_cons, hs, if_true, residualNormsOf]
      cases residualNormOf sfmData track.2.X o with
      | none => simp
      | some r =>
        have ih2 := ih (vec ++ [r])
        simp only [Option.bind_eq_bind, Option.some_bind, Option.pure_def] at ih2 ⊢
        rw [ih2]
        cases residualNormsOf sfmData
          (List.filter (fun p => sampled specificViews p.2)
            (List.map (fun obs => (track.2.X, obs)) rest)) with
        | none => simp
        | some rs => simp
    · have hc : specificViews ≠ ∅ ∧ setCount specificViews o.1 = 0 := by
        unfold sampled at hs
        simp only [decide_eq_true_eq, not_or] at hs
        unfold setCount
        exact ⟨hs.1, by simp [hs.2]⟩
      rw [if_pos hc]
      simp only [List.map_cons, List.filter_cons, hs, Bool.false_eq_true, if_false]
      have ih2 := ih vec
      simp only [Option.pure_def, Option.bind_eq_bind, Option.some_bind] at ih2 ⊢
      exact ih2

theorem residualsOfTrack_spec (sfmData : SfMData) (specificViews : Finset IndexT)
    (track : IndexT × Landmark) (vec : List Double) :
    residualsOfTrack sfmData specificViews track vec
    = (residualNormsOf sfmData
        ((track.2.observations.entries.map (fun obs => (track.2.X, obs))).filter
          (fun p => sampled specificViews p.2))).map (fun rs => vec ++ rs) := by
  unfold residualsOfTrack
  exact residualsOfTrack_eq sfmData specificViews track _ vec

theorem collectResiduals_foldlM (sfmData : SfMData) (specificViews : Finset IndexT)
    (ls : List (IndexT × Landmark)) (vec : List Double) :
    ls.foldlM (fun vec track => residualsOfTrack sfmData specificViews track vec) vec
    = (residualNormsOf sfmData
        ((ls.flatMap (fun landmark =>
          landmark.2.observations.entries.map (fun obs => (landmark.2.X, obs)))).filter
          (fun p => sampled specificViews p.2))).map (fun rs => vec ++ rs) := by
  induction ls generalizing vec with
  | nil => simp [residualNormsOf]
  | cons l rest ih =>
    rw [List.foldlM_cons, residualsOfTrack_spec]
    simp only [List.flatMap_cons, List.filter_append, residualNormsOf_append]
    cases residualNormsOf sfmData
      (List.filter (fun p => sampled specificViews p.2)
        (List.map (fun obs => (l.2.X, obs)) l.2.observations.entries)) with
    | none => simp
    | some r₁ =>
      simp only [Option.map_some', Option.bind_eq_bind, Option.some_bind]
      rw [ih (vec ++ r₁)]
      cases residualNormsOf sfmData
        (List.filter (fun p => sampled specificViews p.2)
          (List.flatMap rest (fun (landmark : IndexT × Landmark) =>
            List.map (fun obs => (landmark.2.X, obs)) landmark.2.observations.entries))) with
      | none => simp
      | some r₂ => simp

theorem collectResiduals_eq_spec (sfmData : SfMData) (specificViews : Finset IndexT) :
    collectResiduals sfmData specificViews = specResiduals sfmData specificViews := by
  unfold collectResiduals specResiduals sampledObservations allObservations SfMData.getLandmarks
  rw [collectResiduals_foldlM]
  cases residualNormsOf sfmData
    (List.filter (fun p => sampled specificViews p.2)
      (List.flatMap sfmData.landmarks.entries (fun (landmark : IndexT × Landmark) =>
        List.map (fun obs => (landmark.2.X, obs)) landmark.2.observations.entries))) with
  | none => simp
  | some r => simp

theorem residualNormOf_nonneg (sfmData : SfMData) (X : Vec3) (obs : IndexT × Observation)
    (r : Double) (h : residualNormOf sfmData X obs = some r) : 0 ≤ r := by
  unfold residualNormOf at h
  cases hv : sfmData.getView obs.1 with
  | none => simp [hv] at h
  | some view =>
    cases hp : sfmData.getPose view with
    | none => simp [hv, hp] at h
    | some pose =>
      cases hi : sfmData.getIntrinsics.find view.intrinsicId with
      | none => simp [hv, hp, hi] at h
      | some intrinsic =>
        simp [hv, hp, hi] at h
        rw [← h]
        exact intrinsic.residualNorm_nonneg _ _ _

theorem residualNormsOf_some (sfmData : SfMData) (l : List (Vec3 × (IndexT × Observation)))
    (rs : List Double) (h : residualNormsOf sfmData l = some rs) :
    rs.length = l.length ∧ ∀ x ∈ rs, 0 ≤ x := by
  induction l generalizing rs with
  | nil =>
    simp [residualNormsOf] at h
    subst h
    simp
  | cons p rest ih =>
    simp only [residualNormsOf] at h
    cases hp : residualNormOf sfmData p.1 p.2 with
    | none => simp [hp] at h
    | some r =>
      cases hr : residualNormsOf sfmData rest with
      | none => simp [hp, hr] at h
      | some rs' =>
        simp [hp, hr] at h
        subst h
        obtain ⟨hl, hn⟩ := ih rs' hr
        refine ⟨by simp [hl], ?_⟩
        intro x hx
        rcases List.mem_cons.mp hx with hx | hx
        · rw [hx]; exact residualNormOf_nonneg sfmData p.1 p.2 r hp
        · exact hn x hx

theorem residualNormsOf_defined (sfmData : SfMData) (l : List (Vec3 × (IndexT × Observation)))
    (h : ∀ p ∈ l, (residualNormOf sfmData p.1 p.2).isSome = true) :
    ∃ rs, residualNormsOf sfmData l = some rs := by
  induction l with
  | nil => exact ⟨[], rfl⟩
  | cons p rest ih =>
    obtain ⟨rs, hrs⟩ := ih (fun q hq => h q (List.mem_cons_of_mem _ hq))
    obtain ⟨r, hr⟩ := Option.isSome_iff_exists.mp (h p (List.mem_cons_self _ _))
    exact ⟨r :: rs, by simp [residualNormsOf, hr, hrs]⟩

theorem residuals_histogram_some (samples : List Double) (hnn : ∀ x ∈ samples, 0 ≤ x) :
    ∃ nBins h, toSizeT ((⌈(BoxStats.compute samples).max⌉ : Double) * 2) = some nBins ∧
      (Histogram.create 0 (⌈(BoxStats.compute samples).max⌉ : Double) nBins).AddRange samples
        = some h := by
  have hmax := BoxStats.max_nonneg samples hnn
  have hceil : (0 : Int) ≤ ⌈(BoxStats.compute samples).max⌉ := Int.ceil_nonneg hmax
  have hq : (0 : Double) ≤ (⌈(BoxStats.compute samples).max⌉ : Double) := by exact_mod_cast hceil
  have hn : toSizeT ((⌈(BoxStats.compute samples).max⌉ : Double) * 2)
      = some ⌊(⌈(BoxStats.compute samples).max⌉ : Double) * 2⌋.toNat := by
    unfold toSizeT
    rw [if_pos (by linarith)]
  have hadd : ∃ h, (Histogram.create 0 (⌈(BoxStats.compute samples).max⌉ : Double)
      ⌊(⌈(BoxStats.compute samples).max⌉ : Double) * 2⌋.toNat).AddRange samples = some h := by
    rcases Nat.eq_zero_or_pos ⌊(⌈(BoxStats.compute samples).max⌉ : Double) * 2⌋.toNat
      with h0 | hpos
    · obtain ⟨h, hh, -⟩ := Histogram.AddRange_some samples
        (Histogram.create 0 (⌈(BoxStats.compute samples).max⌉ : Double)
          ⌊(⌈(BoxStats.compute samples).max⌉ : Double) * 2⌋.toNat)
        (Or.inl (by simp [Histogram.nBins, Histogram.create, h0]))
      exact ⟨h, hh⟩
    · have hc : (0 : Double) < (⌈(BoxStats.compute samples).max⌉ : Double) := by
        rcases lt_or_eq_of_le hq with h | h
        · exact h
        · exfalso
          rw [← h] at hpos
          simp at hpos
      obtain ⟨h, hh, -⟩ := Histogram.AddRange_some samples
        (Histogram.create 0 (⌈(BoxStats.compute samples).max⌉ : Double)
          ⌊(⌈(BoxStats.compute samples).max⌉ : Double) * 2⌋.toNat)
        (Or.inr (create_binWidth_ne_zero _ _ _ hpos hc))
      exact ⟨h, hh⟩
  obtain ⟨h, hh⟩ := hadd
  exact ⟨_, h, hn, hh⟩

theorem specResiduals_of_no_landmarks (sfmData : SfMData) (specificViews : Finset IndexT)
    (hE : sfmData.getLandmarks.empty = true) : specResiduals sfmData specificViews = some [] := by
  have hnil : sfmData.landmarks.entries = [] := by
    simpa [StdMap.empty, SfMData.getLandmarks] using hE
  simp [specResiduals, sampledObservations, allObservations, hnil, residualNormsOf]

theorem computeResidualsHistogram_of_none (sfmData : SfMData) (out_stats : BoxStats)
    (out_histogram : Option Histogram) (specificViews : Finset IndexT)
    (h : specResiduals sfmData specificViews = none) :
    computeResidualsHistogram sfmData out_stats out_histogram specificViews = none := by
  unfold computeResidualsHistogram
  by_cases hE : sfmData.getLandmarks.empty = true
  · rw [specResiduals_of_no_landmarks sfmData specificViews hE] at h
    cases h
  · simp only [hE, Bool.false_eq_true, if_false, collectResiduals_eq_spec, h]

theorem computeResidualsHistogram_of_some (sfmData : SfMData) (out_stats : BoxStats)
    (out_histogram : Option Histogram) (specificViews : Finset IndexT) (vec : List Double)
    (h : specResiduals sfmData specificViews = some vec) :
    ∃ r, computeResidualsHistogram sfmData out_stats out_histogram specificViews = some r ∧
      r.out_stats = BoxStats.compute vec ∧
      (vec = [] → r = initOutputs out_stats out_histogram) := by
  unfold computeResidualsHistogram
  by_cases hE : sfmData.getLandmarks.empty = true
  · rw [specResiduals_of_no_landmarks sfmData specificViews hE] at h
    cases h
    exact ⟨_, by simp [hE], by simp [initOutputs, BoxStats.compute_nil], fun _ => rfl⟩
  · simp only [hE, Bool.false_eq_true, if_false, collectResiduals_eq_spec, h]
    by_cases hN : vec.isEmpty = true
    · have hnil : vec = [] := by simpa using hN
      subst hnil
      exact ⟨_, by simp, by simp [initOutputs, BoxStats.compute_nil], fun _ => rfl⟩
    · have hne : vec ≠ [] := by simpa using hN
      simp only [hN, Bool.false_eq_true, if_false]
      cases out_histogram with
      | none =>
        exact ⟨{ out_stats := BoxStats.compute vec, out_histogram := none },
          by simp [initOutputs], rfl, fun e => absurd e hne⟩
      | some h0 =>
        have hnn : ∀ x ∈ vec, 0 ≤ x := by
          unfold specResiduals at h
          exact (residualNormsOf_some sfmData _ vec h).2
        obtain ⟨n, hh, hn, hadd⟩ := residuals_histogram_some vec hnn
        exact ⟨{ out_stats := BoxStats.compute vec, out_histogram := some hh },
          by simp [initOutputs, hn, hadd], rfl, fun e => absurd e hne⟩

/-- C2: for every dataset and every viewFilter, the samples collected by
computeResidualsHistogram are exactly the residual norms of the observations whose view
is in viewFilter (of all observations when viewFilter is empty), the returned BoxStats is
the BoxStats of these samples, so that its count is the number of these observations;
a result is returned when the residual of every such observation can be computed. -/
theorem residuals_samples_are_norms_of_sampled_observations (sfmData : SfMData)
    (out_stats : BoxStats) (out_histogram : Option Histogram) (specificViews : Finset IndexT) :
    collectResiduals sfmData specificViews = specResiduals sfmData specificViews ∧
    (computeResidualsHistogram sfmData out_stats out_histogram specificViews).map
        (fun r => r.out_stats)
      = (specResiduals sfmData specificViews).map BoxStats.compute ∧
    (∀ r, computeResidualsHistogram sfmData out_stats out_histogram specificViews = some r →
      r.out_stats.count = (sampledObservations sfmData specificViews).length) ∧
    ((∀ p ∈ sampledObservations sfmData specificViews,
        (residualNormOf sfmData p.1 p.2).isSome = true) →
      ∃ r, computeResidualsHistogram sfmData out_stats out_histogram specificViews = some r) := by
  refine ⟨collectResiduals_eq_spec sfmData specificViews, ?_, ?_, ?_⟩
  · cases h : specResiduals sfmData specificViews with
    | none =>
      rw [computeResidualsHistogram_of_none sfmData out_stats out_histogram specificViews h]
      rfl
    | some vec =>
      obtain ⟨r, hr, hs, -⟩ :=
        computeResidualsHistogram_of_some sfmData out_stats out_histogram specificViews vec h
      rw [hr]
      simp [hs]
  · intro r hr
    cases h : specResiduals sfmData specificViews with
    | none =>
      rw [computeResidualsHistogram_of_none sfmData out_stats out_histogram specificViews h] at hr
      cases hr
    | some vec =>
      obtain ⟨r', hr', hs, -⟩ :=
        computeResidualsHistogram_of_some sfmData out_stats out_histogram specificViews vec h
      rw [hr'] at hr
      cases hr
      rw [hs, BoxStats.count_compute]
      exact (residualNormsOf_some sfmData _ vec h).1
  · intro hall
    obtain ⟨vec, hvec⟩ := residualNormsOf_defined sfmData _ hall
    obtain ⟨r, hr, -⟩ :=
      computeResidualsHistogram_of_some sfmData out_stats out_histogram specificViews vec hvec
    exact ⟨r, hr⟩

theorem scenario_residuals_all : specResiduals scenario ∅ = some [1, 3, 2] := by
  simp [specResiduals, sampledObservations, allObservations, scenario, landmarkA, landmarkB,
    sampled, residualNormsOf, residualNormOf, SfMData.getView, SfMData.getPose,
    SfMData.getIntrinsics, StdMap.find, List.lookup, scenarioIntrinsic]

theorem scenario_residuals_view1 : specResiduals scenario {1} = some [1, 2] := by
  simp [specResiduals, sampledObservations, allObservations, scenario, landmarkA, landmarkB,
    sampled, residualNormsOf, residualNormOf, SfMData.getView, SfMData.getPose,
    SfMData.getIntrinsics, StdMap.find, List.lookup, scenarioIntrinsic]

theorem scenario_resolves (specificViews : Finset IndexT) :
    ∀ p ∈ sampledObservations scenario specificViews,
      (residualNormOf scenario p.1 p.2).isSome = true := by
  intro p hp
  have hp2 : p ∈ allObservations scenario := (List.mem_filter.mp hp).1
  simp [allObservations, scenario, landmarkA, landmarkB] at hp2
  rcases hp2 with h | h | h <;> subst h <;>
    simp [residualNormOf, SfMData.getView, SfMData.getPose, SfMData.getIntrinsics,
      StdMap.find, List.lookup, scenario]

/-- Witness of C2 on the scenario of the specification: without filter the BoxStats has
count 3, min 1, max 3, mean 2 and median 2; filtered to view 1 the samples are 1 and 2,
with mean 3/2. -/
theorem residuals_samples_are_norms_of_sampled_observations_witness :
    (∀ p ∈ sampledObservations scenario ∅, (residualNormOf scenario p.1 p.2).isSome = true) ∧
    (∃ r, computeResidualsHistogram scenario BoxStats.default none ∅ = some r ∧
      r.out_stats.count = 3 ∧ r.out_stats.min = 1 ∧ r.out_stats.max = 3 ∧
      r.out_stats.mean = 2 ∧ r.out_stats.median = 2) ∧
    (∃ r, computeResidualsHistogram scenario BoxStats.default none {1} = some r ∧
      r.out_stats.count = 2 ∧ r.out_stats.mean = 3 / 2) := by
  refine ⟨scenario_resolves ∅, ?_, ?_⟩
  · have h := residuals_samples_are_norms_of_sampled_observations scenario BoxStats.default none ∅
    obtain ⟨r, hr⟩ := h.2.2.2 (scenario_resolves ∅)
    have h2 := h.2.1
    rw [hr, scenario_residuals_all] at h2
    simp only [Option.map_some', Option.some.injEq] at h2
    refine ⟨r, hr, ?_⟩
    rw [h2]
    norm_num [BoxStats.compute, List.insertionSort, List.orderedInsert]
  · have h := residuals_samples_are_norms_of_sampled_observations scenario BoxStats.default none {1}
    obtain ⟨r, hr⟩ := h.2.2.2 (scenario_resolves {1})
    have h2 := h.2.1
    rw [hr, scenario_residuals_view1] at h2
    simp only [Option.map_some', Option.some.injEq] at h2
    refine ⟨r, hr, ?_⟩
    rw [h2]
    norm_num [BoxStats.compute, List.insertionSort, List.orderedInsert]

/-! ## Landmarks per view -/

theorem countInv_step (m : List (IndexT × Int)) (vs : List IndexT)
    (obs : IndexT × Observation) (h : CountInv m vs) :
    CountInv (countStep m obs) (vs ++ [obs.1]) := by
  obtain ⟨hord, hfind⟩ := h
  unfold countStep
  have hk := hfind obs.1
  by_cases h0 : vs.count obs.1 = 0
  · rw [if_pos h0] at hk
    simp only [hk]
    refine ⟨LocalMap.assign_ordered _ _ _ hord, ?_⟩
    intro v
    rw [LocalMap.find_assign, hfind v, List.count_append]
    by_cases hv : v = obs.1
    · subst hv
      simp [h0]
    · have : List.count v [obs.1] = 0 := by
        simp [List.count_cons, Ne.symm hv]
      simp [hv, this]
  · rw [if_neg h0] at hk
    simp only [hk]
    refine ⟨LocalMap.assign_ordered _ _ _ hord, ?_⟩
    intro v
    rw [LocalMap.find_assign, hfind v, List.count_append]
    by_cases hv : v = obs.1
    · subst hv
      simp
    · have : List.count v [obs.1] = 0 := by
        simp [List.count_cons, Ne.symm hv]
      simp [hv, this]

theorem countInv_observations (obsList : List (IndexT × Observation))
    (m : List (IndexT × Int)) (vs : List IndexT) (h : CountInv m vs) :
    CountInv (obsList.foldl countStep m) (vs ++ obsList.map Prod.fst) := by
  induction obsList generalizing m vs with
  | nil => simpa using h
  | cons o rest ih =>
    rw [List.foldl_cons]
    have := ih _ _ (countInv_step m vs o h)
    simpa using this

theorem countInv_landmarks (ls : List (IndexT × Landmark))
    (m : List (IndexT × Int)) (vs : List IndexT) (h : CountInv m vs) :
    CountInv (ls.foldl (fun m landmark => landmark.2.observations.entries.foldl countStep m) m)
      (vs ++ ls.flatMap (fun landmark => landmark.2.observations.keys)) := by
  induction ls generalizing m vs with
  | nil => simpa using h
  | cons l rest ih =>
    rw [List.foldl_cons]
    have := ih _ _ (countInv_observations l.2.observations.entries m vs h)
    simpa [StdMap.keys] using this

theorem countInv_countMap (sfmData : SfMData) :
    CountInv (countMap sfmData)
      (sfmData.landmarks.entries.flatMap (fun landmark => landmark.2.observations.keys)) := by
  have h0 : CountInv [] [] := ⟨List.Pairwise.nil, fun v => by simp [LocalMap.find_nil]⟩
  have := countInv_landmarks sfmData.landmarks.entries [] [] h0
  simpa [countMap, SfMData.getLandmarks] using this

theorem count_observation_keys (ls : List (IndexT × Landmark)) (v : IndexT) :
    (ls.flatMap (fun landmark => landmark.2.observations.keys)).count v =
      (ls.filter (fun landmark => decide (v ∈ landmark.2.observations.keys))).length :=
  StdMap.count_keys_flatMap (fun (landmark : IndexT × Landmark) => landmark.2.observations) ls v

theorem foldl_push_snd (m : List (IndexT × Int)) (out : List Int) :
    m.foldl (fun o it => o ++ [it.2]) out = out ++ m.map Prod.snd := by
  induction m generalizing out with
  | nil => simp
  | cons e rest ih => rw [List.foldl_cons, ih]; simp

/-- C4: computeLandmarksPerView returns one entry per view identifier occurring in at
least one observation, in ascending order of the view identifiers, the entry of view v
being the number of landmarks that have an observation in v; the previous content of
the output vector is discarded. -/
theorem landmarksPerView_counts_landmarks_per_observed_view (sfmData : SfMData)
    (out_nbLandmarksPerView : List Int) :
    ∃ viewIds : List IndexT,
      viewIds.Pairwise (fun a b => a < b) ∧
      (∀ v, v ∈ viewIds ↔ observedView sfmData v) ∧
      computeLandmarksPerView sfmData out_nbLandmarksPerView =
        viewIds.map (fun v => (nbLandmarksObserving sfmData v : Int)) := by
  obtain ⟨hord, hfind⟩ := countInv_countMap sfmData
  refine ⟨(countMap sfmData).map Prod.fst, List.pairwise_map.mpr hord, ?_, ?_⟩
  · intro v
    rw [LocalMap.mem_keys_iff_find, hfind v]
    unfold observedView
    by_cases h0 : (sfmData.landmarks.entries.flatMap
        (fun landmark => landmark.2.observations.keys)).count v = 0
    · rw [if_pos h0]
      have hn := List.count_eq_zero.mp h0
      simp only [ne_eq, not_true_eq_false, false_iff]
      rintro ⟨l, hl, hv⟩
      exact hn (List.mem_flatMap.mpr ⟨l, hl, hv⟩)
    · rw [if_neg h0]
      have hn : v ∈ sfmData.landmarks.entries.flatMap
          (fun landmark => landmark.2.observations.keys) := by
        by_contra hc
        exact h0 (List.count_eq_zero.mpr hc)
      obtain ⟨l, hl, hv⟩ := List.mem_flatMap.mp hn
      simp only [ne_eq, reduceCtorEq, not_false_eq_true, true_iff]
      exact ⟨l, hl, hv⟩
  · have hres : computeLandmarksPerView sfmData out_nbLandmarksPerView
        = (countMap sfmData).map Prod.snd := by
      unfold computeLandmarksPerView
      by_cases hE : sfmData.getLandmarks.empty = true
      · have hnil : sfmData.getLandmarks.entries = [] := by simpa [StdMap.empty] using hE
        simp [hE, countMap, hnil]
      · by_cases hN : (countMap sfmData).isEmpty = true
        · have hnil : countMap sfmData = [] := by simpa using hN
          simp [hE, hnil]
        · simp [hE, hN, foldl_push_snd]
    rw [hres, List.map_map]
    apply List.map_congr_left
    intro e he
    have h1 := LocalMap.find_of_mem _ hord e he
    rw [hfind e.1] at h1
    by_cases h0 : (sfmData.landmarks.entries.flatMap
        (fun landmark => landmark.2.observations.keys)).count e.1 = 0
    · rw [if_pos h0] at h1
      cases h1
    · rw [if_neg h0] at h1
      simp only [Option.some.injEq] at h1
      simp only [Function.comp_apply, nbLandmarksObserving]
      rw [← h1, count_observation_keys]

theorem histogramCountStep_nil (obsList : List (IndexT × Observation)) :
    obsList.foldl histogramCountStep [] = [] := by
  induction obsList with
  | nil => rfl
  | cons o rest ih =>
    rw [List.foldl_cons]
    have h : histogramCountStep [] o = [] := by
      simp [histogramCountStep, LocalMap.find_nil]
    rw [h, ih]

theorem histogramCountMap_nil (sfmData : SfMData) : histogramCountMap sfmData = [] := by
  unfold histogramCountMap
  induction sfmData.getLandmarks.entries with
  | nil => rfl
  | cons l rest ih => rw [List.foldl_cons, histogramCountStep_nil, ih]

theorem computeLandmarksPerViewHistogram_default (sfmData : SfMData) (out_stats : BoxStats)
    (out_histogram : Option Histogram) :
    computeLandmarksPerViewHistogram sfmData out_stats out_histogram
      = some (initOutputs out_stats out_histogram) := by
  unfold computeLandmarksPerViewHistogram
  simp [histogramCountMap_nil]

theorem scenario_landmarksPerView : computeLandmarksPerView scenario [] = [2, 1] := by
  decide

/-- C5 (the code departs from the claim): computeLandmarksPerViewHistogram never inserts
an entry in its local map, so on every dataset it returns the default outputs. On the
scenario of the specification, with two observed views, it returns the default BoxStats,
of count 0, whereas computeLandmarksPerView returns the counts 2 and 1, whose BoxStats
has count 2. -/
theorem landmarksPerViewHistogram_returns_default :
    (∀ sfmData out_stats out_histogram,
      computeLandmarksPerViewHistogram sfmData out_stats out_histogram
        = some (initOutputs out_stats out_histogram)) ∧
    computeLandmarksPerViewHistogram scenario BoxStats.default none
      = some { out_stats := BoxStats.default, out_histogram := none } ∧
    BoxStats.default.count = 0 ∧
    computeLandmarksPerView scenario [] = [2, 1] ∧
    (BoxStats.compute [2, 1]).count = 2 := by
  refine ⟨computeLandmarksPerViewHistogram_default, ?_, rfl, scenario_landmarksPerView, ?_⟩
  · rw [computeLandmarksPerViewHistogram_default]; rfl
  · rw [BoxStats.count_compute]; rfl

/-! ## Scales -/

theorem scalesOfLandmark_eq (specificViews : Finset IndexT) (X : Vec3)
    (obsList : List (IndexT × Observation)) (vec : List Double) :
    obsList.foldl
      (fun vec obs =>
        if specificViews ≠ ∅ ∧ setCount specificViews obs.1 = 0 then vec
        else vec ++ [obs.2.scale])
      vec
    = vec ++ (((obsList.map (fun obs => (X, obs))).filter
        (fun p => sampled specificViews p.2)).map (fun p => p.2.2.scale)) := by
  induction obsList generalizing vec with
  | nil => simp
  | cons o rest ih =>
    rw [List.foldl_cons]
    by_cases hs : sampled specificViews o = true
    · have hc : ¬ (specificViews ≠ ∅ ∧ setCount specificViews o.1 = 0) := by
        unfold sampled at hs
        simp only [decide_eq_true_eq] at hs
        unfold setCount
        rcases hs with h | h
        · simp [h]
        · simp [h]
      rw [if_neg hc, ih]
      simp [List.filter_cons, hs]
    · have hc : specificViews ≠ ∅ ∧ setCount specificViews o.1 = 0 := by
        unfold sampled at hs
        simp only [decide_eq_true_eq, not_or] at hs
        unfold setCount
        exact ⟨hs.1, by simp [hs.2]⟩
      rw [if_pos hc, ih]
      simp [List.filter_cons, hs]

theorem collectScales_foldl (specificViews : Finset IndexT) (ls : List (IndexT × Landmark))
    (vec : List Double) :
    ls.foldl (scalesOfLandmark specificViews) vec
    = vec ++ (((ls.flatMap (fun landmark =>
          landmark.2.observations.entries.map (fun obs => (landmark.2.X, obs)))).filter
          (fun p => sampled specificViews p.2)).map (fun p => p.2.2.scale)) := by
  induction ls generalizing vec with
  | nil => simp
  | cons l rest ih =>
    rw [List.foldl_cons]
    have h1 : scalesOfLandmark specificViews vec l
        = vec ++ (((l.2.observations.entries.map (fun obs => (l.2.X, obs))).filter
            (fun p => sampled specificViews p.2)).map (fun p => p.2.2.scale)) := by
      unfold scalesOfLandmark
      exact scalesOfLandmark_eq specificViews l.2.X _ vec
    rw [h1, ih]
    simp [List.flatMap_cons, List.filter_append]

theorem collectScales_eq_spec (sfmData : SfMData) (specificViews : Finset IndexT) :
    collectScales sfmData specificViews
      = (sampledObservations sfmData specificViews).map (fun p => p.2.2.scale) := by
  unfold collectScales sampledObservations allObservations SfMData.getLandmarks
  rw [collectScales_foldl]
  simp

/-! ## Empty inputs -/

theorem sampledObservations_nil_of_unobserved (sfmData : SfMData)
    (specificViews : Finset IndexT) (hF : specificViews ≠ ∅)
    (hno : ∀ landmark ∈ sfmData.landmarks.entries,
      ∀ obs ∈ landmark.2.observations.entries, obs.1 ∉ specificViews) :
    sampledObservations sfmData specificViews = [] := by
  unfold sampledObservations allObservations
  rw [List.filter_eq_nil_iff]
  intro p hp
  obtain ⟨l, hl, hpl⟩ := List.mem_flatMap.mp hp
  obtain ⟨o, ho, hpo⟩ := List.mem_map.mp hpl
  subst hpo
  simp [sampled, hF, hno l hl o ho]

theorem specLengths_nil_of_unobserved (sfmData : SfMData) (specificViews : Finset IndexT)
    (hno : ∀ landmark ∈ sfmData.landmarks.entries,
      ∀ obs ∈ landmark.2.observations.entries, obs.1 ∉ specificViews) :
    specLengths sfmData specificViews = [] := by
  unfold specLengths
  rw [List.map_eq_nil_iff, List.filter_eq_nil_iff]
  intro l hl
  unfold participates
  simp only [List.any_eq_true, decide_eq_true_eq, not_exists, not_and]
  intro o ho
  exact hno l hl o ho

theorem computeScaleHistogram_of_nil (sfmData : SfMData) (out_stats : BoxStats)
    (out_histogram : Option Histogram) (specificViews : Finset IndexT)
    (h : sampledObservations sfmData specificViews = []) :
    computeScaleHistogram sfmData out_stats out_histogram specificViews
      = some (initOutputs out_stats out_histogram) := by
  unfold computeScaleHistogram
  simp [collectScales_eq_spec, h]

theorem sampledObservations_of_no_landmarks (sfmData : SfMData) (specificViews : Finset IndexT)
    (hE : sfmData.landmarks.entries = []) : sampledObservations sfmData specificViews = [] := by
  simp [sampledObservations, allObservations, hE]

/-- C6: on a dataset with no landmarks, whatever the previous contents of the output
parameters, the four histogram routines return the default BoxStats (count 0, every
field zero) and, when a histogram is requested, the default histogram of zero bins;
computeLandmarksPerView returns an empty vector; and computeObservationsLengthsHistogram
leaves the overall observation counter unchanged. -/
theorem no_landmarks_gives_default_outputs (sfmData : SfMData)
    (hE : sfmData.landmarks.entries = []) (out_stats : BoxStats)
    (out_histogram : Option Histogram) (specificViews : Finset IndexT) (c : Int)
    (out_nbLandmarksPerView : List Int) :
    computeResidualsHistogram sfmData out_stats out_histogram specificViews
      = some { out_stats := BoxStats.default,
               out_histogram := out_histogram.map (fun _ => Histogram.default) } ∧
    computeObservationsLengthsHistogram sfmData out_stats c out_histogram specificViews
      = some { out_stats := BoxStats.default, overallNbObservations := c,
               out_histogram := out_histogram.map (fun _ => Histogram.default) } ∧
    computeLandmarksPerViewHistogram sfmData out_stats out_histogram
      = some { out_stats := BoxStats.default,
               out_histogram := out_histogram.map (fun _ => Histogram.default) } ∧
    computeScaleHistogram sfmData out_stats out_histogram specificViews
      = some { out_stats := BoxStats.default,
               out_histogram := out_histogram.map (fun _ => Histogram.default) } ∧
    computeLandmarksPerView sfmData out_nbLandmarksPerView = [] ∧
    BoxStats.default = { count := 0, min := 0, max := 0, mean := 0, median := 0,
                         firstQuartile := 0, thirdQuartile := 0 } ∧
    Histogram.default.nBins = 0 := by
  have hempty : sfmData.getLandmarks.empty = true := by
    simp [SfMData.getLandmarks, StdMap.empty, hE]
  refine ⟨?_, ?_, ?_, ?_, ?_, rfl, rfl⟩
  · simp [computeResidualsHistogram, hempty, initOutputs]
  · simp [computeObservationsLengthsHistogram, hempty, initOutputs]
  · simp [computeLandmarksPerViewHistogram, hempty, initOutputs]
  · simp [computeScaleHistogram, hempty, initOutputs]
  · simp [computeLandmarksPerView, hempty]

/-- Witness of C6: the dataset without landmarks, with output parameters that hold
previous results. -/
theorem no_landmarks_gives_default_outputs_witness :
    emptyScene.landmarks.entries = [] ∧
    computeResidualsHistogram emptyScene (BoxStats.compute [1, 2]) (some (Histogram.create 0 2 4)) {1}
      = some { out_stats := BoxStats.default, out_histogram := some Histogram.default } ∧
    computeObservationsLengthsHistogram emptyScene (BoxStats.compute [1, 2]) 7
        (some (Histogram.create 0 2 4)) {1}
      = some { out_stats := BoxStats.default, overallNbObservations := 7,
               out_histogram := some Histogram.default } ∧
    computeLandmarksPerView emptyScene [4, 5] = [] :=
  have h := no_landmarks_gives_default_outputs emptyScene rfl (BoxStats.compute [1, 2])
    (some (Histogram.create 0 2 4)) {1} 7 [4, 5]
  ⟨rfl, h.1, h.2.1, h.2.2.2.2.1⟩

/-- C7: for a non-empty viewFilter holding the view of no observation,
computeResidualsHistogram, computeScaleHistogram and computeObservationsLengthsHistogram
return (no error is raised) the default BoxStats and, when a histogram is requested,
the default histogram of zero bins. -/
theorem unobserved_filter_gives_default_outputs (sfmData : SfMData)
    (specificViews : Finset IndexT) (hF : specificViews ≠ ∅)
    (hno : ∀ landmark ∈ sfmData.landmarks.entries,
      ∀ obs ∈ landmark.2.observations.entries, obs.1 ∉ specificViews)
    (out_stats : BoxStats) (out_histogram : Option Histogram) (c : Int) :
    computeResidualsHistogram sfmData out_stats out_histogram specificViews
      = some { out_stats := BoxStats.default,
               out_histogram := out_histogram.map (fun _ => Histogram.default) } ∧
    computeScaleHistogram sfmData out_stats out_histogram specificViews
      = some { out_stats := BoxStats.default,
               out_histogram := out_histogram.map (fun _ => Histogram.default) } ∧
    (∃ r, computeObservationsLengthsHistogram sfmData out_stats c out_histogram specificViews
        = some r ∧ r.out_stats = BoxStats.default ∧
        r.out_histogram = out_histogram.map (fun _ => Histogram.default)) ∧
    BoxStats.default = { count := 0, min := 0, max := 0, mean := 0, median := 0,
                         firstQuartile := 0, thirdQuartile := 0 } ∧
    Histogram.default.nBins = 0 := by
  have hs := sampledObservations_nil_of_unobserved sfmData specificViews hF hno
  refine ⟨?_, ?_, ?_, rfl, rfl⟩
  · have hspec : specResiduals sfmData specificViews = some [] := by
      simp [specResiduals, hs, residualNormsOf]
    obtain ⟨r, hr, -, hinit⟩ :=
      computeResidualsHistogram_of_some sfmData out_stats out_histogram specificViews [] hspec
    rw [hr, hinit rfl]
    rfl
  · rw [computeScaleHistogram_of_nil sfmData out_stats out_histogram specificViews hs]
    rfl
  · have hl : (collectLengths sfmData specificViews c).1 = [] := by
      rw [collectLengths_eq_spec sfmData specificViews hF c]
      exact specLengths_nil_of_unobserved sfmData specificViews hno
    unfold computeObservationsLengthsHistogram
    by_cases hE : sfmData.getLandmarks.empty = true
    · simp [hE, initOutputs]
    · simp [hE, hl, initOutputs]

/-- Witness of C7: the scenario of the specification, whose observations are in views
1 and 2, with the filter {3}. -/
theorem unobserved_filter_gives_default_outputs_witness :
    ({3} : Finset IndexT) ≠ ∅ ∧
    (∀ landmark ∈ scenario.landmarks.entries,
      ∀ obs ∈ landmark.2.observations.entries, obs.1 ∉ ({3} : Finset IndexT)) ∧
    computeResidualsHistogram scenario BoxStats.default (some Histogram.default) {3}
      = some { out_stats := BoxStats.default, out_histogram := some Histogram.default } ∧
    computeScaleHistogram scenario BoxStats.default (some Histogram.default) {3}
      = some { out_stats := BoxStats.default, out_histogram := some Histogram.default } :=
  have hno : ∀ landmark ∈ scenario.landmarks.entries,
      ∀ obs ∈ landmark.2.observations.entries, obs.1 ∉ ({3} : Finset IndexT) := by
    intro l hl o ho
    simp only [scenario, List.mem_cons, List.mem_singleton, List.not_mem_nil, or_false] at hl
    rcases hl with h | h
    · subst h
      simp only [landmarkA, List.mem_cons, List.mem_singleton, List.not_mem_nil, or_false] at ho
      rcases ho with h | h <;> subst h <;> decide
    · subst h
      simp only [landmarkB, List.mem_cons, List.mem_singleton, List.not_mem_nil, or_false] at ho
      subst ho
      decide
  have h := unobserved_filter_gives_default_outputs scenario {3} (by decide) hno
    BoxStats.default (some Histogram.default) 0
  ⟨by decide, hno, h.1, h.2.1⟩

/-! ## Features and tracks per view -/

/-- C8: when the feature loader reports failure, or the match loader reports failure,
computeFeatMatchPerView returns with both output sequences exactly as they were on
entry; sequences that were empty remain empty. -/
theorem featMatchPerView_unchanged_on_load_failure (ext : Collaborators) (sfmData : SfMData)
    (out_featPerView out_matchPerView : List Nat)
    (hfail : ext.loadFeaturesPerView sfmData = none ∨
      ((ext.loadFeaturesPerView sfmData).isSome = true ∧
        ext.loadPairwiseMatches sfmData = none)) :
    computeFeatMatchPerView ext sfmData out_featPerView out_matchPerView
      = (out_featPerView, out_matchPerView) ∧
    computeFeatMatchPerView ext sfmData [] [] = ([], []) := by
  unfold computeFeatMatchPerView
  rcases hfail with h | ⟨h1, h2⟩
  · simp [h]
  · obtain ⟨f, hf⟩ := Option.isSome_iff_exists.mp h1
    simp [hf, h2]

/-- Witness of C8: a failing feature loader, and a failing match loader after a
successful feature loader, on the scenario of the specification. -/
theorem featMatchPerView_unchanged_on_load_failure_witness :
    (failingFeatures.loadFeaturesPerView scenario = none ∨
      ((failingFeatures.loadFeaturesPerView scenario).isSome = true ∧
        failingFeatures.loadPairwiseMatches scenario = none)) ∧
    computeFeatMatchPerView failingFeatures scenario [3] [4] = ([3], [4]) ∧
    computeFeatMatchPerView failingMatches scenario [] [] = ([], []) :=
  ⟨Or.inl rfl,
    (featMatchPerView_unchanged_on_load_failure failingFeatures scenario [3] [4] (Or.inl rfl)).1,
    (featMatchPerView_unchanged_on_load_failure failingMatches scenario [] []
      (Or.inr ⟨rfl, rfl⟩)).2⟩

theorem trackCount_touch (tpv : TracksPerView) (k v : IndexT) :
    trackCount (LocalMap.touch tpv k []) v = trackCount tpv v := by
  unfold LocalMap.touch
  cases hk : LocalMap.find tpv k with
  | some ids => rfl
  | none =>
    simp only
    unfold trackCount
    rw [LocalMap.find_assign]
    by_cases hv : v = k
    · subst hv; simp [hk]
    · simp [hv]

theorem trackCount_init (views : List (IndexT × View)) (tpv : TracksPerView) (v : IndexT) :
    trackCount (views.foldl (fun tpv viewIt => LocalMap.touch tpv viewIt.1 []) tpv) v
      = trackCount tpv v := by
  induction views generalizing tpv with
  | nil => rfl
  | cons w rest ih => rw [List.foldl_cons, ih, trackCount_touch]

theorem trackCount_push (tpv : TracksPerView) (k t v : IndexT) :
    trackCount (LocalMap.assign tpv k (((LocalMap.find tpv k).getD []) ++ [t])) v
      = trackCount tpv v + List.count v [k] := by
  unfold trackCount
  rw [LocalMap.find_assign]
  by_cases hv : v = k
  · subst hv
    cases LocalMap.find tpv v <;> simp
  · have : List.count v [k] = 0 := by simp [List.count_cons, Ne.symm hv]
    simp [hv, this]

theorem trackCount_track (t : IndexT) (feats : List (IndexT × IndexT)) (tpv : TracksPerView)
    (v : IndexT) :
    trackCount (feats.foldl
        (fun tpv feat =>
          LocalMap.assign tpv feat.1 (((LocalMap.find tpv feat.1).getD []) ++ [t])) tpv) v
      = trackCount tpv v + (feats.map Prod.fst).count v := by
  induction feats generalizing tpv with
  | nil => simp
  | cons f rest ih =>
    rw [List.foldl_cons, ih, trackCount_push, List.map_cons, List.count_cons, List.count_cons]
    simp only [List.count_nil]
    omega

theorem trackCount_computeTracksPerView (tracks : List (IndexT × Track)) (tpv : TracksPerView)
    (v : IndexT) :
    trackCount (tracks.foldl
        (fun tpv track =>
          track.2.featPerView.entries.foldl
            (fun tpv feat =>
              LocalMap.assign tpv feat.1 (((LocalMap.find tpv feat.1).getD []) ++ [track.1]))
            tpv) tpv) v
      = trackCount tpv v + (tracks.flatMap (fun track => track.2.featPerView.keys)).count v := by
  induction tracks generalizing tpv with
  | nil => simp
  | cons t rest ih =>
    rw [List.foldl_cons, ih, trackCount_track, List.flatMap_cons, List.count_append]
    simp only [StdMap.keys]
    omega

theorem trackCount_tracksPerViewOf (sfmData : SfMData) (tracks : TracksMap) (v : IndexT) :
    trackCount (tracksPerViewOf sfmData tracks) v = nbTracksTouching tracks v := by
  unfold tracksPerViewOf computeTracksPerView nbTracksTouching
  rw [trackCount_computeTracksPerView, trackCount_init]
  rw [StdMap.count_keys_flatMap (fun (track : IndexT × Track) => track.2.featPerView)]
  simp [trackCount, LocalMap.find_nil]

theorem featMatch_foldl (features : FeaturesPerView) (tpv : TracksPerView)
    (views : List (IndexT × View)) (out : List Nat × List Nat) :
    views.foldl (featMatchStep features tpv) out
      = (out.1 ++ views.map (fun viewIt => nbFeaturesOf features viewIt.1),
         out.2 ++ views.map (fun viewIt => trackCount tpv viewIt.1)) := by
  induction views generalizing out with
  | nil => simp
  | cons w rest ih =>
    rw [List.foldl_cons, ih]
    have h1 : (featMatchStep features tpv out w).1 = out.1 ++ [nbFeaturesOf features w.1] := by
      unfold featMatchStep nbFeaturesOf FeaturesPerView.viewExist FeaturesPerView.getNbFeatures
      cases h : features.nbFeaturesPerView.find w.1 <;> simp [h]
    have h2 : (featMatchStep features tpv out w).2 = out.2 ++ [trackCount tpv w.1] := by
      unfold featMatchStep trackCount
      cases h : LocalMap.find tpv w.1 <;> simp [h]
    rw [h1, h2]
    simp

/-- C10: when both loaders succeed, computeFeatMatchPerView appends to each of the two
output sequences one entry per view of the dataset, in dataset view order: the feature
entry of view v is the loaded feature count of v, or 0 when v has no loaded features,
and the track entry of v is the number of tracks touching v (0 when there is none); two
sequences that were empty on entry end with the number of views as their length. -/
theorem featMatchPerView_appends_one_entry_per_view (ext : Collaborators) (sfmData : SfMData)
    (features : FeaturesPerView) (pairwiseMatches : PairwiseMatches)
    (hf : ext.loadFeaturesPerView sfmData = some features)
    (hm : ext.loadPairwiseMatches sfmData = some pairwiseMatches)
    (out_featPerView out_matchPerView : List Nat) :
    computeFeatMatchPerView ext sfmData out_featPerView out_matchPerView
      = (out_featPerView ++
           sfmData.views.entries.map (fun viewIt => nbFeaturesOf features viewIt.1),
         out_matchPerView ++
           sfmData.views.entries.map
             (fun viewIt => nbTracksTouching (ext.buildTracks pairwiseMatches) viewIt.1)) ∧
    (computeFeatMatchPerView ext sfmData [] []).1.length = sfmData.views.entries.length ∧
    (computeFeatMatchPerView ext sfmData [] []).2.length = sfmData.views.entries.length := by
  have key : ∀ (o1 o2 : List Nat), computeFeatMatchPerView ext sfmData o1 o2
      = (o1 ++ sfmData.views.entries.map (fun viewIt => nbFeaturesOf features viewIt.1),
         o2 ++ sfmData.views.entries.map
             (fun viewIt => nbTracksTouching (ext.buildTracks pairwiseMatches) viewIt.1)) := by
    intro o1 o2
    unfold computeFeatMatchPerView
    simp only [hf, hm, SfMData.getViews]
    rw [featMatch_foldl]
    simp only [trackCount_tracksPerViewOf]
  refine ⟨key _ _, ?_, ?_⟩
  · rw [key]; simp
  · rw [key]; simp

/-- Witness of C10 on the scenario of the specification, with 100 features loaded for
view 1 only and one track touching view 1 only. -/
theorem featMatchPerView_appends_one_entry_per_view_witness :
    succeeding.loadFeaturesPerView scenario
      = some { nbFeaturesPerView := ⟨[(1, 100)], by decide⟩ } ∧
    succeeding.loadPairwiseMatches scenario = some [] ∧
    computeFeatMatchPerView succeeding scenario [7] [8] = ([7, 100, 0], [8, 1, 0]) := by
  refine ⟨rfl, rfl, ?_⟩
  rw [(featMatchPerView_appends_one_entry_per_view succeeding scenario _ _ rfl rfl [7] [8]).1]
  decide

/-! ## Per-view aggregation -/

theorem appendStats_nil (o : PerViewOutputs) : appendStats o [] = o := by
  cases o
  simp [appendStats]

theorem appendStats_cons (o : PerViewOutputs) (s : BoxStats) (l : List BoxStats) :
    appendStats o (s :: l) = appendStats (pushStats o s) l := by
  have h : o.nbViews + ((l.length : Int) + 1) = o.nbViews + 1 + (l.length : Int) := by ring
  simp [appendStats, pushStats, h]

theorem lengthsHistogram_of_view (sfmData : SfMData) (v : IndexT) (out_stats : BoxStats)
    (c : Int) (out_histogram : Option Histogram) :
    ∃ r, computeObservationsLengthsHistogram sfmData out_stats c out_histogram {v} = some r ∧
      r.out_stats = lengthsStatsOfView sfmData v := by
  obtain ⟨r, hr, hs, -⟩ :=
    computeObservationsLengthsHistogram_some sfmData out_stats c out_histogram {v}
  refine ⟨r, hr, ?_⟩
  rw [hs, collectLengths_eq_spec sfmData {v} (Finset.singleton_ne_empty v) c]
  rfl

theorem residualsHistogram_of_view (sfmData : SfMData) (v : IndexT) (out_stats : BoxStats)
    (out_histogram : Option Histogram) :
    (computeResidualsHistogram sfmData out_stats out_histogram {v}).map (fun r => r.out_stats)
      = residualStatsOfView sfmData v := by
  unfold residualStatsOfView
  cases h : specResiduals sfmData {v} with
  | none =>
    rw [computeResidualsHistogram_of_none sfmData out_stats out_histogram {v} h]
    rfl
  | some vec =>
    obtain ⟨r, hr, hs, -⟩ :=
      computeResidualsHistogram_of_some sfmData out_stats out_histogram {v} vec h
    rw [hr]
    simp [hs]

theorem lengthsPerView_foldlM (sfmData : SfMData) (views : List (IndexT × View))
    (o : PerViewOutputs) (cnt : Int) :
    ∃ cnt', views.foldlM
      (fun (st : PerViewOutputs × Int) (viewIt : IndexT × View) => do
        let r ← computeObservationsLengthsHistogram sfmData BoxStats.default st.2
          (some Histogram.default) {viewIt.1}
        pure (pushStats st.1 r.out_stats, r.overallNbObservations))
      (o, cnt)
      = some (appendStats o (views.map (fun viewIt => lengthsStatsOfView sfmData viewIt.1)),
          cnt') := by
  induction views generalizing o cnt with
  | nil => exact ⟨cnt, by simp [appendStats_nil]⟩
  | cons w rest ih =>
    obtain ⟨r, hr, hs⟩ := lengthsHistogram_of_view sfmData w.1 BoxStats.default cnt
      (some Histogram.default)
    obtain ⟨cnt', h'⟩ := ih (pushStats o r.out_stats) r.overallNbObservations
    refine ⟨cnt', ?_⟩
    rw [List.foldlM_cons]
    simp only [hr, Option.bind_eq_bind, Option.some_bind, Option.pure_def]
    simp only [Option.bind_eq_bind, Option.pure_def] at h'
    rw [h', List.map_cons, appendStats_cons, hs]

theorem residualsPerView_foldlM (sfmData : SfMData) (views : List (IndexT × View))
    (o : PerViewOutputs) :
    views.foldlM
      (fun (o : PerViewOutputs) (viewIt : IndexT × View) => do
        let r ← computeResidualsHistogram sfmData BoxStats.default (some Histogram.default)
          {viewIt.1}
        pure (pushStats o r.out_stats))
      o
      = (allResults (views.map (fun viewIt => residualStatsOfView sfmData viewIt.1))).map
          (appendStats o) := by
  induction views generalizing o with
  | nil => simp [allResults, appendStats_nil]
  | cons w rest ih =>
    rw [List.foldlM_cons, List.map_cons]
    have hv := residualsHistogram_of_view sfmData w.1 BoxStats.default (some Histogram.default)
    cases hc : computeResidualsHistogram sfmData BoxStats.default (some Histogram.default) {w.1} with
    | none =>
      rw [hc] at hv
      simp only [Option.map_none'] at hv
      rw [← hv]
      simp [allResults]
    | some r =>
      rw [hc] at hv
      simp only [Option.map_some'] at hv
      rw [← hv]
      simp only [Option.bind_eq_bind, Option.some_bind, Option.pure_def, allResults]
      have ih' := ih (pushStats o r.out_stats)
      simp only [Option.bind_eq_bind, Option.pure_def] at ih'
      rw [ih']
      cases allResults (List.map (fun viewIt => residualStatsOfView sfmData viewIt.1) rest) with
      | none => rfl
      | some l => simp [appendStats_cons]

theorem allResults_map_some {α β : Type} (f : α → Option β) (g : α → β) (l : List α)
    (h : ∀ x ∈ l, f x = some (g x)) : allResults (l.map f) = some (l.map g) := by
  induction l with
  | nil => rfl
  | cons a rest ih =>
    rw [List.map_cons, h a (List.mem_cons_self _ _)]
    simp only [allResults]
    rw [ih (fun x hx => h x (List.mem_cons_of_mem _ hx))]
    rfl

theorem specResiduals_defined (sfmData : SfMData) (specificViews : Finset IndexT)
    (hall : ∀ p ∈ allObservations sfmData, (residualNormOf sfmData p.1 p.2).isSome = true) :
    ∃ vec, specResiduals sfmData specificViews = some vec :=
  residualNormsOf_defined sfmData _ (fun p hp => hall p (List.mem_filter.mp hp).1)

/-- C9: for a dataset with at least one landmark, computeObservationsLengthsPerView
(respectively computeResidualsPerView) appends to each of its six output sequences one
entry per view of the dataset, in view order, the entries of a view being the min, max,
mean, median, firstQuartile and thirdQuartile of the BoxStats that
computeObservationsLengthsHistogram (respectively computeResidualsHistogram) returns
with viewFilter = {that view}, and increases the view counter by the number of views;
the previous content of the sequences stays in front. The residual variant has a result
exactly when each of its calls of computeResidualsHistogram has one, which is the case
when the residual of every observation can be computed. -/
theorem perView_appends_six_fields_per_view (sfmData : SfMData)
    (hL : sfmData.landmarks.entries ≠ []) (o : PerViewOutputs) :
    (∀ v out_stats c out_histogram,
      ∃ r, computeObservationsLengthsHistogram sfmData out_stats c out_histogram {v} = some r ∧
        r.out_stats = lengthsStatsOfView sfmData v) ∧
    computeObservationsLengthsPerView sfmData o
      = some (appendStats o
          (sfmData.views.entries.map (fun viewIt => lengthsStatsOfView sfmData viewIt.1))) ∧
    (∀ v out_stats out_histogram,
      (computeResidualsHistogram sfmData out_stats out_histogram {v}).map (fun r => r.out_stats)
        = residualStatsOfView sfmData v) ∧
    computeResidualsPerView sfmData o
      = (allResults
          (sfmData.views.entries.map (fun viewIt => residualStatsOfView sfmData viewIt.1))).map
          (appendStats o) ∧
    ((∀ p ∈ allObservations sfmData, (residualNormOf sfmData p.1 p.2).isSome = true) →
      ∃ l : List BoxStats,
        sfmData.views.entries.map (fun viewIt => residualStatsOfView sfmData viewIt.1)
          = l.map some ∧
        computeResidualsPerView sfmData o = some (appendStats o l)) := by
  have hne : sfmData.getLandmarks.empty = false := by
    cases h : sfmData.landmarks.entries with
    | nil => exact absurd h hL
    | cons a l => simp [SfMData.getLandmarks, StdMap.empty, h]
  have hres : computeResidualsPerView sfmData o
      = (allResults
          (sfmData.views.entries.map (fun viewIt => residualStatsOfView sfmData viewIt.1))).map
          (appendStats o) := by
    unfold computeResidualsPerView
    simp only [hne, Bool.false_eq_true, if_false, SfMData.getViews]
    exact residualsPerView_foldlM sfmData _ o
  refine ⟨fun v s c h => lengthsHistogram_of_view sfmData v s c h, ?_,
    fun v s h => residualsHistogram_of_view sfmData v s h, hres, ?_⟩
  · unfold computeObservationsLengthsPerView
    simp only [hne, Bool.false_eq_true, if_false, SfMData.getViews]
    obtain ⟨cnt', h⟩ := lengthsPerView_foldlM sfmData sfmData.views.entries o 0
    rw [h]
    rfl
  · intro hall
    have hsome : ∀ viewIt ∈ sfmData.views.entries,
        residualStatsOfView sfmData viewIt.1
          = some (BoxStats.compute ((specResiduals sfmData {viewIt.1}).getD [])) := by
      intro viewIt _
      obtain ⟨vec, hvec⟩ := specResiduals_defined sfmData {viewIt.1} hall
      simp [residualStatsOfView, hvec]
    refine ⟨sfmData.views.entries.map
      (fun viewIt => BoxStats.compute ((specResiduals sfmData {viewIt.1}).getD [])), ?_, ?_⟩
    · rw [List.map_map]
      exact List.map_congr_left hsome
    · rw [hres, allResults_map_some _ _ _ hsome]
      rfl

theorem scenario_residuals_view2 : specResiduals scenario {2} = some [3] := by
  simp [specResiduals, sampledObservations, allObservations, scenario, landmarkA, landmarkB,
    sampled, residualNormsOf, residualNormOf, SfMData.getView, SfMData.getPose,
    SfMData.getIntrinsics, StdMap.find, List.lookup, scenarioIntrinsic]

theorem scenario_lengths_view1 : specLengths scenario {1} = [2, 1] := by decide

theorem scenario_lengths_view2 : specLengths scenario {2} = [2] := by decide

/-- Witness of C9 on the scenario of the specification (views 1 and 2): the entries
appended for view 1 are those of the BoxStats of the lengths 2 and 1, respectively of
the residuals 1 and 2, the entries appended for view 2 those of the BoxStats of the
length 2, respectively of the residual 3. -/
theorem perView_appends_six_fields_per_view_witness :
    scenario.landmarks.entries ≠ [] ∧
    computeObservationsLengthsPerView scenario
        { nbViews := 5, perViewMin := [9], perViewMax := [9], perViewMean := [9],
          perViewMedian := [9], perViewFirstQuartile := [9], perViewThirdQuartile := [9] }
      = some { nbViews := 7, perViewMin := [9, 1, 2], perViewMax := [9, 2, 2],
               perViewMean := [9, 3 / 2, 2], perViewMedian := [9, 3 / 2, 2],
               perViewFirstQuartile := [9, 1, 2], perViewThirdQuartile := [9, 2, 2] } ∧
    computeResidualsPerView scenario
        { nbViews := 0, perViewMin := [], perViewMax := [], perViewMean := [],
          perViewMedian := [], perViewFirstQuartile := [], perViewThirdQuartile := [] }
      = some { nbViews := 2, perViewMin := [1, 3], perViewMax := [2, 3],
               perViewMean := [3 / 2, 3], perViewMedian := [3 / 2, 3],
               perViewFirstQuartile := [1, 3], perViewThirdQuartile := [2, 3] } := by
  have hL : scenario.landmarks.entries ≠ [] := List.cons_ne_nil _ _
  have hviews : scenario.views.entries
      = [(1, { viewId := 1, intrinsicId := 0, poseId := 1 }),
         (2, { viewId := 2, intrinsicId := 0, poseId := 2 })] := rfl
  refine ⟨hL, ?_, ?_⟩
  · rw [(perView_appends_six_fields_per_view scenario hL _).2.1]
    have hv : scenario.views.entries.map (fun viewIt => lengthsStatsOfView scenario viewIt.1)
        = [BoxStats.compute [2, 1], BoxStats.compute [2]] := by
      rw [hviews]
      simp [lengthsStatsOfView, scenario_lengths_view1, scenario_lengths_view2]
    rw [hv]
    norm_num [appendStats, BoxStats.compute, List.insertionSort, List.orderedInsert]
  · rw [(perView_appends_six_fields_per_view scenario hL _).2.2.2.1]
    have hv : scenario.views.entries.map (fun viewIt => residualStatsOfView scenario viewIt.1)
        = [some (BoxStats.compute [1, 2]), some (BoxStats.compute [3])] := by
      rw [hviews]
      simp [residualStatsOfView, scenario_residuals_view1, scenario_residuals_view2]
    rw [hv]
    norm_num [allResults, appendStats, BoxStats.compute, List.insertionSort, List.orderedInsert]

/-! ## Histogram bins -/

theorem binIndex_lt_nBins (h : Histogram) (s : Double) (hn : 0 < h.nBins) :
    h.binIndex s < h.nBins := by
  unfold Histogram.binIndex
  have h1 : Min.min ⌊(s - h.lower) / h.binWidth⌋ ((h.nBins : Int) - 1) ≤ (h.nBins : Int) - 1 :=
    min_le_right _ _
  have h2 : Max.max (0 : Int) (Min.min ⌊(s - h.lower) / h.binWidth⌋ ((h.nBins : Int) - 1))
      ≤ (h.nBins : Int) - 1 := max_le (by omega) h1
  have h3 : (0 : Int) ≤
      Max.max (0 : Int) (Min.min ⌊(s - h.lower) / h.binWidth⌋ ((h.nBins : Int) - 1)) :=
    le_max_left _ _
  omega

theorem binIndex_congr (h h' : Histogram) (s : Double) (hl : h'.lower = h.lower)
    (hu : h'.upper = h.upper) (hn : h'.nBins = h.nBins) : h'.binIndex s = h.binIndex s := by
  unfold Histogram.binIndex Histogram.binWidth
  rw [hl, hu, hn]

theorem binIndex_of_unclamped (h : Histogram) (s : Double) (k : Nat)
    (hk : k < h.nBins) (hf : ⌊(s - h.lower) / h.binWidth⌋ = (k : Int)) : h.binIndex s = k := by
  unfold Histogram.binIndex
  rw [hf]
  have h1 : Min.min (k : Int) ((h.nBins : Int) - 1) = k := min_eq_left (by omega)
  rw [h1, max_eq_right (by omega)]
  simp

theorem sum_modify_succ (l : List Nat) (n : Nat) (hn : n < l.length) :
    (l.modify (fun c => c + 1) n).sum = l.sum + 1 := by
  induction l generalizing n with
  | nil => simp at hn
  | cons a rest ih =>
    cases n with
    | zero => simp [List.modify_zero_cons]; omega
    | succ m =>
      rw [List.modify_succ_cons, List.sum_cons, List.sum_cons,
        ih m (by simpa using hn)]
      omega

theorem getD_modify_succ (l : List Nat) (n k : Nat) (hn : n < l.length) :
    (l.modify (fun c => c + 1) n).getD k 0 = l.getD k 0 + (if n = k then 1 else 0) := by
  rw [List.getD_eq_getElem?_getD, List.getD_eq_getElem?_getD, List.getElem?_modify]
  by_cases hnk : n = k
  · subst hnk
    rw [List.getElem?_eq_getElem hn]
    simp
  · cases l[k]? <;> simp [hnk]

theorem add_freq (h : Histogram) (s : Double) (hn : 0 < h.nBins)
    (hw : h.binWidth ≠ 0) :
    h.Add s = some { h with freq := h.freq.modify (fun c => c + 1) (h.binIndex s) } := by
  unfold Histogram.Add
  rw [if_neg (by omega), if_neg hw]

theorem addRange_freq (samples : List Double) (h : Histogram) (hn : 0 < h.nBins)
    (hw : h.binWidth ≠ 0) :
    ∃ h', h.AddRange samples = some h' ∧ h'.lower = h.lower ∧ h'.upper = h.upper ∧
      h'.nBins = h.nBins ∧ h'.freq.sum = h.freq.sum + samples.length ∧
      ∀ k, h'.freq.getD k 0
        = h.freq.getD k 0 + samples.countP (fun s => decide (h.binIndex s = k)) := by
  induction samples generalizing h with
  | nil => exact ⟨h, rfl, rfl, rfl, rfl, by simp, by simp⟩
  | cons s rest ih =>
    have hlt := binIndex_lt_nBins h s hn
    have hn1 : 0 < ({ h with freq := h.freq.modify (fun c => c + 1) (h.binIndex s) } :
        Histogram).nBins := by
      simpa [Histogram.nBins] using hn
    have hw1 : ({ h with freq := h.freq.modify (fun c => c + 1) (h.binIndex s) } :
        Histogram).binWidth ≠ 0 := by
      simpa [Histogram.binWidth, Histogram.nBins] using hw
    obtain ⟨h2, e2, l2, u2, n2, s2, f2⟩ := ih _ hn1 hw1
    refine ⟨h2, ?_, l2, u2, ?_, ?_, ?_⟩
    · unfold Histogram.AddRange at e2 ⊢
      rw [List.foldlM_cons, add_freq h s hn hw]
      exact e2
    · rw [n2]; simp [Histogram.nBins]
    · rw [s2]
      simp only [List.length_cons]
      rw [sum_modify_succ _ _ (by simpa [Histogram.nBins] using hlt)]
      omega
    · intro k
      rw [f2 k]
      have hc : ∀ x, ({ h with freq := h.freq.modify (fun c => c + 1) (h.binIndex s) } :
          Histogram).binIndex x = h.binIndex x := fun x =>
        binIndex_congr h _ x rfl rfl (by simp [Histogram.nBins])
      simp only [hc]
      rw [getD_modify_succ _ _ _ (by simpa [Histogram.nBins] using hlt), List.countP_cons]
      simp only [decide_eq_true_eq]
      omega

theorem sorted_mem_bounds (s : List Double) (hs : s.Sorted (fun a b => a ≤ b)) (x : Double)
    (hx : x ∈ s) : s.getD 0 0 ≤ x ∧ x ≤ s.getD (s.length - 1) 0 := by
  obtain ⟨i, hi, rfl⟩ := List.getElem_of_mem hx
  have h1 := sorted_getD_le s hs 0 i (Nat.zero_le _) hi
  have h2 := sorted_getD_le s hs i (s.length - 1) (by omega) (by omega)
  rw [List.getD_eq_getElem _ _ hi] at h1 h2
  exact ⟨h1, h2⟩

theorem boxStats_extremes (samples : List Double) (hne : samples ≠ []) :
    (BoxStats.compute samples).min ∈ samples ∧ (BoxStats.compute samples).max ∈ samples ∧
    ∀ x ∈ samples, (BoxStats.compute samples).min ≤ x ∧ x ≤ (BoxStats.compute samples).max := by
  have hlen : 0 < samples.length := List.length_pos.mpr hne
  have hsl : (samples.insertionSort (fun a b => a ≤ b)).length = samples.length :=
    List.length_insertionSort _ _
  have hperm := List.perm_insertionSort (fun a b : Double => a ≤ b) samples
  have hsorted := List.sorted_insertionSort (fun a b : Double => a ≤ b) samples
  have hE : samples.isEmpty = false := by
    cases samples with
    | nil => exact absurd rfl hne
    | cons a l => rfl
  have hmin : (BoxStats.compute samples).min
      = (samples.insertionSort (fun a b => a ≤ b)).getD 0 0 := by
    simp [BoxStats.compute, hE]
  have hmax : (BoxStats.compute samples).max
      = (samples.insertionSort (fun a b => a ≤ b)).getD (samples.length - 1) 0 := by
    simp [BoxStats.compute, hE]
  rw [hmin, hmax]
  refine ⟨?_, ?_, ?_⟩
  · rw [List.getD_eq_getElem _ _ (by omega)]
    exact hperm.mem_iff.mp (List.getElem_mem _)
  · rw [List.getD_eq_getElem _ _ (by omega)]
    exact hperm.mem_iff.mp (List.getElem_mem _)
  · intro x hx
    have := sorted_mem_bounds _ hsorted x (hperm.mem_iff.mpr hx)
    rw [hsl] at this
    exact this

theorem unitHistogram_width (mn mx : Int) (hle : mn ≤ mx) :
    toSizeT ((mx : Double) - (mn : Double) + 1) = some (mx - mn + 1).toNat ∧
    (Histogram.create (mn : Double) ((mx : Double) + 1) (mx - mn + 1).toNat).binWidth = 1 := by
  have hcast : ((mx : Double) - (mn : Double) + 1) = ((mx - mn + 1 : Int) : Double) := by
    push_cast; ring
  constructor
  · unfold toSizeT
    have h0 : (0 : Double) ≤ (mx : Double) - (mn : Double) + 1 := by
      rw [hcast]; exact_mod_cast (by omega : (0 : Int) ≤ mx - mn + 1)
    rw [if_pos h0, hcast, Int.floor_intCast]
  · unfold Histogram.binWidth Histogram.nBins Histogram.create
    simp only [List.length_replicate]
    have hN : (((mx - mn + 1).toNat : Nat) : Double) = ((mx - mn + 1 : Int) : Double) := by
      have : (((mx - mn + 1).toNat : Nat) : Int) = mx - mn + 1 := Int.toNat_of_nonneg (by omega)
      exact_mod_cast this
    rw [hN]
    have hpos : (0 : Double) < ((mx - mn + 1 : Int) : Double) := by
      exact_mod_cast (by omega : (0 : Int) < mx - mn + 1)
    rw [div_eq_one_iff_eq (ne_of_gt hpos)]
    push_cast; ring

theorem computeObservationsLengthsHistogram_requested (sfmData : SfMData) (out_stats : BoxStats)
    (c : Int) (h0 : Histogram) (specificViews : Finset IndexT)
    (hrec : (collectLengths sfmData specificViews c).1 ≠ []) (n : Nat) (hist : Histogram)
    (hn : toSizeT ((BoxStats.compute ((collectLengths sfmData specificViews c).1.map
        (fun (n : Int) => (n : Double)))).max
      - (BoxStats.compute ((collectLengths sfmData specificViews c).1.map
        (fun (n : Int) => (n : Double)))).min + 1) = some n)
    (hadd : (Histogram.create
        (BoxStats.compute ((collectLengths sfmData specificViews c).1.map
          (fun (n : Int) => (n : Double)))).min
        ((BoxStats.compute ((collectLengths sfmData specificViews c).1.map
          (fun (n : Int) => (n : Double)))).max + 1) n).AddRange
        ((collectLengths sfmData specificViews c).1.map (fun (n : Int) => (n : Double)))
      = some hist) :
    computeObservationsLengthsHistogram sfmData out_stats c (some h0) specificViews
      = some { out_stats := BoxStats.compute
                 ((collectLengths sfmData specificViews c).1.map (fun (n : Int) => (n : Double)))
               overallNbObservations := (collectLengths sfmData specificViews c).2
               out_histogram := some hist } := by
  have hE : sfmData.getLandmarks.empty = false := by
    cases hl : sfmData.getLandmarks.entries with
    | nil =>
      exfalso
      apply hrec
      simp [collectLengths, hl]
    | cons a l => simp [StdMap.empty, hl]
  have hN : (collectLengths sfmData specificViews c).1.isEmpty = false := by
    cases hl : (collectLengths sfmData specificViews c).1 with
    | nil => exact absurd hl hrec
    | cons a l => rfl
  unfold computeObservationsLengthsHistogram
  simp [hE, hN, initOutputs, hn, hadd]

/-- C11: when computeObservationsLengthsHistogram records at least one length and a
histogram is requested, the histogram has lower bound min, upper bound max + 1 and
max − min + 1 bins, every bin has width exactly 1, the bin index ⌊(L − lower) / width⌋
of every recorded length L is L − min and lies in [0, N − 1], so that no clamping
takes place, and bin k holds exactly the number of recorded lengths equal to min + k. -/
theorem lengths_histogram_has_one_unit_bin_per_length (sfmData : SfMData)
    (out_stats : BoxStats) (c : Int) (h0 : Histogram) (specificViews : Finset IndexT)
    (hrec : (collectLengths sfmData specificViews c).1 ≠ []) :
    ∃ (r : LengthsOutputs) (hist : Histogram) (mn mx : Int),
      computeObservationsLengthsHistogram sfmData out_stats c (some h0) specificViews = some r ∧
      r.out_histogram = some hist ∧
      r.out_stats.min = (mn : Double) ∧ r.out_stats.max = (mx : Double) ∧ mn ≤ mx ∧
      hist.lower = r.out_stats.min ∧ hist.upper = r.out_stats.max + 1 ∧
      (hist.nBins : Int) = mx - mn + 1 ∧ hist.binWidth = 1 ∧
      (∀ L ∈ (collectLengths sfmData specificViews c).1,
        ⌊((L : Double) - hist.lower) / hist.binWidth⌋ = L - mn ∧
        0 ≤ L - mn ∧ L - mn ≤ (hist.nBins : Int) - 1) ∧
      (∀ k : Nat, k < hist.nBins →
        hist.freq.getD k 0 = (collectLengths sfmData specificViews c).1.countP
          (fun L => decide (L = mn + (k : Int)))) := by
  have hsne : (collectLengths sfmData specificViews c).1.map (fun (n : Int) => (n : Double)) ≠ [] := by
    simpa using hrec
  obtain ⟨hmin, hmax, hb⟩ := boxStats_extremes _ hsne
  obtain ⟨mn, hmnL, hmn⟩ := List.mem_map.mp hmin
  obtain ⟨mx, hmxL, hmx⟩ := List.mem_map.mp hmax
  have hle : mn ≤ mx := by
    have := (hb _ hmax).1
    rw [← hmn, ← hmx] at this
    exact_mod_cast this
  have hbL : ∀ L ∈ (collectLengths sfmData specificViews c).1, mn ≤ L ∧ L ≤ mx := by
    intro L hL
    have := hb (L : Double) (List.mem_map.mpr ⟨L, hL, rfl⟩)
    rw [← hmn, ← hmx] at this
    exact ⟨by exact_mod_cast this.1, by exact_mod_cast this.2⟩
  obtain ⟨hsz, hw⟩ := unitHistogram_width mn mx hle
  have hNpos : 0 < (Histogram.create (mn : Double) ((mx : Double) + 1)
      (mx - mn + 1).toNat).nBins := by
    simp only [Histogram.nBins, Histogram.create, List.length_replicate]
    omega
  obtain ⟨hist, hadd, hlo, hup, hnb, -, hfreq⟩ := addRange_freq
    ((collectLengths sfmData specificViews c).1.map (fun (n : Int) => (n : Double)))
    (Histogram.create (mn : Double) ((mx : Double) + 1) (mx - mn + 1).toNat) hNpos
    (by rw [hw]; exact one_ne_zero)
  have hnb2 : (hist.nBins : Int) = mx - mn + 1 := by
    rw [hnb]
    simp only [Histogram.nBins, Histogram.create, List.length_replicate]
    exact Int.toNat_of_nonneg (by omega)
  have hwid : hist.binWidth = 1 := by
    rw [← hw]
    unfold Histogram.binWidth
    rw [hlo, hup, hnb]
  have hfun := computeObservationsLengthsHistogram_requested sfmData out_stats c h0
    specificViews hrec (mx - mn + 1).toNat hist (by rw [← hmn, ← hmx]; exact hsz)
    (by rw [← hmn, ← hmx]; exact hadd)
  have hfloor : ∀ L : Int, ⌊((L : Double) - hist.lower) / hist.binWidth⌋ = L - mn := by
    intro L
    rw [hwid, hlo, div_one]
    have : ((L : Double) - (Histogram.create (mn : Double) ((mx : Double) + 1)
        (mx - mn + 1).toNat).lower) = ((L - mn : Int) : Double) := by
      simp [Histogram.create]
    rw [this, Int.floor_intCast]
  refine ⟨_, hist, mn, mx, hfun, rfl, hmn.symm, hmx.symm, hle, ?_, ?_, hnb2, hwid, ?_, ?_⟩
  · rw [hlo, ← hmn]; rfl
  · rw [hup, ← hmx]; rfl
  · intro L hL
    obtain ⟨h1, h2⟩ := hbL L hL
    exact ⟨hfloor L, by omega, by omega⟩
  · intro k hk
    rw [hfreq k, List.countP_map]
    have hzero : (Histogram.create (mn : Double) ((mx : Double) + 1)
        (mx - mn + 1).toNat).freq.getD k 0 = 0 := by
      simp only [Histogram.create, List.getD_eq_getElem?_getD, List.getElem?_replicate]
      split <;> rfl
    rw [hzero, zero_add]
    apply List.countP_congr
    intro L hL
    obtain ⟨h1, h2⟩ := hbL L hL
    have hidx : (Histogram.create (mn : Double) ((mx : Double) + 1)
        (mx - mn + 1).toNat).binIndex (L : Double) = (L - mn).toNat := by
      rw [← binIndex_congr _ hist (L : Double) hlo hup hnb]
      apply binIndex_of_unclamped
      · omega
      · rw [hfloor L]
        exact (Int.toNat_of_nonneg (by omega)).symm
    simp only [Function.comp_apply, decide_eq_true_eq, hidx]
    omega

theorem scenario_lengths_all : (collectLengths scenario ∅ 0).1 = [2, 1] := by decide

/-- Witness of C11 on the scenario of the specification without filter: the recorded
lengths are 2 and 1, the histogram has the two unit bins [1, 2) and [2, 3), each holding
one length. -/
theorem lengths_histogram_has_one_unit_bin_per_length_witness :
    (collectLengths scenario ∅ 0).1 ≠ [] ∧
    ∃ (r : LengthsOutputs) (hist : Histogram),
      computeObservationsLengthsHistogram scenario BoxStats.default 0 (some Histogram.default) ∅
        = some r ∧
      r.out_histogram = some hist ∧ hist.lower = 1 ∧ hist.upper = 3 ∧ hist.nBins = 2 ∧
      hist.binWidth = 1 ∧ hist.freq.getD 0 0 = 1 ∧ hist.freq.getD 1 0 = 1 := by
  have hrec : (collectLengths scenario ∅ 0).1 ≠ [] := by
    rw [scenario_lengths_all]; exact List.cons_ne_nil _ _
  refine ⟨hrec, ?_⟩
  obtain ⟨r, hist, mn, mx, hr, hh, hmn, hmx, -, hlo, hup, hnb, hw, -, hfreq⟩ :=
    lengths_histogram_has_one_unit_bin_per_length scenario BoxStats.default 0
      Histogram.default ∅ hrec
  obtain ⟨r', hr', hs', -⟩ := computeObservationsLengthsHistogram_some scenario
    BoxStats.default 0 (some Histogram.default) ∅
  rw [hr] at hr'
  cases hr'
  rw [scenario_lengths_all] at hs' hfreq
  have hmin1 : r.out_stats.min = 1 := by
    rw [hs']
    norm_num [BoxStats.compute, List.insertionSort, List.orderedInsert]
  have hmax2 : r.out_stats.max = 2 := by
    rw [hs']
    norm_num [BoxStats.compute, List.insertionSort, List.orderedInsert]
  have hmn1 : mn = 1 := by
    rw [hmin1] at hmn
    exact_mod_cast hmn.symm
  have hmx2 : mx = 2 := by
    rw [hmax2] at hmx
    exact_mod_cast hmx.symm
  subst hmn1 hmx2
  have hn2 : hist.nBins = 2 := by omega
  refine ⟨r, hist, hr, hh, ?_, ?_, hn2, hw, ?_, ?_⟩
  · rw [hlo, hmin1]
  · rw [hup, hmax2]; norm_num
  · rw [hfreq 0 (by omega)]; decide
  · rw [hfreq 1 (by omega)]; decide

theorem computeResidualsHistogram_requested (sfmData : SfMData) (out_stats : BoxStats)
    (h0 : Histogram) (specificViews : Finset IndexT) (vec : List Double)
    (hvec : specResiduals sfmData specificViews = some vec) (hne : vec ≠ [])
    (n : Nat) (hist : Histogram)
    (hn : toSizeT ((⌈(BoxStats.compute vec).max⌉ : Double) * 2) = some n)
    (hadd : (Histogram.create 0 (⌈(BoxStats.compute vec).max⌉ : Double) n).AddRange vec
      = some hist) :
    computeResidualsHistogram sfmData out_stats (some h0) specificViews
      = some { out_stats := BoxStats.compute vec, out_histogram := some hist } := by
  have hE : sfmData.getLandmarks.empty = false := by
    cases hb : sfmData.getLandmarks.empty with
    | false => rfl
    | true =>
      rw [specResiduals_of_no_landmarks sfmData specificViews hb] at hvec
      cases hvec
      exact absurd rfl hne
  have hN : vec.isEmpty = false := by
    cases vec with
    | nil => exact absurd rfl hne
    | cons a l => rfl
  unfold computeResidualsHistogram
  simp [hE, collectResiduals_eq_spec, hvec, hN, initOutputs, hn, hadd]

theorem halfHistogram_width (m : Int) (hm : 0 < m) :
    toSizeT ((m : Double) * 2) = some (2 * m).toNat ∧
    (Histogram.create 0 (m : Double) (2 * m).toNat).binWidth = 1 / 2 := by
  have hcast : ((m : Double) * 2) = ((2 * m : Int) : Double) := by push_cast; ring
  constructor
  · unfold toSizeT
    have h0 : (0 : Double) ≤ (m : Double) * 2 := by
      rw [hcast]; exact_mod_cast (by omega : (0 : Int) ≤ 2 * m)
    rw [if_pos h0, hcast, Int.floor_intCast]
  · unfold Histogram.binWidth Histogram.nBins Histogram.create
    simp only [List.length_replicate]
    have hN : (((2 * m).toNat : Nat) : Double) = ((2 * m : Int) : Double) := by
      have : (((2 * m).toNat : Nat) : Int) = 2 * m := Int.toNat_of_nonneg (by omega)
      exact_mod_cast this
    rw [hN]
    have hpos : (0 : Double) < (m : Double) := by exact_mod_cast hm
    push_cast
    field_simp
    ring

/-- C12: when computeResidualsHistogram collects residual norms of maximum > 0 and a
histogram is requested, the histogram spans [0, ⌈max⌉] with 2·⌈max⌉ bins of width
exactly 1/2, and the sum of its bin counts equals BoxStats.count; a sample equal to
⌈max⌉ (the maximum, when it is an integer) has the bin index 2·⌈max⌉, one past the last
bin, and is counted in the last bin. -/
theorem residuals_histogram_half_bins_lose_no_sample (sfmData : SfMData)
    (out_stats : BoxStats) (h0 : Histogram) (specificViews : Finset IndexT)
    (vec : List Double) (hvec : collectResiduals sfmData specificViews = some vec)
    (hmax : 0 < (BoxStats.compute vec).max) :
    ∃ (r : StatsOutputs) (hist : Histogram),
      computeResidualsHistogram sfmData out_stats (some h0) specificViews = some r ∧
      r.out_stats = BoxStats.compute vec ∧ r.out_histogram = some hist ∧
      hist.lower = 0 ∧ hist.upper = (⌈r.out_stats.max⌉ : Double) ∧
      (hist.nBins : Int) = 2 * ⌈r.out_stats.max⌉ ∧ hist.binWidth = 1 / 2 ∧
      hist.freq.sum = r.out_stats.count ∧
      (∀ s ∈ vec, s = (⌈r.out_stats.max⌉ : Double) →
        ⌊(s - hist.lower) / hist.binWidth⌋ = (hist.nBins : Int) ∧
        hist.binIndex s = hist.nBins - 1) := by
  rw [collectResiduals_eq_spec] at hvec
  have hne : vec ≠ [] := by
    intro h
    rw [h, BoxStats.compute_nil] at hmax
    exact lt_irrefl _ hmax
  have hm : 0 < ⌈(BoxStats.compute vec).max⌉ := Int.ceil_pos.mpr hmax
  obtain ⟨hsz, hw⟩ := halfHistogram_width ⌈(BoxStats.compute vec).max⌉ hm
  have hNpos : 0 < (Histogram.create 0 (⌈(BoxStats.compute vec).max⌉ : Double)
      (2 * ⌈(BoxStats.compute vec).max⌉).toNat).nBins := by
    simp only [Histogram.nBins, Histogram.create, List.length_replicate]
    omega
  obtain ⟨hist, hadd, hlo, hup, hnb, hsum, -⟩ := addRange_freq vec
    (Histogram.create 0 (⌈(BoxStats.compute vec).max⌉ : Double)
      (2 * ⌈(BoxStats.compute vec).max⌉).toNat) hNpos (by rw [hw]; norm_num)
  have hnb2 : (hist.nBins : Int) = 2 * ⌈(BoxStats.compute vec).max⌉ := by
    rw [hnb]
    simp only [Histogram.nBins, Histogram.create, List.length_replicate]
    exact Int.toNat_of_nonneg (by omega)
  have hwid : hist.binWidth = 1 / 2 := by
    rw [← hw]
    unfold Histogram.binWidth
    rw [hlo, hup, hnb]
  have hfun := computeResidualsHistogram_requested sfmData out_stats h0 specificViews vec hvec
    hne _ hist hsz hadd
  have hlo0 : hist.lower = 0 := by rw [hlo]; rfl
  refine ⟨_, hist, hfun, rfl, rfl, hlo0, by rw [hup]; rfl, hnb2, hwid, ?_, ?_⟩
  · rw [hsum, BoxStats.count_compute]
    simp [Histogram.create]
  · intro s _ hs
    have hfl : ⌊(s - hist.lower) / hist.binWidth⌋ = (hist.nBins : Int) := by
      rw [hwid, hlo0, hs, hnb2]
      have : ((⌈(BoxStats.compute vec).max⌉ : Double) - 0) / (1 / 2)
          = ((2 * ⌈(BoxStats.compute vec).max⌉ : Int) : Double) := by
        push_cast; ring
      rw [this, Int.floor_intCast]
    refine ⟨hfl, ?_⟩
    unfold Histogram.binIndex
    rw [hfl, min_eq_right (by omega), max_eq_right (by omega)]
    omega

theorem scenario_max_all : (BoxStats.compute [1, 3, 2]).max = 3 := by
  norm_num [BoxStats.compute, List.insertionSort, List.orderedInsert]

/-- Witness of C12 on the scenario of the specification without filter: the residual
norms 1, 3, 2 have the integer maximum 3; the histogram spans [0, 3] with 6 bins whose
counts sum to 3, and the sample 3 has the bin index 6 and is counted in bin 5. -/
theorem residuals_histogram_half_bins_lose_no_sample_witness :
    collectResiduals scenario ∅ = some [1, 3, 2] ∧ 0 < (BoxStats.compute [1, 3, 2]).max ∧
    ∃ (r : StatsOutputs) (hist : Histogram),
      computeResidualsHistogram scenario BoxStats.default (some Histogram.default) ∅ = some r ∧
      r.out_histogram = some hist ∧ hist.lower = 0 ∧ hist.upper = 3 ∧ hist.nBins = 6 ∧
      hist.binWidth = 1 / 2 ∧ hist.freq.sum = 3 ∧ r.out_stats.count = 3 ∧
      ⌊((3 : Double) - hist.lower) / hist.binWidth⌋ = 6 ∧ hist.binIndex 3 = 5 := by
  have hvec : collectResiduals scenario ∅ = some [1, 3, 2] := by
    rw [collectResiduals_eq_spec, scenario_residuals_all]
  have hmax : 0 < (BoxStats.compute [1, 3, 2]).max := by
    rw [scenario_max_all]; norm_num
  refine ⟨hvec, hmax, ?_⟩
  obtain ⟨r, hist, hr, hs, hh, hlo, hup, hnb, hw, hsum, hlast⟩ :=
    residuals_histogram_half_bins_lose_no_sample scenario BoxStats.default Histogram.default
      ∅ [1, 3, 2] hvec hmax
  have hmax3 : r.out_stats.max = 3 := by rw [hs, scenario_max_all]
  have hcount : r.out_stats.count = 3 := by rw [hs, BoxStats.count_compute]; rfl
  rw [hmax3] at hup hnb hlast
  have hceil : ⌈(3 : Double)⌉ = 3 := by
    have : ((3 : Int) : Double) = 3 := by norm_num
    rw [← this, Int.ceil_intCast]
  rw [hceil] at hup hnb hlast
  have hn6 : hist.nBins = 6 := by omega
  obtain ⟨hf, hb⟩ := hlast 3 (by simp) (by norm_num)
  refine ⟨r, hist, hr, hh, hlo, ?_, hn6, hw, ?_, hcount, ?_, ?_⟩
  · rw [hup]; norm_num
  · rw [hsum, hcount]
  · rw [hf, hn6]; rfl
  · rw [hb, hn6]

/-! ## Scale histogram -/

theorem computeScaleHistogram_requested (sfmData : SfMData) (out_stats : BoxStats)
    (h0 : Histogram) (specificViews : Finset IndexT)
    (hne : collectScales sfmData specificViews ≠ []) (maxValue : Nat) (hist : Histogram)
    (hn : toSizeT (⌈(BoxStats.compute (collectScales sfmData specificViews)).max⌉ : Double)
      = some maxValue)
    (hadd : (Histogram.create 0 (maxValue : Double) (maxValue + 1)).AddRange
      (collectScales sfmData specificViews) = some hist) :
    computeScaleHistogram sfmData out_stats (some h0) specificViews
      = some { out_stats := BoxStats.compute (collectScales sfmData specificViews)
               out_histogram := some hist } := by
  have hE : sfmData.getLandmarks.empty = false := by
    cases hl : sfmData.getLandmarks.entries with
    | nil =>
      exfalso
      apply hne
      simp [collectScales, hl]
    | cons a l => simp [StdMap.empty, hl]
  have hN : (collectScales sfmData specificViews).isEmpty = false := by
    cases hl : collectScales sfmData specificViews with
    | nil => exact absurd hl hne
    | cons a l => rfl
  unfold computeScaleHistogram
  simp [hE, hN, initOutputs, hn, hadd]

theorem toSizeT_intCast (m : Int) (hm : 0 ≤ m) : toSizeT (m : Double) = some m.toNat := by
  unfold toSizeT
  have h0 : (0 : Double) ≤ (m : Double) := by exact_mod_cast hm
  rw [if_pos h0, Int.floor_intCast]

theorem scaleHistogram_width (m : Nat) :
    (Histogram.create 0 (m : Double) (m + 1)).binWidth = (m : Double) / ((m : Double) + 1) := by
  unfold Histogram.binWidth Histogram.nBins Histogram.create
  simp only [List.length_replicate]
  push_cast
  rw [sub_zero]

theorem binIndex_of_mem_bin (h : Histogram) (s : Double) (k : Nat) (hk : k < h.nBins)
    (hw : 0 < h.binWidth) (h1 : h.lower + (k : Double) * h.binWidth ≤ s)
    (h2 : s < h.lower + ((k : Double) + 1) * h.binWidth) : h.binIndex s = k := by
  apply binIndex_of_unclamped h s k hk
  rw [Int.floor_eq_iff]
  constructor
  · rw [le_div_iff₀ hw]
    push_cast
    linarith
  · rw [div_lt_iff₀ hw]
    push_cast
    linarith

/-- C13, as amended: when computeScaleHistogram collects scales of maximum > 0 and a
histogram is requested, the histogram has lower bound 0, upper bound ⌈max⌉ and
⌈max⌉ + 1 bins; with bin width = (upper − lower) / N every bin has the width
⌈max⌉ / (⌈max⌉ + 1), which is positive and smaller than 1, so that bin k covers
[k·width, (k + 1)·width). -/
theorem scale_histogram_bins_narrower_than_one (sfmData : SfMData) (out_stats : BoxStats)
    (h0 : Histogram) (specificViews : Finset IndexT)
    (hmax : 0 < (BoxStats.compute (collectScales sfmData specificViews)).max) :
    ∃ (r : StatsOutputs) (hist : Histogram) (m : Nat),
      computeScaleHistogram sfmData out_stats (some h0) specificViews = some r ∧
      r.out_stats = BoxStats.compute (collectScales sfmData specificViews) ∧
      r.out_histogram = some hist ∧ (m : Int) = ⌈r.out_stats.max⌉ ∧
      hist.lower = 0 ∧ hist.upper = (m : Double) ∧ hist.nBins = m + 1 ∧
      hist.binWidth = (m : Double) / ((m : Double) + 1) ∧
      0 < hist.binWidth ∧ hist.binWidth < 1 ∧
      (∀ (s : Double) (k : Nat), k < hist.nBins → (k : Double) * hist.binWidth ≤ s →
        s < ((k : Double) + 1) * hist.binWidth → hist.binIndex s = k) := by
  have hne : collectScales sfmData specificViews ≠ [] := by
    intro h
    rw [h, BoxStats.compute_nil] at hmax
    exact lt_irrefl _ hmax
  have hm : 0 < ⌈(BoxStats.compute (collectScales sfmData specificViews)).max⌉ :=
    Int.ceil_pos.mpr hmax
  have hsz := toSizeT_intCast ⌈(BoxStats.compute (collectScales sfmData specificViews)).max⌉
    (le_of_lt hm)
  have hmnat : ((⌈(BoxStats.compute (collectScales sfmData specificViews)).max⌉.toNat : Nat)
      : Int) = ⌈(BoxStats.compute (collectScales sfmData specificViews)).max⌉ :=
    Int.toNat_of_nonneg (le_of_lt hm)
  have hmpos : (0 : Double) <
      ((⌈(BoxStats.compute (collectScales sfmData specificViews)).max⌉.toNat : Nat) : Double) := by
    have : (0 : Int) <
        ((⌈(BoxStats.compute (collectScales sfmData specificViews)).max⌉.toNat : Nat) : Int) := by
      rw [hmnat]; exact hm
    exact_mod_cast this
  have hwidth := scaleHistogram_width
    ⌈(BoxStats.compute (collectScales sfmData specificViews)).max⌉.toNat
  have hwpos : 0 < (Histogram.create 0
      ((⌈(BoxStats.compute (collectScales sfmData specificViews)).max⌉.toNat : Nat) : Double)
      (⌈(BoxStats.compute (collectScales sfmData specificViews)).max⌉.toNat + 1)).binWidth := by
    rw [hwidth]
    exact div_pos hmpos (by linarith)
  obtain ⟨hist, hadd, hlo, hup, hnb, -, -⟩ := addRange_freq
    (collectScales sfmData specificViews)
    (Histogram.create 0
      ((⌈(BoxStats.compute (collectScales sfmData specificViews)).max⌉.toNat : Nat) : Double)
      (⌈(BoxStats.compute (collectScales sfmData specificViews)).max⌉.toNat + 1))
    (by simp [Histogram.nBins, Histogram.create]) (ne_of_gt hwpos)
  have hfun := computeScaleHistogram_requested sfmData out_stats h0 specificViews hne _ hist
    hsz hadd
  have hlo0 : hist.lower = 0 := by rw [hlo]; rfl
  have hwid : hist.binWidth
      = ((⌈(BoxStats.compute (collectScales sfmData specificViews)).max⌉.toNat : Nat) : Double)
        / (((⌈(BoxStats.compute (collectScales sfmData specificViews)).max⌉.toNat : Nat)
            : Double) + 1) := by
    rw [← hwidth]
    unfold Histogram.binWidth
    rw [hlo, hup, hnb]
  have hwp : 0 < hist.binWidth := by
    rw [hwid]; exact div_pos hmpos (by linarith)
  refine ⟨_, hist, ⌈(BoxStats.compute (collectScales sfmData specificViews)).max⌉.toNat,
    hfun, rfl, rfl, hmnat, hlo0, by rw [hup]; rfl, ?_, hwid, hwp, ?_, ?_⟩
  · rw [hnb]; simp [Histogram.nBins, Histogram.create]
  · rw [hwid, div_lt_one (by linarith)]
    linarith
  · intro s k hk h1 h2
    exact binIndex_of_mem_bin hist s k hk hwp (by rw [hlo0]; linarith) (by rw [hlo0]; linarith)

theorem scenario_scales_all : collectScales scenario ∅ = [1, 2, 0] := by
  rw [collectScales_eq_spec]
  simp [sampledObservations, allObservations, scenario, landmarkA, landmarkB, sampled]

theorem scenario_scales_max : (BoxStats.compute [1, 2, 0]).max = 2 := by
  norm_num [BoxStats.compute, List.insertionSort, List.orderedInsert]

/-- Witness of C13 as amended, on the scenario of the specification without filter: the
scales 1, 2, 0 have maximum 2, the histogram has upper bound 2 and 3 bins. -/
theorem scale_histogram_bins_narrower_than_one_witness :
    0 < (BoxStats.compute (collectScales scenario ∅)).max ∧
    ∃ (r : StatsOutputs) (hist : Histogram),
      computeScaleHistogram scenario BoxStats.default (some Histogram.default) ∅ = some r ∧
      r.out_histogram = some hist ∧ hist.lower = 0 ∧ hist.upper = 2 ∧ hist.nBins = 3 ∧
      hist.binWidth < 1 := by
  have hmax : 0 < (BoxStats.compute (collectScales scenario ∅)).max := by
    rw [scenario_scales_all, scenario_scales_max]; norm_num
  refine ⟨hmax, ?_⟩
  obtain ⟨r, hist, m, hr, hs, hh, hm, hlo, hup, hnb, -, -, hlt, -⟩ :=
    scale_histogram_bins_narrower_than_one scenario BoxStats.default Histogram.default ∅ hmax
  have hm2 : m = 2 := by
    rw [hs, scenario_scales_all, scenario_scales_max] at hm
    have hceil : ⌈(2 : Double)⌉ = 2 := by
      have : ((2 : Int) : Double) = 2 := by norm_num
      rw [← this, Int.ceil_intCast]
    rw [hceil] at hm
    exact_mod_cast hm
  subst hm2
  exact ⟨r, hist, hr, hh, hlo, by rw [hup]; norm_num, hnb, hlt⟩

/-- Counterexample to C13 as stated, on the scenario of the specification without filter
(scales 1, 2, 0, of maximum 2 > 0) with a histogram requested: the histogram has lower
bound 0, upper bound 2 and 3 bins, so its bin width is 2/3 and not 1, and the sample
7/10 of [0, 1) falls in bin 1. -/
theorem scale_histogram_bins_not_unit_counterexample :
    ∃ (r : StatsOutputs) (hist : Histogram),
      computeScaleHistogram scenario BoxStats.default (some Histogram.default) ∅ = some r ∧
      r.out_stats.max = 2 ∧ r.out_histogram = some hist ∧
      hist.lower = 0 ∧ hist.upper = 2 ∧ hist.nBins = 3 ∧
      hist.binWidth = 2 / 3 ∧ hist.binWidth ≠ 1 ∧ hist.binIndex (7 / 10) = 1 := by
  have hne : collectScales scenario ∅ ≠ [] := by
    rw [scenario_scales_all]; exact List.cons_ne_nil _ _
  have hsz : toSizeT (⌈(BoxStats.compute (collectScales scenario ∅)).max⌉ : Double)
      = some 2 := by
    rw [scenario_scales_all, scenario_scales_max]
    have hceil : ⌈(2 : Double)⌉ = 2 := by
      have : ((2 : Int) : Double) = 2 := by norm_num
      rw [← this, Int.ceil_intCast]
    rw [hceil]
    exact toSizeT_intCast 2 (by norm_num)
  have hw : (Histogram.create 0 ((2 : Nat) : Double) (2 + 1)).binWidth = 2 / 3 := by
    rw [scaleHistogram_width]; norm_num
  obtain ⟨hist, hadd, hlo, hup, hnb, -, -⟩ := addRange_freq (collectScales scenario ∅)
    (Histogram.create 0 ((2 : Nat) : Double) (2 + 1))
    (by simp [Histogram.nBins, Histogram.create]) (by rw [hw]; norm_num)
  have hfun := computeScaleHistogram_requested scenario BoxStats.default Histogram.default ∅
    hne 2 hist hsz hadd
  have hlo0 : hist.lower = 0 := by rw [hlo]; rfl
  have hup2 : hist.upper = 2 := by rw [hup]; simp [Histogram.create]
  have hnb3 : hist.nBins = 3 := by rw [hnb]; simp [Histogram.nBins, Histogram.create]
  have hwid : hist.binWidth = 2 / 3 := by
    unfold Histogram.binWidth
    rw [hlo0, hup2, hnb3]; norm_num
  refine ⟨_, hist, hfun, ?_, rfl, hlo0, hup2, hnb3, hwid, by rw [hwid]; norm_num, ?_⟩
  · show (BoxStats.compute (collectScales scenario ∅)).max = 2
    rw [scenario_scales_all, scenario_scales_max]
  · apply binIndex_of_mem_bin hist (7 / 10) 1 (by omega) (by rw [hwid]; norm_num)
    · rw [hlo0, hwid]; norm_num
    · rw [hlo0, hwid]; norm_num

/-! ## Collapsed ranges -/

theorem flatScene_scales : collectScales flatScene ∅ = [0] := by
  rw [collectScales_eq_spec]
  simp [sampledObservations, allObservations, flatScene, sampled]

theorem flatScene_residuals : specResiduals flatScene ∅ = some [0] := by
  simp [specResiduals, sampledObservations, allObservations, flatScene, sampled,
    residualNormsOf, residualNormOf, SfMData.getView, SfMData.getPose,
    SfMData.getIntrinsics, StdMap.find, List.lookup, scenarioIntrinsic]

theorem boxStats_zero_samples (vec : List Double) (hzero : ∀ x ∈ vec, x = 0) :
    (BoxStats.compute vec).min = 0 ∧ (BoxStats.compute vec).max = 0 ∧
    (BoxStats.compute vec).mean = 0 ∧ (BoxStats.compute vec).median = 0 ∧
    (BoxStats.compute vec).firstQuartile = 0 ∧ (BoxStats.compute vec).thirdQuartile = 0 := by
  have hsorted : ∀ x ∈ vec.insertionSort (fun a b => a ≤ b), x = 0 := fun x hx =>
    hzero x ((List.perm_insertionSort _ _).mem_iff.mp hx)
  have hget : ∀ i, (vec.insertionSort (fun a b => a ≤ b)).getD i 0 = 0 := by
    intro i
    rcases Nat.lt_or_ge i (vec.insertionSort (fun a b => a ≤ b)).length with h | h
    · rw [List.getD_eq_getElem _ _ h]
      exact hsorted _ (List.getElem_mem _)
    · rw [List.getD_eq_default _ _ h]
  have hsum : vec.sum = 0 := List.sum_eq_zero hzero
  unfold BoxStats.compute
  cases hE : vec.isEmpty with
  | true => simp [BoxStats.default]
  | false =>
    simp only [Bool.false_eq_true, if_false, hget, hsum, zero_div, add_zero, ite_self]
    exact ⟨trivial, trivial, trivial, trivial, trivial, trivial⟩

/-- C14 (the code departs from the claim): on a dataset whose only observation has scale
0, with a histogram requested, computeScaleHistogram converts ⌈max⌉ = 0 to maxValue = 0
and constructs the histogram with lower bound 0, upper bound 0 and maxValue + 1 = 1 bin,
of width 0; adding the samples to it then divides by the zero bin width, and the routine
has no result. The histogram is not the empty one of zero bins. -/
theorem scale_histogram_collapsed_range_one_bin_of_width_zero :
    collectScales flatScene ∅ = [0] ∧
    (BoxStats.compute (collectScales flatScene ∅)).max = 0 ∧
    toSizeT (⌈(BoxStats.compute (collectScales flatScene ∅)).max⌉ : Double) = some 0 ∧
    (Histogram.create 0 ((0 : Nat) : Double) (0 + 1)).nBins = 1 ∧
    (Histogram.create 0 ((0 : Nat) : Double) (0 + 1)).binWidth = 0 ∧
    (Histogram.create 0 ((0 : Nat) : Double) (0 + 1)).AddRange (collectScales flatScene ∅)
      = none ∧
    computeScaleHistogram flatScene BoxStats.default (some Histogram.default) ∅ = none ∧
    computeScaleHistogram flatScene BoxStats.default none ∅
      = some { out_stats := BoxStats.compute [0], out_histogram := none } := by
  have hmax : (BoxStats.compute (collectScales flatScene ∅)).max = 0 := by
    rw [flatScene_scales]
    exact (boxStats_zero_samples [0] (by simp)).2.1
  have hsz : toSizeT (⌈(BoxStats.compute (collectScales flatScene ∅)).max⌉ : Double)
      = some 0 := by
    rw [hmax]
    simp [toSizeT]
  have hw : (Histogram.create 0 ((0 : Nat) : Double) (0 + 1)).binWidth = 0 := by
    simp [Histogram.binWidth, Histogram.create]
  have hadd : (Histogram.create 0 ((0 : Nat) : Double) (0 + 1)).AddRange
      (collectScales flatScene ∅) = none := by
    rw [flatScene_scales]
    have h1 : (Histogram.create 0 ((0 : Nat) : Double) (0 + 1)).Add 0 = none := by
      unfold Histogram.Add
      rw [if_neg (by simp [Histogram.nBins, Histogram.create]), if_pos hw]
    unfold Histogram.AddRange
    rw [List.foldlM_cons, h1]
    rfl
  have hE : flatScene.getLandmarks.empty = false := rfl
  refine ⟨flatScene_scales, hmax, hsz, rfl, hw, hadd, ?_, ?_⟩
  · unfold computeScaleHistogram
    simp only [hE, Bool.false_eq_true, if_false, initOutputs, Option.map_some', hsz,
      Option.bind_eq_bind, Option.some_bind, hadd]
    rw [flatScene_scales]
    rfl
  · unfold computeScaleHistogram
    simp [hE, flatScene_scales, initOutputs]

theorem addRange_zero_bins (samples : List Double) (h : Histogram) (hn : h.nBins = 0) :
    h.AddRange samples = some h := by
  induction samples with
  | nil => rfl
  | cons s rest ih =>
    unfold Histogram.AddRange at ih ⊢
    rw [List.foldlM_cons]
    have h1 : h.Add s = some h := by
      unfold Histogram.Add
      rw [if_pos hn]
    rw [h1]
    exact ih

/-- C15: when computeResidualsHistogram collects at least one residual norm, every
collected norm is 0 and a histogram is requested, the BoxStats reports the samples
(count > 0, min = max = 0) and the returned histogram is the one constructed with lower
bound 0, upper bound 0 and zero bins: it holds no counts, and adding the samples to it
leaves it unchanged, no bin index being computed. -/
theorem residuals_histogram_all_zero_gives_zero_bins (sfmData : SfMData)
    (out_stats : BoxStats) (h0 : Histogram) (specificViews : Finset IndexT)
    (vec : List Double) (hvec : collectResiduals sfmData specificViews = some vec)
    (hne : vec ≠ []) (hzero : ∀ x ∈ vec, x = 0) :
    ∃ r : StatsOutputs,
      computeResidualsHistogram sfmData out_stats (some h0) specificViews = some r ∧
      r.out_stats = BoxStats.compute vec ∧ r.out_stats.count = vec.length ∧
      0 < r.out_stats.count ∧ r.out_stats.min = 0 ∧ r.out_stats.max = 0 ∧
      r.out_histogram = some (Histogram.create 0 0 0) ∧
      (Histogram.create 0 0 0).nBins = 0 ∧ (Histogram.create 0 0 0).freq = [] ∧
      (Histogram.create 0 0 0).AddRange vec = some (Histogram.create 0 0 0) := by
  rw [collectResiduals_eq_spec] at hvec
  obtain ⟨hmin, hmax, -⟩ := boxStats_zero_samples vec hzero
  have hsz : toSizeT ((⌈(BoxStats.compute vec).max⌉ : Double) * 2) = some 0 := by
    rw [hmax]
    simp [toSizeT]
  have hadd0 := addRange_zero_bins vec (Histogram.create 0 0 0) rfl
  have hadd : (Histogram.create 0 (⌈(BoxStats.compute vec).max⌉ : Double) 0).AddRange vec
      = some (Histogram.create 0 0 0) := by
    rw [hmax]
    simpa using hadd0
  have hfun := computeResidualsHistogram_requested sfmData out_stats h0 specificViews vec hvec
    hne 0 _ hsz hadd
  refine ⟨_, hfun, rfl, BoxStats.count_compute vec, ?_, hmin, hmax, rfl, rfl, rfl, hadd0⟩
  show 0 < (BoxStats.compute vec).count
  rw [BoxStats.count_compute]
  exact List.length_pos.mpr hne

/-- Witness of C15: the dataset whose only observation has residual norm 0. -/
theorem residuals_histogram_all_zero_gives_zero_bins_witness :
    collectResiduals flatScene ∅ = some [0] ∧ ([0] : List Double) ≠ [] ∧
    (∀ x ∈ ([0] : List Double), x = 0) ∧
    ∃ r : StatsOutputs,
      computeResidualsHistogram flatScene BoxStats.default (some Histogram.default) ∅ = some r ∧
      r.out_stats.count = 1 ∧ r.out_stats.min = 0 ∧ r.out_stats.max = 0 ∧
      r.out_histogram = some { lower := 0, upper := 0, freq := [] } := by
  have hvec : collectResiduals flatScene ∅ = some [0] := by
    rw [collectResiduals_eq_spec, flatScene_residuals]
  have hne : ([0] : List Double) ≠ [] := List.cons_ne_nil _ _
  have hzero : ∀ x ∈ ([0] : List Double), x = 0 := by simp
  obtain ⟨r, hr, -, hc, -, hmin, hmax, hh, -⟩ :=
    residuals_histogram_all_zero_gives_zero_bins flatScene BoxStats.default Histogram.default
      ∅ [0] hvec hne hzero
  exact ⟨hvec, hne, hzero, r, hr, hc, hmin, hmax, hh⟩

/-! ## Scales against residuals -/

theorem residualNormsOf_forall₂ (sfmData : SfMData) (l : List (Vec3 × (IndexT × Observation)))
    (rs : List Double) (h : residualNormsOf sfmData l = some rs) :
    List.Forall₂ (fun p r => residualNormOf sfmData p.1 p.2 = some r) l rs := by
  induction l generalizing rs with
  | nil =>
    simp [residualNormsOf] at h
    subst h
    exact List.Forall₂.nil
  | cons p rest ih =>
    simp only [residualNormsOf] at h
    cases hp : residualNormOf sfmData p.1 p.2 with
    | none => simp [hp] at h
    | some r =>
      cases hr : residualNormsOf sfmData rest with
      | none => simp [hp, hr] at h
      | some rs' =>
        simp [hp, hr] at h
        subst h
        exact List.Forall₂.cons hp (ih rs' hr)

theorem computeScaleHistogram_stats (sfmData : SfMData) (out_stats : BoxStats)
    (out_histogram : Option Histogram) (specificViews : Finset IndexT) (r : StatsOutputs)
    (hr : computeScaleHistogram sfmData out_stats out_histogram specificViews = some r) :
    r.out_stats = BoxStats.compute (collectScales sfmData specificViews) := by
  unfold computeScaleHistogram at hr
  by_cases hE : sfmData.getLandmarks.empty = true
  · have hnil : sfmData.getLandmarks.entries = [] := by simpa [StdMap.empty] using hE
    simp only [hE, if_true, Option.some.injEq] at hr
    rw [← hr]
    simp [collectScales, hnil, initOutputs, BoxStats.compute_nil]
  · simp only [hE, Bool.false_eq_true, if_false] at hr
    by_cases hN : (collectScales sfmData specificViews).isEmpty = true
    · have hnil : collectScales sfmData specificViews = [] := by simpa using hN
      simp only [hN, if_true, Option.some.injEq] at hr
      rw [← hr, hnil]
      simp [initOutputs, BoxStats.compute_nil]
    · simp only [hN, Bool.false_eq_true, if_false] at hr
      cases out_histogram with
      | none =>
        simp only [initOutputs, Option.map_none', Option.some.injEq] at hr
        rw [← hr]
      | some h0 =>
        simp only [initOutputs, Option.map_some', Option.bind_eq_bind] at hr
        cases hsz : toSizeT (⌈(BoxStats.compute (collectScales sfmData specificViews)).max⌉
            : Double) with
        | none => simp [hsz] at hr
        | some m =>
          simp only [hsz, Option.some_bind] at hr
          cases hadd : (Histogram.create 0 (m : Double) (m + 1)).AddRange
              (collectScales sfmData specificViews) with
          | none => simp [hadd] at hr
          | some hist =>
            simp only [hadd, Option.some_bind, Option.pure_def, Option.some.injEq] at hr
            rw [← hr]

theorem computeScaleHistogram_unrequested (sfmData : SfMData) (out_stats : BoxStats)
    (specificViews : Finset IndexT) :
    computeScaleHistogram sfmData out_stats none specificViews
      = some { out_stats := BoxStats.compute (collectScales sfmData specificViews)
               out_histogram := none } := by
  unfold computeScaleHistogram
  by_cases hE : sfmData.getLandmarks.empty = true
  · have hnil : sfmData.getLandmarks.entries = [] := by simpa [StdMap.empty] using hE
    simp [hE, collectScales, hnil, initOutputs, BoxStats.compute_nil]
  · by_cases hN : (collectScales sfmData specificViews).isEmpty = true
    · have hnil : collectScales sfmData specificViews = [] := by simpa using hN
      simp [hE, hnil, initOutputs, BoxStats.compute_nil]
    · simp [hE, hN, initOutputs]

/-- C16: on a dataset in which the view, pose and intrinsic of every observation
resolve, for every viewFilter, computeScaleHistogram samples exactly the observations
that computeResidualsHistogram samples, in the same order, taking the scale of the
observation where the other takes its residual norm: the i-th scale and the i-th
residual come from the same observation, and the BoxStats the two routines return have
the same count. -/
theorem scale_samples_same_observations_as_residuals (sfmData : SfMData)
    (hall : ∀ p ∈ allObservations sfmData, (residualNormOf sfmData p.1 p.2).isSome = true)
    (specificViews : Finset IndexT) :
    ∃ vec : List Double,
      collectResiduals sfmData specificViews = some vec ∧
      List.Forall₂ (fun p r => residualNormOf sfmData p.1 p.2 = some r)
        (sampledObservations sfmData specificViews) vec ∧
      collectScales sfmData specificViews
        = (sampledObservations sfmData specificViews).map (fun p => p.2.2.scale) ∧
      (collectScales sfmData specificViews).length = vec.length ∧
      (∀ s₁ h₁ s₂ h₂ r₁ r₂,
        computeScaleHistogram sfmData s₁ h₁ specificViews = some r₁ →
        computeResidualsHistogram sfmData s₂ h₂ specificViews = some r₂ →
        r₁.out_stats.count = r₂.out_stats.count) ∧
      (∀ s₂ h₂, ∃ r₂, computeResidualsHistogram sfmData s₂ h₂ specificViews = some r₂) ∧
      (∀ s₁, ∃ r₁, computeScaleHistogram sfmData s₁ none specificViews = some r₁) := by
  obtain ⟨vec, hvec⟩ := specResiduals_defined sfmData specificViews hall
  have hlen := (residualNormsOf_some sfmData _ vec hvec).1
  have hscales := collectScales_eq_spec sfmData specificViews
  refine ⟨vec, by rw [collectResiduals_eq_spec]; exact hvec,
    residualNormsOf_forall₂ sfmData _ vec hvec, hscales, ?_, ?_, ?_, ?_⟩
  · rw [hscales, List.length_map, hlen]
  · intro s₁ h₁ s₂ h₂ r₁ r₂ e₁ e₂
    obtain ⟨r, hr, hs, -⟩ :=
      computeResidualsHistogram_of_some sfmData s₂ h₂ specificViews vec hvec
    rw [hr] at e₂
    cases e₂
    rw [computeScaleHistogram_stats sfmData s₁ h₁ specificViews r₁ e₁, hs,
      BoxStats.count_compute, BoxStats.count_compute, hscales, List.length_map, hlen]
  · intro s₂ h₂
    obtain ⟨r, hr, -⟩ :=
      computeResidualsHistogram_of_some sfmData s₂ h₂ specificViews vec hvec
    exact ⟨r, hr⟩
  · intro s₁
    exact ⟨_, computeScaleHistogram_unrequested sfmData s₁ specificViews⟩

/-- Witness of C16 on the scenario of the specification, filtered to view 1: both
routines sample the observations of landmarks A and B in view 1, with residual norms 1
and 2 and scales 1 and 0. -/
theorem scale_samples_same_observations_as_residuals_witness :
    (∀ p ∈ allObservations scenario, (residualNormOf scenario p.1 p.2).isSome = true) ∧
    collectResiduals scenario {1} = some [1, 2] ∧ collectScales scenario {1} = [1, 0] ∧
    ∃ r₁ r₂,
      computeScaleHistogram scenario BoxStats.default none {1} = some r₁ ∧
      computeResidualsHistogram scenario BoxStats.default none {1} = some r₂ ∧
      r₁.out_stats.count = 2 ∧ r₂.out_stats.count = 2 := by
  have hall : ∀ p ∈ allObservations scenario, (residualNormOf scenario p.1 p.2).isSome = true := by
    intro p hp
    apply scenario_resolves ∅ p
    unfold sampledObservations
    rw [List.mem_filter]
    exact ⟨hp, by simp [sampled]⟩
  obtain ⟨vec, hvec, -, hscales, hlen, hcount, hres, hsc⟩ :=
    scale_samples_same_observations_as_residuals scenario hall {1}
  have hv : vec = [1, 2] := by
    rw [collectResiduals_eq_spec, scenario_residuals_view1] at hvec
    exact (Option.some.inj hvec).symm
  subst hv
  have hs : collectScales scenario {1} = [1, 0] := by
    rw [hscales]
    simp [sampledObservations, allObservations, scenario, landmarkA, landmarkB, sampled]
  obtain ⟨r₁, h₁⟩ := hsc BoxStats.default
  obtain ⟨r₂, h₂⟩ := hres BoxStats.default none
  have hc := hcount _ _ _ _ _ _ h₁ h₂
  have hc₁ : r₁.out_stats.count = 2 := by
    rw [computeScaleHistogram_stats scenario _ _ _ r₁ h₁, BoxStats.count_compute, hs]
    rfl
  exact ⟨hall, hvec, hs, r₁, r₂, h₁, h₂, hc₁, by rw [← hc, hc₁]⟩

/-! ## Per-view counts -/

theorem countMap_keys_observed (sfmData : SfMData) (v : IndexT) :
    v ∈ (countMap sfmData).map Prod.fst ↔ observedView sfmData v := by
  obtain ⟨-, hfind⟩ := countInv_countMap sfmData
  rw [LocalMap.mem_keys_iff_find, hfind v]
  have hmem : v ∈ sfmData.landmarks.entries.flatMap
      (fun landmark => landmark.2.observations.keys) ↔ observedView sfmData v := by
    unfold observedView
    rw [List.mem_flatMap]
  rw [← hmem]
  by_cases h0 : (sfmData.landmarks.entries.flatMap
      (fun landmark => landmark.2.observations.keys)).count v = 0
  · simp [h0, List.count_eq_zero.mp h0]
  · have hn : v ∈ sfmData.landmarks.entries.flatMap
        (fun landmark => landmark.2.observations.keys) := by
      by_contra hc
      exact h0 (List.count_eq_zero.mpr hc)
    simp [h0, hn]

theorem countMap_values (sfmData : SfMData) :
    (countMap sfmData).map Prod.snd
      = ((countMap sfmData).map Prod.fst).map
          (fun v => (nbLandmarksObserving sfmData v : Int)) := by
  obtain ⟨hord, hfind⟩ := countInv_countMap sfmData
  rw [List.map_map]
  apply List.map_congr_left
  intro e he
  have h1 := LocalMap.find_of_mem _ hord e he
  rw [hfind e.1] at h1
  by_cases h0 : (sfmData.landmarks.entries.flatMap
      (fun landmark => landmark.2.observations.keys)).count e.1 = 0
  · rw [if_pos h0] at h1
    cases h1
  · rw [if_neg h0] at h1
    simp only [Option.some.injEq] at h1
    simp only [Function.comp_apply, nbLandmarksObserving]
    rw [← h1, count_observation_keys]

theorem computeLandmarksPerView_values (sfmData : SfMData) (out : List Int) :
    computeLandmarksPerView sfmData out = (countMap sfmData).map Prod.snd := by
  unfold computeLandmarksPerView
  by_cases hE : sfmData.getLandmarks.empty = true
  · have hnil : sfmData.getLandmarks.entries = [] := by simpa [StdMap.empty] using hE
    simp [hE, countMap, hnil]
  · by_cases hN : (countMap sfmData).isEmpty = true
    · have hnil : countMap sfmData = [] := by simpa using hN
      simp [hE, hnil]
    · simp [hE, hN, foldl_push_snd]

theorem sum_indicator_of_nodup (d : List IndexT) (a : IndexT) (hd : d.Nodup) (ha : a ∈ d) :
    (d.map (fun v => if v = a then 1 else 0)).sum = 1 := by
  induction d with
  | nil => cases ha
  | cons b d' ihd =>
    rw [List.nodup_cons] at hd
    rw [List.map_cons, List.sum_cons]
    by_cases hb : b = a
    · subst hb
      have hz : (d'.map (fun v => if v = b then 1 else 0)).sum = 0 := by
        apply List.sum_eq_zero
        intro x hx
        obtain ⟨y, hy, rfl⟩ := List.mem_map.mp hx
        have : y ≠ b := fun e => hd.1 (e ▸ hy)
        simp [this]
      simp [hz]
    · have ha' : a ∈ d' := by
        rcases List.mem_cons.mp ha with h | h
        · exact absurd h.symm hb
        · exact h
      rw [if_neg hb, zero_add]
      exact ihd hd.2 ha'

theorem sum_count_of_nodup (d l : List IndexT) (hd : d.Nodup) (hl : ∀ x ∈ l, x ∈ d) :
    (d.map (fun v => l.count v)).sum = l.length := by
  induction l with
  | nil => simp
  | cons a rest ih =>
    have hstep : ∀ v, (a :: rest).count v = rest.count v + (if v = a then 1 else 0) := by
      intro v
      rw [List.count_cons]
      by_cases hv : v = a
      · subst hv; simp
      · have : (a == v) = false := by simpa using Ne.symm hv
        simp [hv, this]
    have hsplit : (d.map (fun v => (a :: rest).count v)).sum
        = (d.map (fun v => rest.count v)).sum
          + (d.map (fun v => if v = a then 1 else 0)).sum := by
      rw [← List.sum_map_add]
      congr 1
      apply List.map_congr_left
      intro v _
      exact hstep v
    rw [hsplit, ih (fun x hx => hl x (List.mem_cons_of_mem _ hx)),
      sum_indicator_of_nodup d a hd (hl a (List.mem_cons_self _ _))]
    simp

theorem specLengths_singleton_length (sfmData : SfMData) (v : IndexT) :
    (specLengths sfmData {v}).length = nbLandmarksObserving sfmData v := by
  unfold specLengths nbLandmarksObserving
  rw [List.length_map]
  congr 1
  apply List.filter_congr
  intro l _
  unfold participates StdMap.keys
  by_cases hv : v ∈ l.2.observations.entries.map Prod.fst
  · rw [decide_eq_true hv, List.any_eq_true]
    obtain ⟨o, ho, hov⟩ := List.mem_map.mp hv
    exact ⟨o, ho, by simp [hov]⟩
  · rw [decide_eq_false hv]
    rw [Bool.eq_false_iff]
    intro hany
    rw [List.any_eq_true] at hany
    obtain ⟨o, ho, hov⟩ := hany
    simp only [Finset.mem_singleton, decide_eq_true_eq] at hov
    exact hv (List.mem_map.mpr ⟨o, ho, hov⟩)

theorem totalObservations_eq_length (sfmData : SfMData) :
    totalObservations sfmData
      = ((sfmData.landmarks.entries.flatMap
          (fun landmark => landmark.2.observations.keys)).length : Int) := by
  unfold totalObservations
  induction sfmData.landmarks.entries with
  | nil => simp
  | cons l rest ih =>
    rw [List.map_cons, List.sum_cons, ih, List.flatMap_cons, List.length_append]
    simp [StdMap.keys]

/-- C17: for every view identifier v, the BoxStats.count that
computeObservationsLengthsHistogram returns with viewFilter = {v} is the entry that
computeLandmarksPerView reports for v (the number of landmarks observing v), and is 0
when v has no entry there; the sum of these counts over the observed views is the total
number of observations of the dataset. -/
theorem lengths_count_of_view_is_landmarksPerView_entry (sfmData : SfMData) :
    ∃ viewIds : List IndexT,
      viewIds.Pairwise (fun a b => a < b) ∧
      (∀ v, v ∈ viewIds ↔ observedView sfmData v) ∧
      (∀ out, computeLandmarksPerView sfmData out =
        viewIds.map (fun v => (nbLandmarksObserving sfmData v : Int))) ∧
      (∀ v out_stats c out_histogram,
        ∃ r, computeObservationsLengthsHistogram sfmData out_stats c out_histogram {v}
            = some r ∧
          r.out_stats.count = nbLandmarksObserving sfmData v ∧
          (v ∉ viewIds → r.out_stats.count = 0)) ∧
      (((viewIds.map (fun v => nbLandmarksObserving sfmData v)).sum : Nat) : Int)
        = totalObservations sfmData := by
  obtain ⟨hord, -⟩ := countInv_countMap sfmData
  have hkeys := countMap_keys_observed sfmData
  have hnodup : ((countMap sfmData).map Prod.fst).Nodup :=
    (List.pairwise_map.mpr hord).imp (fun hab => Nat.ne_of_lt hab)
  refine ⟨(countMap sfmData).map Prod.fst, List.pairwise_map.mpr hord, hkeys, ?_, ?_, ?_⟩
  · intro out
    rw [computeLandmarksPerView_values, countMap_values]
  · intro v s c h
    obtain ⟨r, hr, hs⟩ := lengthsHistogram_of_view sfmData v s c h
    have hcount : r.out_stats.count = nbLandmarksObserving sfmData v := by
      rw [hs]
      unfold lengthsStatsOfView
      rw [BoxStats.count_compute, List.length_map, specLengths_singleton_length]
    refine ⟨r, hr, hcount, ?_⟩
    intro hv
    rw [hcount]
    unfold nbLandmarksObserving
    rw [List.length_eq_zero, List.filter_eq_nil_iff]
    intro l hl hmem
    exact hv ((hkeys v).mpr ⟨l, hl, by simpa using hmem⟩)
  · rw [totalObservations_eq_length]
    congr 1
    have hfun : (fun v => nbLandmarksObserving sfmData v)
        = (fun v => (sfmData.landmarks.entries.flatMap
            (fun landmark => landmark.2.observations.keys)).count v) := by
      funext v
      unfold nbLandmarksObserving
      rw [count_observation_keys]
    rw [hfun]
    apply sum_count_of_nodup _ _ hnodup
    intro x hx
    obtain ⟨l, hl, hxl⟩ := List.mem_flatMap.mp hx
    exact (hkeys x).mpr ⟨l, hl, hxl⟩

/-! ## Counts under disjoint filters -/

theorem computeResidualsHistogram_count (sfmData : SfMData) (out_stats : BoxStats)
    (out_histogram : Option Histogram) (specificViews : Finset IndexT) (r : StatsOutputs)
    (hr : computeResidualsHistogram sfmData out_stats out_histogram specificViews = some r) :
    r.out_stats.count = (sampledObservations sfmData specificViews).length := by
  cases h : specResiduals sfmData specificViews with
  | none =>
    rw [computeResidualsHistogram_of_none sfmData out_stats out_histogram specificViews h] at hr
    cases hr
  | some vec =>
    obtain ⟨r', hr', hs, -⟩ :=
      computeResidualsHistogram_of_some sfmData out_stats out_histogram specificViews vec h
    rw [hr'] at hr
    cases hr
    rw [hs, BoxStats.count_compute]
    exact (residualNormsOf_some sfmData _ vec h).1

theorem sampled_length_of_nonempty (sfmData : SfMData) (F : Finset IndexT) (hF : F ≠ ∅) :
    (sampledObservations sfmData F).length
      = (allObservations sfmData).countP (fun p => decide (p.2.1 ∈ F)) := by
  unfold sampledObservations
  rw [← List.countP_eq_length_filter]
  apply List.countP_congr
  intro p _
  simp [sampled, hF]

theorem sampled_length_union (sfmData : SfMData) (F₁ F₂ : Finset IndexT) (h₁ : F₁ ≠ ∅)
    (h₂ : F₂ ≠ ∅) (hd : Disjoint F₁ F₂) :
    (sampledObservations sfmData (F₁ ∪ F₂)).length
      = (sampledObservations sfmData F₁).length + (sampledObservations sfmData F₂).length := by
  have h12 : F₁ ∪ F₂ ≠ ∅ := by
    intro h
    apply h₁
    rw [Finset.union_eq_empty] at h
    exact h.1
  rw [sampled_length_of_nonempty _ _ h12, sampled_length_of_nonempty _ _ h₁,
    sampled_length_of_nonempty _ _ h₂]
  induction allObservations sfmData with
  | nil => simp
  | cons p rest ih =>
    rw [List.countP_cons, List.countP_cons, List.countP_cons, ih]
    have hnot : ¬ (p.2.1 ∈ F₁ ∧ p.2.1 ∈ F₂) := fun ⟨a, b⟩ =>
      Finset.disjoint_left.mp hd a b
    by_cases ha : p.2.1 ∈ F₁
    · have hb : p.2.1 ∉ F₂ := fun b => hnot ⟨ha, b⟩
      simp [ha, hb]
      omega
    · by_cases hb : p.2.1 ∈ F₂
      · simp [ha, hb]
        omega
      · simp [ha, hb]

theorem allObservations_views (sfmData : SfMData) :
    (allObservations sfmData).map (fun p => p.2.1)
      = sfmData.landmarks.entries.flatMap (fun landmark => landmark.2.observations.keys) := by
  unfold allObservations
  induction sfmData.landmarks.entries with
  | nil => simp
  | cons l rest ih =>
    rw [List.flatMap_cons, List.flatMap_cons, List.map_append, ih]
    simp [StdMap.keys]

theorem sampled_length_singleton (sfmData : SfMData) (v : IndexT) :
    (sampledObservations sfmData {v}).length
      = (sfmData.landmarks.entries.flatMap
          (fun landmark => landmark.2.observations.keys)).count v := by
  rw [sampled_length_of_nonempty _ _ (Finset.singleton_ne_empty v), ← allObservations_views,
    List.count, List.countP_map]
  apply List.countP_congr
  intro p _
  simp

theorem sampled_length_nofilter (sfmData : SfMData) :
    (sampledObservations sfmData ∅).length
      = (sfmData.landmarks.entries.flatMap
          (fun landmark => landmark.2.observations.keys)).length := by
  rw [← allObservations_views, List.length_map]
  unfold sampledObservations
  congr 1
  rw [List.filter_eq_self]
  intro p _
  simp [sampled]

/-- C18: for two disjoint non-empty view filters F₁ and F₂, the BoxStats.count that
computeResidualsHistogram returns with filter F₁ ∪ F₂ is the sum of the counts it returns
with F₁ and with F₂; and the sum, over the distinct view identifiers v occurring in
observations, of the count returned with filter {v} is the count returned with the empty
filter. The routine returns a result for every filter when the residual of every
observation can be computed. -/
theorem residual_counts_add_over_disjoint_filters (sfmData : SfMData)
    (F₁ F₂ : Finset IndexT) (h₁ : F₁ ≠ ∅) (h₂ : F₂ ≠ ∅) (hd : Disjoint F₁ F₂) :
    (∀ s h s₁ h₁ s₂ h₂ r r₁ r₂,
      computeResidualsHistogram sfmData s h (F₁ ∪ F₂) = some r →
      computeResidualsHistogram sfmData s₁ h₁ F₁ = some r₁ →
      computeResidualsHistogram sfmData s₂ h₂ F₂ = some r₂ →
      r.out_stats.count = r₁.out_stats.count + r₂.out_stats.count) ∧
    (∀ (viewIds : List IndexT) (counts : IndexT → Nat) s h r,
      viewIds.Nodup → (∀ v, v ∈ viewIds ↔ observedView sfmData v) →
      (∀ v ∈ viewIds, ∃ s' h' r', computeResidualsHistogram sfmData s' h' {v} = some r' ∧
        r'.out_stats.count = counts v) →
      computeResidualsHistogram sfmData s h ∅ = some r →
      (viewIds.map counts).sum = r.out_stats.count) ∧
    ((∀ p ∈ allObservations sfmData, (residualNormOf sfmData p.1 p.2).isSome = true) →
      ∀ F s h, ∃ r, computeResidualsHistogram sfmData s h F = some r) := by
  refine ⟨?_, ?_, ?_⟩
  · intro s h s₁ h₁' s₂ h₂' r r₁ r₂ e e₁ e₂
    rw [computeResidualsHistogram_count sfmData s h _ r e,
      computeResidualsHistogram_count sfmData s₁ h₁' _ r₁ e₁,
      computeResidualsHistogram_count sfmData s₂ h₂' _ r₂ e₂]
    exact sampled_length_union sfmData F₁ F₂ h₁ h₂ hd
  · intro viewIds counts s h r hnd hmem hcounts e
    rw [computeResidualsHistogram_count sfmData s h _ r e, sampled_length_nofilter]
    have hc : viewIds.map counts = viewIds.map (fun v =>
        (sfmData.landmarks.entries.flatMap
          (fun landmark => landmark.2.observations.keys)).count v) := by
      apply List.map_congr_left
      intro v hv
      obtain ⟨s', h', r', e', hcv⟩ := hcounts v hv
      rw [← hcv, computeResidualsHistogram_count sfmData s' h' _ r' e',
        sampled_length_singleton]
    rw [hc]
    apply sum_count_of_nodup _ _ hnd
    intro x hx
    obtain ⟨l, hl, hxl⟩ := List.mem_flatMap.mp hx
    exact (hmem x).mpr ⟨l, hl, hxl⟩
  · intro hall F s h
    obtain ⟨vec, hvec⟩ := specResiduals_defined sfmData F hall
    obtain ⟨r, hr, -⟩ := computeResidualsHistogram_of_some sfmData s h F vec hvec
    exact ⟨r, hr⟩

/-- Witness of C18 on the scenario of the specification: the filters {1} and {2} give
the counts 2 and 1, their union and the empty filter the count 3. -/
theorem residual_counts_add_over_disjoint_filters_witness :
    ({1} : Finset IndexT) ≠ ∅ ∧ ({2} : Finset IndexT) ≠ ∅ ∧
    Disjoint ({1} : Finset IndexT) {2} ∧
    ∃ r r₁ r₂ r₀,
      computeResidualsHistogram scenario BoxStats.default none ({1} ∪ {2}) = some r ∧
      computeResidualsHistogram scenario BoxStats.default none {1} = some r₁ ∧
      computeResidualsHistogram scenario BoxStats.default none {2} = some r₂ ∧
      computeResidualsHistogram scenario BoxStats.default none ∅ = some r₀ ∧
      r₁.out_stats.count = 2 ∧ r₂.out_stats.count = 1 ∧ r.out_stats.count = 3 ∧
      r₀.out_stats.count = 3 := by
  have hall : ∀ p ∈ allObservations scenario, (residualNormOf scenario p.1 p.2).isSome = true := by
    intro p hp
    apply scenario_resolves ∅ p
    unfold sampledObservations
    rw [List.mem_filter]
    exact ⟨hp, by simp [sampled]⟩
  have hd : Disjoint ({1} : Finset IndexT) {2} := by decide
  obtain ⟨hadd, hsum, hret⟩ :=
    residual_counts_add_over_disjoint_filters scenario {1} {2} (by decide) (by decide) hd
  obtain ⟨r, hr⟩ := hret hall ({1} ∪ {2}) BoxStats.default none
  obtain ⟨r₁, hr₁⟩ := hret hall {1} BoxStats.default none
  obtain ⟨r₂, hr₂⟩ := hret hall {2} BoxStats.default none
  obtain ⟨r₀, hr₀⟩ := hret hall ∅ BoxStats.default none
  have hc₁ : r₁.out_stats.count = 2 := by
    obtain ⟨r', hr', hs, -⟩ := computeResidualsHistogram_of_some scenario BoxStats.default none
      {1} [1, 2] scenario_residuals_view1
    rw [hr₁] at hr'
    cases hr'
    rw [hs, BoxStats.count_compute]
    rfl
  have hc₂ : r₂.out_stats.count = 1 := by
    obtain ⟨r', hr', hs, -⟩ := computeResidualsHistogram_of_some scenario BoxStats.default none
      {2} [3] scenario_residuals_view2
    rw [hr₂] at hr'
    cases hr'
    rw [hs, BoxStats.count_compute]
    rfl
  have hc := hadd _ _ _ _ _ _ r r₁ r₂ hr hr₁ hr₂
  have hobs : ∀ v, v ∈ [1, 2] ↔ observedView scenario v := by
    intro v
    unfold observedView
    simp only [scenario, landmarkA, landmarkB, StdMap.keys, List.mem_cons, List.mem_singleton,
      List.not_mem_nil, or_false, exists_eq_or_imp, exists_eq_left, List.map_cons, List.map_nil]
    tauto
  have hc₀ := hsum [1, 2] (fun v => if v = 1 then 2 else 1) BoxStats.default none r₀
    (by decide) hobs
    (by
      intro v hv
      simp only [List.mem_cons, List.mem_singleton, List.not_mem_nil, or_false] at hv
      rcases hv with rfl | rfl
      · exact ⟨_, _, r₁, hr₁, hc₁⟩
      · exact ⟨_, _, r₂, hr₂, hc₂⟩)
    hr₀
  refine ⟨by decide, by decide, hd, r, r₁, r₂, r₀, hr, hr₁, hr₂, hr₀, hc₁, hc₂, ?_, ?_⟩
  · rw [hc, hc₁, hc₂]
  · rw [← hc₀]
    rfl

/-! ## Views without observations -/

theorem appendStats_entries (o : PerViewOutputs) (l : List BoxStats) (i : Nat) (s : BoxStats)
    (hs : l[i]? = some s) :
    appendedEntries o (appendStats o l) i
      = [some s.min, some s.max, some s.mean, some s.median, some s.firstQuartile,
         some s.thirdQuartile] := by
  have key : ∀ (a : List Double) (f : BoxStats → Double),
      (a ++ l.map f)[a.length + i]? = some (f s) := by
    intro a f
    rw [List.getElem?_append_right (by omega), List.getElem?_map]
    simp [hs]
  simp only [appendedEntries, appendStats, key]

theorem allResults_eq_some {α : Type} (xs : List (Option α)) (l : List α)
    (h : allResults xs = some l) : xs = l.map some := by
  induction xs generalizing l with
  | nil =>
    simp [allResults] at h
    subst h
    rfl
  | cons x rest ih =>
    cases x with
    | none => simp [allResults] at h
    | some a =>
      simp only [allResults] at h
      cases hr : allResults rest with
      | none => simp [hr] at h
      | some l' =>
        simp [hr] at h
        subst h
        rw [ih l' hr]
        rfl

theorem unobserved_no_observation (sfmData : SfMData) (v : IndexT)
    (hv : ¬ observedView sfmData v) :
    ∀ landmark ∈ sfmData.landmarks.entries,
      ∀ obs ∈ landmark.2.observations.entries, obs.1 ∉ ({v} : Finset IndexT) := by
  intro l hl o ho hmem
  apply hv
  rw [Finset.mem_singleton] at hmem
  exact ⟨l, hl, List.mem_map.mpr ⟨o, ho, hmem⟩⟩

theorem lengthsStatsOfView_unobserved (sfmData : SfMData) (v : IndexT)
    (hv : ¬ observedView sfmData v) : lengthsStatsOfView sfmData v = BoxStats.default := by
  unfold lengthsStatsOfView
  rw [specLengths_nil_of_unobserved sfmData {v} (unobserved_no_observation sfmData v hv)]
  exact BoxStats.compute_nil

theorem specResiduals_unobserved (sfmData : SfMData) (v : IndexT)
    (hv : ¬ observedView sfmData v) : specResiduals sfmData {v} = some [] := by
  unfold specResiduals
  rw [sampledObservations_nil_of_unobserved sfmData {v} (Finset.singleton_ne_empty v)
    (unobserved_no_observation sfmData v hv)]
  rfl

theorem perView_no_landmarks (sfmData : SfMData) (hE : sfmData.landmarks.entries = [])
    (o : PerViewOutputs) :
    computeResidualsPerView sfmData o = some o ∧
    computeObservationsLengthsPerView sfmData o = some o := by
  have hempty : sfmData.getLandmarks.empty = true := by
    simp [SfMData.getLandmarks, StdMap.empty, hE]
  constructor
  · simp [computeResidualsPerView, hempty]
  · simp [computeObservationsLengthsPerView, hempty]

theorem perView_with_landmarks (sfmData : SfMData) (hL : sfmData.landmarks.entries ≠ [])
    (o : PerViewOutputs) :
    computeObservationsLengthsPerView sfmData o
      = some (appendStats o
          (sfmData.views.entries.map (fun viewIt => lengthsStatsOfView sfmData viewIt.1))) ∧
    computeResidualsPerView sfmData o
      = (allResults
          (sfmData.views.entries.map (fun viewIt => residualStatsOfView sfmData viewIt.1))).map
          (appendStats o) := by
  have hne : sfmData.getLandmarks.empty = false := by
    cases h : sfmData.landmarks.entries with
    | nil => exact absurd h hL
    | cons a l => simp [SfMData.getLandmarks, StdMap.empty, h]
  constructor
  · unfold computeObservationsLengthsPerView
    simp only [hne, Bool.false_eq_true, if_false, SfMData.getViews]
    obtain ⟨cnt', h⟩ := lengthsPerView_foldlM sfmData sfmData.views.entries o 0
    rw [h]
    rfl
  · unfold computeResidualsPerView
    simp only [hne, Bool.false_eq_true, if_false, SfMData.getViews]
    exact residualsPerView_foldlM sfmData _ o

theorem entries_of_stats (sfmData : SfMData) (o : PerViewOutputs) (l : List BoxStats)
    (f : IndexT → Option BoxStats)
    (hl : sfmData.views.entries.map (fun viewIt => f viewIt.1) = l.map some)
    (i : Nat) (viewIt : IndexT × View) (hi : sfmData.views.entries[i]? = some viewIt)
    (s : BoxStats) (hs : f viewIt.1 = some s) :
    appendedEntries o (appendStats o l) i
      = [some s.min, some s.max, some s.mean, some s.median, some s.firstQuartile,
         some s.thirdQuartile] := by
  apply appendStats_entries
  have h1 : (sfmData.views.entries.map (fun viewIt => f viewIt.1))[i]? = some (f viewIt.1) := by
    rw [List.getElem?_map, hi]
    rfl
  rw [hl, List.getElem?_map, hs] at h1
  cases hli : l[i]? with
  | none => rw [hli] at h1; cases h1
  | some s' =>
    rw [hli] at h1
    simp only [Option.map_some', Option.some.injEq] at h1
    rw [h1]

/-- C19: on a dataset with at least one landmark, for every view of the dataset that no
landmark observes, the six entries that computeObservationsLengthsPerView and
computeResidualsPerView append for that view are all 0, the fields of the default
BoxStats; the residual routine appends the same six entries for a view whose residuals
are all 0, and the count, which tells the two BoxStats apart, is not among the appended
entries. On a dataset with no landmarks both routines return their in/out parameters
unchanged: nothing is appended and the view counter keeps its value. -/
theorem unobserved_view_appends_zero_entries (sfmData : SfMData) (o : PerViewOutputs) :
    (sfmData.landmarks.entries ≠ [] →
      (∃ r, computeObservationsLengthsPerView sfmData o = some r ∧
        ∀ i viewIt, sfmData.views.entries[i]? = some viewIt →
          ¬ observedView sfmData viewIt.1 →
          appendedEntries o r i = List.replicate 6 (some 0)) ∧
      (∀ r, computeResidualsPerView sfmData o = some r →
        (∀ i viewIt, sfmData.views.entries[i]? = some viewIt →
          ¬ observedView sfmData viewIt.1 →
          appendedEntries o r i = List.replicate 6 (some 0)) ∧
        (∀ i viewIt vec, sfmData.views.entries[i]? = some viewIt →
          collectResiduals sfmData {viewIt.1} = some vec → (∀ x ∈ vec, x = 0) →
          appendedEntries o r i = List.replicate 6 (some 0))) ∧
      ((∀ p ∈ allObservations sfmData, (residualNormOf sfmData p.1 p.2).isSome = true) →
        ∃ r, computeResidualsPerView sfmData o = some r)) ∧
    (∀ vec : List Double, vec ≠ [] → (∀ x ∈ vec, x = 0) →
      (BoxStats.compute vec).count ≠ BoxStats.default.count ∧
      appendStats o [BoxStats.compute vec] = appendStats o [BoxStats.default]) ∧
    (sfmData.landmarks.entries = [] →
      computeResidualsPerView sfmData o = some o ∧
      computeObservationsLengthsPerView sfmData o = some o) := by
  refine ⟨?_, ?_, fun hE => perView_no_landmarks sfmData hE o⟩
  · intro hL
    obtain ⟨hlen, hres⟩ := perView_with_landmarks sfmData hL o
    have zeros : ∀ (r : PerViewOutputs) (l : List BoxStats) (f : IndexT → Option BoxStats),
        r = appendStats o l →
        sfmData.views.entries.map (fun viewIt => f viewIt.1) = l.map some →
        ∀ i viewIt (s : BoxStats), sfmData.views.entries[i]? = some viewIt →
          f viewIt.1 = some s →
          s.min = 0 ∧ s.max = 0 ∧ s.mean = 0 ∧ s.median = 0 ∧ s.firstQuartile = 0 ∧
            s.thirdQuartile = 0 →
          appendedEntries o r i = List.replicate 6 (some 0) := by
      intro r l f hr hl i viewIt s hi hs hz
      rw [hr, entries_of_stats sfmData o l f hl i viewIt hi s hs]
      obtain ⟨z1, z2, z3, z4, z5, z6⟩ := hz
      rw [z1, z2, z3, z4, z5, z6]
      rfl
    have zdef : BoxStats.default.min = 0 ∧ BoxStats.default.max = 0 ∧
        BoxStats.default.mean = 0 ∧ BoxStats.default.median = 0 ∧
        BoxStats.default.firstQuartile = 0 ∧ BoxStats.default.thirdQuartile = 0 :=
      ⟨rfl, rfl, rfl, rfl, rfl, rfl⟩
    refine ⟨⟨_, hlen, ?_⟩, ?_, ?_⟩
    · intro i viewIt hi hv
      exact zeros _ _ (fun v => some (lengthsStatsOfView sfmData v)) rfl
        (by rw [List.map_map]; rfl) i viewIt _ hi
        (by show some (lengthsStatsOfView sfmData viewIt.1) = some BoxStats.default
            rw [lengthsStatsOfView_unobserved sfmData viewIt.1 hv]) zdef
    · intro r hr
      rw [hres] at hr
      cases hall : allResults
          (sfmData.views.entries.map (fun viewIt => residualStatsOfView sfmData viewIt.1)) with
      | none => rw [hall] at hr; cases hr
      | some l =>
        rw [hall] at hr
        simp only [Option.map_some', Option.some.injEq] at hr
        have hl := allResults_eq_some _ l hall
        constructor
        · intro i viewIt hi hv
          exact zeros r l (residualStatsOfView sfmData) hr.symm hl i viewIt _ hi
            (by unfold residualStatsOfView
                rw [specResiduals_unobserved sfmData viewIt.1 hv, Option.map_some',
                  BoxStats.compute_nil]) zdef
        · intro i viewIt vec hi hvec hzero
          rw [collectResiduals_eq_spec] at hvec
          exact zeros r l (residualStatsOfView sfmData) hr.symm hl i viewIt _ hi
            (by unfold residualStatsOfView; rw [hvec, Option.map_some'])
            (boxStats_zero_samples vec hzero)
    · intro hall
      have hsome : ∀ viewIt ∈ sfmData.views.entries,
          residualStatsOfView sfmData viewIt.1
            = some (BoxStats.compute ((specResiduals sfmData {viewIt.1}).getD [])) := by
        intro viewIt _
        obtain ⟨vec, hvec⟩ := specResiduals_defined sfmData {viewIt.1} hall
        simp [residualStatsOfView, hvec]
      rw [hres, allResults_map_some _ _ _ hsome]
      exact ⟨_, rfl⟩
  · intro vec hne hzero
    obtain ⟨z1, z2, z3, z4, z5, z6⟩ := boxStats_zero_samples vec hzero
    constructor
    · rw [BoxStats.count_compute]
      show vec.length ≠ 0
      exact fun h => hne (List.length_eq_zero.mp h)
    · simp only [appendStats, List.map_cons, List.map_nil, z1, z2, z3, z4, z5, z6]
      rfl

theorem flatScene_residuals_view1 : specResiduals flatScene {1} = some [0] := by
  simp [specResiduals, sampledObservations, allObservations, flatScene, sampled,
    residualNormsOf, residualNormOf, SfMData.getView, SfMData.getPose,
    SfMData.getIntrinsics, StdMap.find, List.lookup, scenarioIntrinsic]

theorem flatScene_resolves :
    ∀ p ∈ allObservations flatScene, (residualNormOf flatScene p.1 p.2).isSome = true := by
  intro p hp
  simp [allObservations, flatScene] at hp
  subst hp
  simp [residualNormOf, SfMData.getView, SfMData.getPose, SfMData.getIntrinsics,
    StdMap.find, List.lookup, flatScene]

theorem flatScene_view2_unobserved : ¬ observedView flatScene 2 := by
  unfold observedView
  simp [flatScene, StdMap.keys]

/-- Witness of C19: in the dataset with views 1 and 2 whose only landmark is observed in
view 1 with residual norm 0, the entries appended for view 2 (no observation) are all 0
in both routines, and the residual routine appends the same entries for view 1; on the
dataset without landmarks the in/out parameters come back unchanged. -/
theorem unobserved_view_appends_zero_entries_witness :
    flatScene.landmarks.entries ≠ [] ∧ ¬ observedView flatScene 2 ∧
    (∃ r, computeObservationsLengthsPerView flatScene
        { nbViews := 4, perViewMin := [7], perViewMax := [7], perViewMean := [7],
          perViewMedian := [7], perViewFirstQuartile := [7], perViewThirdQuartile := [7] }
        = some r ∧
      appendedEntries
        { nbViews := 4, perViewMin := [7], perViewMax := [7], perViewMean := [7],
          perViewMedian := [7], perViewFirstQuartile := [7], perViewThirdQuartile := [7] }
        r 1 = List.replicate 6 (some 0)) ∧
    (∃ r, computeResidualsPerView flatScene
        { nbViews := 4, perViewMin := [7], perViewMax := [7], perViewMean := [7],
          perViewMedian := [7], perViewFirstQuartile := [7], perViewThirdQuartile := [7] }
        = some r ∧
      appendedEntries
        { nbViews := 4, perViewMin := [7], perViewMax := [7], perViewMean := [7],
          perViewMedian := [7], perViewFirstQuartile := [7], perViewThirdQuartile := [7] }
        r 1 = List.replicate 6 (some 0) ∧
      appendedEntries
        { nbViews := 4, perViewMin := [7], perViewMax := [7], perViewMean := [7],
          perViewMedian := [7], perViewFirstQuartile := [7], perViewThirdQuartile := [7] }
        r 0 = List.replicate 6 (some 0)) ∧
    emptyScene.landmarks.entries = [] ∧
    computeResidualsPerView emptyScene
        { nbViews := 4, perViewMin := [7], perViewMax := [7], perViewMean := [7],
          perViewMedian := [7], perViewFirstQuartile := [7], perViewThirdQuartile := [7] }
      = some { nbViews := 4, perViewMin := [7], perViewMax := [7], perViewMean := [7],
               perViewMedian := [7], perViewFirstQuartile := [7],
               perViewThirdQuartile := [7] } := by
  have hL : flatScene.landmarks.entries ≠ [] := List.cons_ne_nil _ _
  obtain ⟨hwith, -, -⟩ := unobserved_view_appends_zero_entries flatScene
    { nbViews := 4, perViewMin := [7], perViewMax := [7], perViewMean := [7],
      perViewMedian := [7], perViewFirstQuartile := [7], perViewThirdQuartile := [7] }
  obtain ⟨⟨rl, hrl, hzl⟩, hres, hret⟩ := hwith hL
  obtain ⟨rr, hrr⟩ := hret flatScene_resolves
  obtain ⟨hzr, hzz⟩ := hres rr hrr
  have hv1 : flatScene.views.entries[0]?
      = some (1, { viewId := 1, intrinsicId := 0, poseId := 1 }) := rfl
  have hv2 : flatScene.views.entries[1]?
      = some (2, { viewId := 2, intrinsicId := 0, poseId := 2 }) := rfl
  refine ⟨hL, flatScene_view2_unobserved, ⟨rl, hrl, ?_⟩, ⟨rr, hrr, ?_, ?_⟩, rfl, ?_⟩
  · exact hzl 1 _ hv2 flatScene_view2_unobserved
  · exact hzr 1 _ hv2 flatScene_view2_unobserved
  · exact hzz 0 _ [0] hv1 (by rw [collectResiduals_eq_spec]; exact flatScene_residuals_view1)
      (by simp)
  · exact ((unobserved_view_appends_zero_entries emptyScene _).2.2 rfl).1

end sfm

end aliceVision
